import Mathlib

/-!
Sentinel-1 thermal-noise lookup (`otbSentinel1ThermalNoiseLookupData.cxx`), followed by
the channel and version helpers of `mvdCore.h` / `mvdColorDynamicsController.h` and the
functor of `itkMaskNegatedImageFilter.h`.

A shallow embedding of `otb::Sentinel1ThermalNoiseLookupData` and of these helpers.

Conventions of the embedding.

* The arithmetic of the lookup is a parameter (`Arithmetic`). `Arithmetic.machine` is the
  arithmetic of the compiled code: `float` and `double` are IEEE-754 binary32 and
  binary64 with round-to-nearest, ties to even, every operation rounded on its own;
  `int` is a 32-bit and `IndexValueType` a 64-bit two's-complement integer, and an
  integer result is taken modulo `2^32` or `2^64`. `Arithmetic.ideal` is the arithmetic
  of the specification: no rounding, unbounded integers.
* A finite floating-point value is the rational number it stands for (`ℚ`). A
  computation whose result is not a finite number (an infinity or a NaN: division by
  zero, overflow) or is not defined at all (an element access outside a vector, a
  failed `assert`) yields `none`, and so does every computation that uses it. The
  vectors handed to the lookup hold finite numbers. (Only one operation of IEEE
  arithmetic makes a finite number out of one that is not: a finite number divided by
  an infinity is zero. In the code this can happen in `muY` alone, for a `deltaMJD`
  that is an infinity, the difference of two times more than `10^308` days apart; the
  embedding gives no value there.)
* Integer values are elements of `Int`; `IsInt z` says that `z` is a value of the type
  `int`.
* `std::vector` is `List`; an element access with an `int` index is `elemAt`.
-/

namespace otb

/-! ## Machine arithmetic -/

/-- The two floating-point types of the code. -/
inductive FloatType where
  | float
  | double
deriving DecidableEq

/-- The number of significand bits of a floating-point type (binary32: 24,
binary64: 53). -/
def FloatType.prec : FloatType → Nat
  | .float => 24
  | .double => 53

/-- The largest exponent of a floating-point type (binary32: 127, binary64: 1023). -/
def FloatType.emax : FloatType → Int
  | .float => 127
  | .double => 1023

/-- Rounding of a rational number to the nearest integer, a tie going to the even
integer. -/
def roundHalfEven (r : ℚ) : Int :=
  let f := ⌊r⌋
  if r - f < 1 / 2 then f else if 1 / 2 < r - f then f + 1 else if f % 2 = 0 then f else f + 1

/-- The number of binary digits of `n`, less one (`⌊log₂ n⌋` for `n ≥ 1`), computed by
halving; `fuel` bounds the number of halvings. -/
def log2Nat : Nat → Nat → Nat
  | 0, _ => 0
  | fuel + 1, n => if n < 2 then 0 else log2Nat fuel (n / 2) + 1

/-- The exponent of the binade of a rational number: `⌊log₂ |q|⌋` for `q ≠ 0` (and 0
for `q = 0`). The digits of the numerator and of the denominator give it up to one. -/
def floorLog2 (q : ℚ) : Int :=
  if q = 0 then 0
  else
    let k : Int := (log2Nat q.num.natAbs q.num.natAbs : Int) - (log2Nat q.den q.den : Int)
    if (2 : ℚ) ^ k ≤ |q| then k else k - 1

/-- The exponent `e` such that the floating-point numbers around `q` are the integer
multiples of `2 ^ e`: `⌊log₂ |q|⌋ - (prec - 1)` for a normal number, and the exponent
`emin - (prec - 1) = 2 - emax - prec` of the subnormal numbers below. -/
def FloatType.ulpExponent (T : FloatType) (q : ℚ) : Int :=
  max (floorLog2 q - ((T.prec : Int) - 1)) (2 - T.emax - (T.prec : Int))

/-- The floating-point number nearest to `q` when the exponent range is unbounded
above (round to nearest, ties to even). -/
def FloatType.nearest (T : FloatType) (q : ℚ) : ℚ :=
  (roundHalfEven (q / (2 : ℚ) ^ T.ulpExponent q) : ℚ) * (2 : ℚ) ^ T.ulpExponent q

/-- IEEE-754 rounding of the exact result `q` of an operation: the nearest
floating-point number, `none` when that is beyond the largest finite number (the
operation overflows to an infinity). -/
def FloatType.round (T : FloatType) (q : ℚ) : Option ℚ :=
  if |T.nearest q| < (2 : ℚ) ^ (T.emax + 1) then some (T.nearest q) else none

/-- The value of type `int` that an integer result `z` becomes: `z` modulo `2^32`, in
`[-2^31, 2^31)`. -/
def toInt32 (z : Int) : Int := (z + 2147483648) % 4294967296 - 2147483648

/-- The value of a 64-bit signed integer type that an integer result `z` becomes: `z`
modulo `2^64`, in `[-2^63, 2^63)`. -/
def toInt64 (z : Int) : Int :=
  (z + 9223372036854775808) % 18446744073709551616 - 9223372036854775808

/-- The number `z` is a value of the type `int`. -/
def IsInt (z : Int) : Prop := -2147483648 ≤ z ∧ z ≤ 2147483647

instance (z : Int) : Decidable (IsInt z) := by
  unfold IsInt
  infer_instance

/-- An arithmetic: how the exact result of a floating-point operation is rounded
(`none`: no finite result), how an integer is converted to a floating-point type, and
what an integer result becomes in the types `int` and `IndexValueType`. -/
structure Arithmetic where
  round : FloatType → ℚ → Option ℚ
  ofInt : FloatType → Int → ℚ
  toInt : Int → Int
  toIndexValueType : Int → Int

/-- The arithmetic of the compiled code: IEEE-754 binary32 and binary64, 32-bit `int`,
64-bit `IndexValueType` (`itk::IndexValueType` is a `long`). The conversion of an
integer of at most 64 bits to a floating-point type never overflows. -/
def Arithmetic.machine : Arithmetic :=
  { round := FloatType.round
    ofInt := fun T z => T.nearest (z : ℚ)
    toInt := toInt32
    toIndexValueType := toInt64 }

/-- Modelled from the spec: the arithmetic in which the specification states its
formulas, without rounding and without integer overflow. -/
def Arithmetic.ideal : Arithmetic :=
  { round := fun _ q => some q
    ofInt := fun _ z => (z : ℚ)
    toInt := fun z => z
    toIndexValueType := fun z => z }

/-- Floating-point addition `a + b` in the type `T`. -/
def fadd (A : Arithmetic) (T : FloatType) (a b : ℚ) : Option ℚ := A.round T (a + b)

/-- Floating-point subtraction `a - b` in the type `T`. -/
def fsub (A : Arithmetic) (T : FloatType) (a b : ℚ) : Option ℚ := A.round T (a - b)

/-- Floating-point multiplication `a * b` in the type `T`. -/
def fmul (A : Arithmetic) (T : FloatType) (a b : ℚ) : Option ℚ := A.round T (a * b)

/-- Floating-point division `a / b` in the type `T`: no finite value when `b` is
zero. -/
def fdiv (A : Arithmetic) (T : FloatType) (a b : ℚ) : Option ℚ :=
  if b = 0 then none else A.round T (a / b)

/-- Modelled from the spec: the element types of the vectors `deltaPixels` and `vect`,
which are declared in a header that is not part of the source tree (the specification
calls them floating-point lists). They decide in which type `x - pixel` is divided by
an element of `deltaPixels` and in which type two elements of `vect` are subtracted. -/
structure ElementTypes where
  deltaPixels : FloatType
  vect : FloatType
deriving DecidableEq

/-- Both vectors declared as `std::vector<float>`. -/
def floatElements : ElementTypes := { deltaPixels := .float, vect := .float }

/-- Both vectors declared as `std::vector<double>`. -/
def doubleElements : ElementTypes := { deltaPixels := .double, vect := .double }

/-! ## Data model -/

/-- Modelled from the spec: the declaration of `Sentinel1CalibrationStruct` (a header
that is not part of the source tree); one range-noise record, with the fields that
the `.cxx` file reads and writes. `line` and `pixels` are of type `int`; the times are
of type `double`, `deltaPixels` (the denominators of the pixel fraction) and `vect` are
floating-point vectors. `deltaMJD` is `none` when the difference that defines it is not
a finite number. -/
structure Sentinel1CalibrationStruct where
  timeMJD : ℚ
  deltaMJD : Option ℚ
  line : Int
  pixels : List Int
  deltaPixels : List ℚ
  vect : List ℚ
deriving DecidableEq

/-- Modelled from the spec: the declaration of `Sentinel1AzimuthNoiseStruct` (a header
that is not part of the source tree); one azimuth-noise block. -/
structure Sentinel1AzimuthNoiseStruct where
  firstAzimuthLine : Int
  firstRangeSample : Int
  lastAzimuthLine : Int
  lastRangeSample : Int
  lines : List Int
  vect : List ℚ
deriving DecidableEq

/-- The member variables of `Sentinel1ThermalNoiseLookupData` used by the `.cxx` file.
`m_LineTimeInterval` is `none` when the quotient that defines it is not a finite
number. -/
structure Sentinel1ThermalNoiseLookupData where
  m_FirstLineTime : ℚ
  m_LastLineTime : ℚ
  m_NumOfLines : Int
  m_LineTimeInterval : Option ℚ
  m_RangeCount : Int
  m_AzimuthCount : Int
  m_RangeNoiseVectorList : List Sentinel1CalibrationStruct
  m_AzimuthNoiseVectorList : List Sentinel1AzimuthNoiseStruct
deriving DecidableEq

/-- A freshly constructed lookup: no vectors, both counts zero. -/
def Sentinel1ThermalNoiseLookupData.fresh : Sentinel1ThermalNoiseLookupData :=
  { m_FirstLineTime := 0, m_LastLineTime := 0, m_NumOfLines := 0,
    m_LineTimeInterval := some 0, m_RangeCount := 0, m_AzimuthCount := 0,
    m_RangeNoiseVectorList := [], m_AzimuthNoiseVectorList := [] }

/-! ## Primitive operations -/

/-- Element access `v[i]` of a `std::vector` with an `int` index: a value only when
`0 ≤ i < v.size()`. -/
def elemAt {α : Type} (v : List α) (i : Int) : Option α :=
  if 0 ≤ i then v[i.toNat]? else none

/-- The position returned by `std::upper_bound(vec.begin(), vec.end(), x)`: the
position of the first element that is strictly greater than `x`, `vec.size()` when
there is none. -/
def upper_bound (vec : List Int) (x : Int) : Nat :=
  (vec.takeWhile (fun e => decide (¬ x < e))).length

/-! ## Queries -/

/-- `Sentinel1ThermalNoiseLookupData::GetPixelIndex`. -/
def GetPixelIndex (x : Int) (vec : List Int) : Int :=
  let size : Int := (vec.length : Int)
  let wh := upper_bound vec x
  if wh = vec.length then size - 2 else (wh : Int) - 1

/-- The loop of `GetRangeVectorIndex`: `trips` iterations remain, `i` is the loop
variable. Reading `m_RangeNoiseVectorList[i]` beyond the list is undefined. -/
def GetRangeVectorIndex.scan (l : List Sentinel1CalibrationStruct) (y : Int) :
    Nat → Nat → Option Int
  | 0, _ => some (-1)
  | trips + 1, i =>
    match l[i]? with
    | none => none
    | some v => if y ≤ v.line then some ((i : Int) - 1) else GetRangeVectorIndex.scan l y trips (i + 1)

/-- `Sentinel1ThermalNoiseLookupData::GetRangeVectorIndex`: the loop runs for
`i = 1, ..., m_RangeCount - 1`. -/
def GetRangeVectorIndex (s : Sentinel1ThermalNoiseLookupData) (y : Int) : Option Int :=
  GetRangeVectorIndex.scan s.m_RangeNoiseVectorList y (s.m_RangeCount - 1).toNat 1

/-- The test of `GetAzimuthVectorIndex`: the inclusive bounding box of the block
contains `(x, y)`. -/
def Sentinel1AzimuthNoiseStruct.contains (v : Sentinel1AzimuthNoiseStruct) (x y : Int) : Prop :=
  x ≥ v.firstRangeSample ∧ x ≤ v.lastRangeSample ∧ y ≥ v.firstAzimuthLine ∧ y ≤ v.lastAzimuthLine

instance (v : Sentinel1AzimuthNoiseStruct) (x y : Int) : Decidable (v.contains x y) := by
  unfold Sentinel1AzimuthNoiseStruct.contains
  infer_instance

/-- The loop of `GetAzimuthVectorIndex`: `trips` iterations remain, `i` is the loop
variable. -/
def GetAzimuthVectorIndex.scan (l : List Sentinel1AzimuthNoiseStruct) (x y : Int) :
    Nat → Nat → Option Int
  | 0, _ => some (-1)
  | trips + 1, i =>
    match l[i]? with
    | none => none
    | some v => if v.contains x y then some (i : Int) else GetAzimuthVectorIndex.scan l x y trips (i + 1)

/-- `Sentinel1ThermalNoiseLookupData::GetAzimuthVectorIndex`: the loop runs for
`i = 0, ..., m_AzimuthCount - 1`. -/
def GetAzimuthVectorIndex (s : Sentinel1ThermalNoiseLookupData) (x y : Int) : Option Int :=
  GetAzimuthVectorIndex.scan s.m_AzimuthNoiseVectorList x y s.m_AzimuthCount.toNat 0

/-- The azimuth time of line `y` in `GetRangeNoise` (line 114 of the source):
`azTime = m_FirstLineTime + y * m_LineTimeInterval`, in `double`; `y` is converted from
`IndexValueType` to `double`. -/
def GetRangeNoise.azTime (A : Arithmetic) (firstLineTime : ℚ) (lineTimeInterval : Option ℚ)
    (y : Int) : Option ℚ := do
  let lti ← lineTimeInterval
  let t ← fmul A .double (A.ofInt .double y) lti
  fadd A .double firstLineTime t

/-- The fraction `muY` of `GetRangeNoise` (lines 114 and 115 of the source):
`muY = (azTime - vec0.timeMJD) / vec1.deltaMJD`, in `double`. -/
def GetRangeNoise.muY (A : Arithmetic) (firstLineTime : ℚ) (lineTimeInterval : Option ℚ)
    (y : Int) (vec0 vec1 : Sentinel1CalibrationStruct) : Option ℚ := do
  let azTime ← GetRangeNoise.azTime A firstLineTime lineTimeInterval y
  let num ← fsub A .double azTime vec0.timeMJD
  let deltaMJD ← vec1.deltaMJD
  fdiv A .double num deltaMJD

/-- The fraction `muX` of `GetRangeNoise` (lines 116 and 117 of the source):
`pixelIdx = GetPixelIndex(x, vec0.pixels)`, where `x` is converted from
`IndexValueType` to `int`, and
`muX = (x - vec0.pixels[pixelIdx]) / vec0.deltaPixels[pixelIdx + 1]`: the difference is
taken in `IndexValueType`, converted to the element type of `deltaPixels` and divided
in that type. -/
def GetRangeNoise.muX (A : Arithmetic) (E : ElementTypes) (x : Int)
    (vec0 : Sentinel1CalibrationStruct) : Option ℚ := do
  let pixelIdx := GetPixelIndex (A.toInt x) vec0.pixels
  let p ← elemAt vec0.pixels pixelIdx
  let dp ← elemAt vec0.deltaPixels (pixelIdx + 1)
  fdiv A E.deltaPixels (A.ofInt E.deltaPixels (A.toIndexValueType (x - p))) dp

/-- The expression `lutVal` of `GetRangeNoise` (lines 118 and 119 of the source),
`(1 - muY) * ((1 - muX) * a0 + muX * a1) + muY * ((1 - muX) * b0 + muX * b1)`, every
operation in `double`. -/
def GetRangeNoise.lutVal (A : Arithmetic) (muX muY a0 a1 b0 b1 : ℚ) : Option ℚ := do
  let omy ← fsub A .double 1 muY
  let omx ← fsub A .double 1 muX
  let t0 ← fmul A .double omx a0
  let t1 ← fmul A .double muX a1
  let s0 ← fadd A .double t0 t1
  let t2 ← fmul A .double omx b0
  let t3 ← fmul A .double muX b1
  let s1 ← fadd A .double t2 t3
  let u0 ← fmul A .double omy s0
  let u1 ← fmul A .double muY s1
  fadd A .double u0 u1

/-- The part of `GetRangeNoise` that follows the choice of the bracketing vectors
`vec0` and `vec1` (lines 114 to 120 of the source): the two fractions, the four
stencil values and the blend. -/
def GetRangeNoise.blend (A : Arithmetic) (E : ElementTypes) (firstLineTime : ℚ)
    (lineTimeInterval : Option ℚ) (x y : Int) (vec0 vec1 : Sentinel1CalibrationStruct) :
    Option ℚ := do
  let muY ← GetRangeNoise.muY A firstLineTime lineTimeInterval y vec0 vec1
  let pixelIdx := GetPixelIndex (A.toInt x) vec0.pixels
  let muX ← GetRangeNoise.muX A E x vec0
  let a0 ← elemAt vec0.vect pixelIdx
  let a1 ← elemAt vec0.vect (pixelIdx + 1)
  let b0 ← elemAt vec1.vect pixelIdx
  let b1 ← elemAt vec1.vect (pixelIdx + 1)
  GetRangeNoise.lutVal A muX muY a0 a1 b0 b1

/-- `Sentinel1ThermalNoiseLookupData::GetRangeNoise`. The parameter `y` of type
`IndexValueType` is converted to `int` for `GetRangeVectorIndex(int)`. -/
def GetRangeNoise (A : Arithmetic) (E : ElementTypes) (s : Sentinel1ThermalNoiseLookupData)
    (x y : Int) : Option ℚ :=
  if s.m_RangeCount ≠ 0 then do
    let vecIdx ← GetRangeVectorIndex s (A.toInt y)
    if ¬ (vecIdx ≥ 0 ∧ vecIdx < s.m_RangeCount - 1) then none else
    let vec0 ← elemAt s.m_RangeNoiseVectorList vecIdx
    let vec1 ← elemAt s.m_RangeNoiseVectorList (vecIdx + 1)
    GetRangeNoise.blend A E s.m_FirstLineTime s.m_LineTimeInterval x y vec0 vec1
  else
    some 1

/-- The expression `lutVal` of `GetAzimuthNoise` (lines 137 and 138 of the source),
`v0 + (v1 - v0) * (double(y - l0) / double(l1 - l0))`: the two elements of `vect` are
subtracted in their element type; `y - l0` is taken in `IndexValueType` and `l1 - l0`
in `int`, both are converted to `double`; the quotient, the product and the sum are
taken in `double`. -/
def GetAzimuthNoise.lutVal (A : Arithmetic) (E : ElementTypes) (v0 v1 : ℚ) (l0 l1 y : Int) :
    Option ℚ := do
  let d ← fsub A E.vect v1 v0
  let frac ← fdiv A .double (A.ofInt .double (A.toIndexValueType (y - l0)))
    (A.ofInt .double (A.toInt (l1 - l0)))
  let t ← fmul A .double d frac
  fadd A .double v0 t

/-- `Sentinel1ThermalNoiseLookupData::GetAzimuthNoise`. The parameters of type
`IndexValueType` are converted to `int` for `GetAzimuthVectorIndex(int, int)` and
`GetPixelIndex(int, ...)`. -/
def GetAzimuthNoise (A : Arithmetic) (E : ElementTypes) (s : Sentinel1ThermalNoiseLookupData)
    (x y : Int) : Option ℚ :=
  if s.m_AzimuthCount ≠ 0 then do
    let vecIdx ← GetAzimuthVectorIndex s (A.toInt x) (A.toInt y)
    let vec ← elemAt s.m_AzimuthNoiseVectorList vecIdx
    let pixelIdx := GetPixelIndex (A.toInt y) vec.lines
    let v0 ← elemAt vec.vect pixelIdx
    let v1 ← elemAt vec.vect (pixelIdx + 1)
    let l0 ← elemAt vec.lines pixelIdx
    let l1 ← elemAt vec.lines (pixelIdx + 1)
    GetAzimuthNoise.lutVal A E v0 v1 l0 l1 y
  else
    some 1

/-- `Sentinel1ThermalNoiseLookupData::GetValue`: the product is taken in `double`. -/
def GetValue (A : Arithmetic) (E : ElementTypes) (s : Sentinel1ThermalNoiseLookupData)
    (x y : Int) : Option ℚ := do
  let r ← GetRangeNoise A E s x y
  let a ← GetAzimuthNoise A E s x y
  fmul A .double r a

/-! ## Construction from explicit parameters -/

/-- The value stored in `m_LineTimeInterval` by both ingestion paths:
`(lastLineTime - firstLineTime) / (numOfLines - 1)`, the difference of the times in
`double`, `numOfLines - 1` in `int`, converted to `double`, the quotient in `double`. -/
def computeLineTimeInterval (A : Arithmetic) (firstLineTime lastLineTime : ℚ) (numOfLines : Int) :
    Option ℚ :=
  (fsub A .double lastLineTime firstLineTime).bind
    (fun d => fdiv A .double d (A.ofInt .double (A.toInt (numOfLines - 1))))

/-- `Sentinel1ThermalNoiseLookupData::InitParameters`: every member is overwritten. -/
def InitParameters (A : Arithmetic) (_s : Sentinel1ThermalNoiseLookupData)
    (firstLineTime lastLineTime : ℚ) (numOfLines : Int)
    (rangeNoiseVectorList : List Sentinel1CalibrationStruct)
    (azimuthNoiseVectorList : List Sentinel1AzimuthNoiseStruct) :
    Sentinel1ThermalNoiseLookupData :=
  { m_FirstLineTime := firstLineTime
    m_LastLineTime := lastLineTime
    m_NumOfLines := numOfLines
    m_LineTimeInterval := computeLineTimeInterval A firstLineTime lastLineTime numOfLines
    m_RangeNoiseVectorList := rangeNoiseVectorList
    m_AzimuthNoiseVectorList := azimuthNoiseVectorList
    m_RangeCount := (rangeNoiseVectorList.length : Int)
    m_AzimuthCount := (azimuthNoiseVectorList.length : Int) }

/-- First vector of the spec's 2-entry range-noise table. -/
def specVector0 : Sentinel1CalibrationStruct :=
  { timeMJD := 0, deltaMJD := some 0, line := 0, pixels := [0, 10],
    deltaPixels := [0, 10], vect := [1, 2] }

/-- Second vector of the spec's 2-entry range-noise table. -/
def specVector1 : Sentinel1CalibrationStruct :=
  { timeMJD := 1, deltaMJD := some 1, line := 100, pixels := [0, 10],
    deltaPixels := [0, 10], vect := [3, 4] }

/-- The 2-entry range-noise table of the spec's testable properties. -/
def specTable : List Sentinel1CalibrationStruct := [specVector0, specVector1]

/-- The lookup of the spec's testable properties, built in the arithmetic `A`:
`firstLineTime = 0`, `lastLineTime = 1`, `numOfLines = 101`, no azimuth block. -/
def specLookup (A : Arithmetic) : Sentinel1ThermalNoiseLookupData :=
  InitParameters A Sentinel1ThermalNoiseLookupData.fresh 0 1 101 specTable []

/-- The azimuth block of the spec's testable properties: `lines = [0, 10]`,
`vect = [2, 4]`, bounding box `x ∈ [0, 5]`, `y ∈ [0, 10]`. -/
def specAzimuthBlock : Sentinel1AzimuthNoiseStruct :=
  { firstAzimuthLine := 0, firstRangeSample := 0, lastAzimuthLine := 10,
    lastRangeSample := 5, lines := [0, 10], vect := [2, 4] }

/-- A lookup with no range vector and the single azimuth block `specAzimuthBlock`. -/
def specAzimuthLookup (A : Arithmetic) : Sentinel1ThermalNoiseLookupData :=
  InitParameters A Sentinel1ThermalNoiseLookupData.fresh 0 1 11 [] [specAzimuthBlock]

/-! ## Data-model invariants (spec, section 3) -/

/-- The invariant of a range-noise vector: `pixels`, `deltaPixels` and `vect` have the
same length, at least 2, and `pixels` is strictly increasing. -/
def RangeVectorInvariant (v : Sentinel1CalibrationStruct) : Prop :=
  v.deltaPixels.length = v.pixels.length ∧ v.vect.length = v.pixels.length
    ∧ 2 ≤ v.pixels.length ∧ v.pixels.Pairwise (fun a b => a < b)

/-- The entries of `deltaPixels` are the consecutive differences of `pixels`:
`deltaPixels[k+1] = pixels[k+1] - pixels[k]` (entry 0 is not constrained). -/
def DeltaPixelsConsistent (v : Sentinel1CalibrationStruct) : Prop :=
  ∀ (k : Nat) (a b : Int), v.pixels[k]? = some a → v.pixels[k + 1]? = some b →
    v.deltaPixels[k + 1]? = some (((b - a : Int) : ℚ))

/-- The range-noise list is ordered by increasing `line` and `timeMJD`. -/
def RangeListOrdered (rl : List Sentinel1CalibrationStruct) : Prop :=
  rl.Pairwise (fun a b => a.line < b.line ∧ a.timeMJD < b.timeMJD)

/-- The premises of the interpolation-exactness property as the property states them,
for a lookup built by `InitParameters` from `firstLineTime`, `lastLineTime`,
`numOfLines` and the range list `rl`: at least two range vectors, each with the vector
invariant, lines increasing, `deltaPixels` the consecutive differences of `pixels`,
`timeMJD` equal to `firstLineTime + line * lineTimeInterval` and `deltaMJD` the
difference of consecutive `timeMJD`. -/
def ExactnessPremises (firstLineTime lastLineTime : ℚ) (numOfLines : Int)
    (rl : List Sentinel1CalibrationStruct) : Prop :=
  2 ≤ rl.length
    ∧ (∀ v ∈ rl, RangeVectorInvariant v)
    ∧ rl.Pairwise (fun a b => a.line < b.line)
    ∧ (∀ v ∈ rl, DeltaPixelsConsistent v)
    ∧ (∀ v ∈ rl, v.timeMJD
        = firstLineTime + (v.line : ℚ) * ((lastLineTime - firstLineTime) / ((numOfLines - 1 : Int) : ℚ)))
    ∧ (∀ (k : Nat) (a b : Sentinel1CalibrationStruct), rl[k]? = some a → rl[k + 1]? = some b →
        b.deltaMJD = some (b.timeMJD - a.timeMJD))

/-- A range vector at line 0 sampled on the pixel grid `[0, 10]`. -/
def mixedVector0 : Sentinel1CalibrationStruct :=
  { timeMJD := 0, deltaMJD := some 0, line := 0, pixels := [0, 10],
    deltaPixels := [0, 10], vect := [1, 2] }

/-- A range vector at line 100 sampled on the pixel grid `[0, 20]`. -/
def mixedVector1 : Sentinel1CalibrationStruct :=
  { timeMJD := 1, deltaMJD := some 1, line := 100, pixels := [0, 20],
    deltaPixels := [0, 20], vect := [3, 5] }

/-- A 2-entry range-noise table whose two vectors are sampled on different pixel
grids (`[0, 10]` and `[0, 20]`); every vector satisfies the vector invariant. -/
def mixedGridTable : List Sentinel1CalibrationStruct := [mixedVector0, mixedVector1]

/-- The lookup built in the arithmetic `A` from `mixedGridTable` with
`firstLineTime = 0`, `lastLineTime = 1`, `numOfLines = 101` and no azimuth block. -/
def mixedGridLookup (A : Arithmetic) : Sentinel1ThermalNoiseLookupData :=
  InitParameters A Sentinel1ThermalNoiseLookupData.fresh 0 1 101 mixedGridTable []

/-- Modelled from the spec: the right-hand side of the extrapolation property,
`rn + (x - pn) * (rn - rn1) / (pn - pn1)`, the line through the values `rn` at the last
pixel `pn` and `rn1` at the pixel `pn1` before it, evaluated at `x` in the arithmetic
`A` (in `double`, from left to right); defined when both values are. -/
def lastSegmentLine (A : Arithmetic) (rn rn1 : Option ℚ) (pn pn1 x : Int) : Option ℚ :=
  rn.bind (fun a => rn1.bind (fun b => do
    let d ← fsub A .double a b
    let m ← fmul A .double (A.ofInt .double (A.toIndexValueType (x - pn))) d
    let q ← fdiv A .double m (A.ofInt .double (A.toInt (pn - pn1)))
    fadd A .double a q))

/-- Modelled from the spec: the bilinear blend of section 4.2, step 7, as a real
number. -/
def bilinear (muX muY a0 a1 b0 b1 : ℚ) : ℚ :=
  (1 - muY) * ((1 - muX) * a0 + muX * a1) + muY * ((1 - muX) * b0 + muX * b1)

/-! ## Ingestion from metadata -/

/-- Modelled from the spec: the class `ImageKeywordlist`, which is not part of the
source tree: a string-keyed, string-valued association that supports `HasKey` and
`GetMetadataByKey`. -/
structure ImageKeywordlist where
  m_Keywordlist : List (String × String)

/-- The two ways in which reading one metadata value fails: the key is missing
(`GetMetadataByKey` throws), or the conversion of its value throws. -/
inductive IngestionError where
  | missingKey (key : String)
  | invalidValue (key : String)
deriving DecidableEq

/-- Modelled from the spec: `ImageKeywordlist::HasKey`. -/
def ImageKeywordlist.HasKey (kwl : ImageKeywordlist) (key : String) : Bool :=
  (kwl.m_Keywordlist.lookup key).isSome

/-- Modelled from the spec: `ImageKeywordlist::GetMetadataByKey`; a missing key is an
error. -/
def ImageKeywordlist.GetMetadataByKey (kwl : ImageKeywordlist) (key : String) :
    Except IngestionError String :=
  match kwl.m_Keywordlist.lookup key with
  | some v => .ok v
  | none => .error (.missingKey key)

/-- The conversions called by `SetImageKeywordlist` whose code is outside the source
tree, as parameters; each returns `none` where the C++ function throws.
`toModifiedJulianDate` stands for `ossimplugins::time::toModifiedJulianDate(...).as_day_frac()`
(a `double`), `stoi` for `std::stoi` (an `int`), the last two for
`Utils::ConvertStringToVector` into an initially empty vector of `int` and into an
initially empty floating-point vector. -/
structure Conversions where
  toModifiedJulianDate : String → Option ℚ
  stoi : String → Option Int
  ConvertStringToVectorInt : String → Option (List Int)
  ConvertStringToVectorFloat : String → Option (List ℚ)

/-- The pattern `conv(kwl.GetMetadataByKey(key))` of `SetImageKeywordlist`. -/
def readKey {α : Type} (kwl : ImageKeywordlist) (key : String) (conv : String → Option α) :
    Except IngestionError α :=
  match kwl.GetMetadataByKey key with
  | .error e => .error e
  | .ok v =>
    match conv v with
    | some a => .ok a
    | none => .error (.invalidValue key)

/-- The inner loop of `SetImageKeywordlist` over `rangeNoiseVector.pixels`:
`deltaPixels.push_back(pixel - prevPixel); prevPixel = pixel`. The difference is taken
in `int` and converted to the element type `T` of `deltaPixels`. -/
def SetImageKeywordlist.deltaPixelsLoop (A : Arithmetic) (T : FloatType) :
    Int → List Int → List ℚ → List ℚ
  | _, [], deltaPixels => deltaPixels
  | prevPixel, pixel :: rest, deltaPixels =>
    SetImageKeywordlist.deltaPixelsLoop A T pixel rest
      (deltaPixels ++ [A.ofInt T (A.toInt (pixel - prevPixel))])

/-- The body of the range loop of `SetImageKeywordlist` for entry `i`;
`timeMJD - lastMJD` is a subtraction in `double`. -/
def SetImageKeywordlist.rangeEntry (A : Arithmetic) (E : ElementTypes) (c : Conversions)
    (kwl : ImageKeywordlist) (i : Nat) (lastMJD : ℚ) :
    Except IngestionError Sentinel1CalibrationStruct := do
  let pfx := "noise.noiseVector[" ++ toString i ++ "]."
  let timeMJD ← readKey kwl (pfx ++ "azimuthTime") c.toModifiedJulianDate
  let deltaMJD := fsub A .double timeMJD lastMJD
  let line ← readKey kwl (pfx ++ "line") c.stoi
  let pixels ← readKey kwl (pfx ++ "pixel") c.ConvertStringToVectorInt
  let vect ← readKey kwl (pfx ++ "noiseLut") c.ConvertStringToVectorFloat
  let deltaPixels := SetImageKeywordlist.deltaPixelsLoop A E.deltaPixels 0 pixels []
  pure { timeMJD := timeMJD, deltaMJD := deltaMJD, line := line, pixels := pixels,
         deltaPixels := deltaPixels, vect := vect }

/-- The range loop of `SetImageKeywordlist`: `trips` iterations remain, `i` is the loop
variable, `acc` is `m_RangeNoiseVectorList` so far. -/
def SetImageKeywordlist.rangeLoop (A : Arithmetic) (E : ElementTypes) (c : Conversions)
    (kwl : ImageKeywordlist) :
    Nat → Nat → ℚ → List Sentinel1CalibrationStruct →
      Except IngestionError (List Sentinel1CalibrationStruct)
  | 0, _, _, acc => .ok acc
  | trips + 1, i, lastMJD, acc =>
    match SetImageKeywordlist.rangeEntry A E c kwl i lastMJD with
    | .error e => .error e
    | .ok rangeNoiseVector =>
      SetImageKeywordlist.rangeLoop A E c kwl trips (i + 1) rangeNoiseVector.timeMJD
        (acc ++ [rangeNoiseVector])

/-- The body of the azimuth loop of `SetImageKeywordlist` for entry `i`. -/
def SetImageKeywordlist.azimuthEntry (c : Conversions) (kwl : ImageKeywordlist) (i : Nat) :
    Except IngestionError Sentinel1AzimuthNoiseStruct := do
  let pfx := "noise.noiseAzimuthVector[" ++ toString i ++ "]."
  let firstAzimuthLine ← readKey kwl (pfx ++ "firstAzimuthLine") c.stoi
  let firstRangeSample ← readKey kwl (pfx ++ "firstRangeSample") c.stoi
  let lastAzimuthLine ← readKey kwl (pfx ++ "lastAzimuthLine") c.stoi
  let lastRangeSample ← readKey kwl (pfx ++ "lastRangeSample") c.stoi
  let lines ← readKey kwl (pfx ++ "line") c.ConvertStringToVectorInt
  let vect ← readKey kwl (pfx ++ "noiseAzimuthLut") c.ConvertStringToVectorFloat
  pure { firstAzimuthLine := firstAzimuthLine, firstRangeSample := firstRangeSample,
         lastAzimuthLine := lastAzimuthLine, lastRangeSample := lastRangeSample,
         lines := lines, vect := vect }

/-- The azimuth loop of `SetImageKeywordlist`: `acc` is `m_AzimuthNoiseVectorList` so
far. -/
def SetImageKeywordlist.azimuthLoop (c : Conversions) (kwl : ImageKeywordlist) :
    Nat → Nat → List Sentinel1AzimuthNoiseStruct →
      Except IngestionError (List Sentinel1AzimuthNoiseStruct)
  | 0, _, acc => .ok acc
  | trips + 1, i, acc =>
    match SetImageKeywordlist.azimuthEntry c kwl i with
    | .error e => .error e
    | .ok azimuthNoiseVector =>
      SetImageKeywordlist.azimuthLoop c kwl trips (i + 1) (acc ++ [azimuthNoiseVector])

/-- `Sentinel1ThermalNoiseLookupData::SetImageKeywordlist`. The range list is cleared
before the range loop; the azimuth members are only touched inside
`if (kwl.HasKey("noise.azimuthCount"))`, where the new blocks are pushed onto the
list as it is. An exception thrown on the way is the result `.error`. -/
def SetImageKeywordlist (A : Arithmetic) (E : ElementTypes) (c : Conversions)
    (s : Sentinel1ThermalNoiseLookupData) (kwl : ImageKeywordlist) :
    Except IngestionError Sentinel1ThermalNoiseLookupData := do
  let firstLineTime ← readKey kwl "calibration.startTime" c.toModifiedJulianDate
  let lastLineTime ← readKey kwl "calibration.stopTime" c.toModifiedJulianDate
  let numOfLines ← readKey kwl "number_lines" c.stoi
  let lti := computeLineTimeInterval A firstLineTime lastLineTime numOfLines
  let rangeCount ← readKey kwl "noise.rangeCount" c.stoi
  let rangeNoiseVectorList ← SetImageKeywordlist.rangeLoop A E c kwl rangeCount.toNat 0 0 []
  if kwl.HasKey "noise.azimuthCount" then
    let azimuthCount ← readKey kwl "noise.azimuthCount" c.stoi
    let azimuthNoiseVectorList ←
      SetImageKeywordlist.azimuthLoop c kwl azimuthCount.toNat 0 s.m_AzimuthNoiseVectorList
    pure { m_FirstLineTime := firstLineTime, m_LastLineTime := lastLineTime,
           m_NumOfLines := numOfLines, m_LineTimeInterval := lti,
           m_RangeCount := rangeCount, m_AzimuthCount := azimuthCount,
           m_RangeNoiseVectorList := rangeNoiseVectorList,
           m_AzimuthNoiseVectorList := azimuthNoiseVectorList }
  else
    pure { m_FirstLineTime := firstLineTime, m_LastLineTime := lastLineTime,
           m_NumOfLines := numOfLines, m_LineTimeInterval := lti,
           m_RangeCount := rangeCount, m_AzimuthCount := s.m_AzimuthCount,
           m_RangeNoiseVectorList := rangeNoiseVectorList,
           m_AzimuthNoiseVectorList := s.m_AzimuthNoiseVectorList }

/-! ## Sample conversions and sample metadata -/

/-- The value of a run of decimal digits. -/
def digitsValue (ds : List Char) : Nat :=
  ds.foldl (fun acc d => 10 * acc + (d.toNat - 48)) 0

/-- A model of `std::stoi` (base 10): leading white space is skipped, an optional sign
and the longest run of digits are read, what follows is ignored; no digit
(`std::invalid_argument`) or a value outside `int` (`std::out_of_range`) is `none`. -/
def std_stoi (str : String) : Option Int :=
  let cs := str.toList.dropWhile Char.isWhitespace
  let neg := cs.head? = some '-'
  let body := if cs.head? = some '-' ∨ cs.head? = some '+' then cs.tail else cs
  let ds := body.takeWhile Char.isDigit
  if ds = [] then none
  else
    let v : Int := if neg then - (digitsValue ds : Int) else (digitsValue ds : Int)
    if -2147483648 ≤ v ∧ v ≤ 2147483647 then some v else none

/-- Splitting at every blank; `cur` is the token being read. -/
def splitOnSpace : List Char → List Char → List (List Char)
  | [], cur => [cur]
  | ch :: rest, cur =>
    if ch = ' ' then cur :: splitOnSpace rest [] else splitOnSpace rest (cur ++ [ch])

/-- A whole token read as a decimal integer. -/
def tokenToInt (tok : List Char) : Option Int :=
  let neg := tok.head? = some '-'
  let body := if neg then tok.tail else tok
  if body = [] ∨ ¬ body.all Char.isDigit then none
  else some (if neg then - (digitsValue body : Int) else (digitsValue body : Int))

/-- A sample list conversion: blank-separated integer tokens. -/
def convertInts (str : String) : Option (List Int) :=
  (splitOnSpace str.toList []).mapM tokenToInt

/-- A sample list conversion to floating-point values: blank-separated tokens, each an
integer numeral (used on small numerals, which every floating-point type holds). -/
def convertFloats (str : String) : Option (List ℚ) :=
  (splitOnSpace str.toList []).mapM (fun tok => (tokenToInt tok).map (fun z => (z : ℚ)))

/-- A sample time conversion, defined on the three time stamps of the sample metadata
(modified Julian dates 58849, 58849.5 and 58850). -/
def sampleTime (str : String) : Option ℚ :=
  if str = "2020-01-01T00:00:00" then some 58849
  else if str = "2020-01-01T12:00:00" then some (117699 / 2)
  else if str = "2020-01-02T00:00:00" then some 58850
  else none

/-- The sample conversions used to run `SetImageKeywordlist` on sample metadata. -/
def sampleConversions : Conversions :=
  { toModifiedJulianDate := sampleTime, stoi := std_stoi,
    ConvertStringToVectorInt := convertInts, ConvertStringToVectorFloat := convertFloats }

/-- Sample metadata of a product with a single line: `number_lines` is `1`. -/
def singleLineMetadata : ImageKeywordlist :=
  ⟨[("calibration.startTime", "2020-01-01T00:00:00"),
    ("calibration.stopTime", "2020-01-02T00:00:00"),
    ("number_lines", "1"),
    ("noise.rangeCount", "0")]⟩

/-- Sample metadata whose `number_lines` value is not a number. -/
def textLinesMetadata : ImageKeywordlist :=
  ⟨[("calibration.startTime", "2020-01-01T00:00:00"),
    ("calibration.stopTime", "2020-01-02T00:00:00"),
    ("number_lines", "many"),
    ("noise.rangeCount", "0")]⟩

/-- Sample metadata with one range-noise entry whose `pixel` list has two elements and
whose `noiseLut` list has one. -/
def mismatchedMetadata : ImageKeywordlist :=
  ⟨[("calibration.startTime", "2020-01-01T00:00:00"),
    ("calibration.stopTime", "2020-01-02T00:00:00"),
    ("number_lines", "101"),
    ("noise.rangeCount", "1"),
    ("noise.noiseVector[0].azimuthTime", "2020-01-01T00:00:00"),
    ("noise.noiseVector[0].line", "0"),
    ("noise.noiseVector[0].pixel", "0 10"),
    ("noise.noiseVector[0].noiseLut", "7")]⟩

/-- Sample metadata with one range-noise entry whose `pixel` list does not convert. -/
def brokenListMetadata : ImageKeywordlist :=
  ⟨[("calibration.startTime", "2020-01-01T00:00:00"),
    ("calibration.stopTime", "2020-01-02T00:00:00"),
    ("number_lines", "101"),
    ("noise.rangeCount", "1"),
    ("noise.noiseVector[0].azimuthTime", "2020-01-01T00:00:00"),
    ("noise.noiseVector[0].line", "0"),
    ("noise.noiseVector[0].pixel", "0 x"),
    ("noise.noiseVector[0].noiseLut", "7 8")]⟩

/-- Sample metadata of a legacy product: two range-noise entries and no
`noise.azimuthCount` key. -/
def legacyMetadata : ImageKeywordlist :=
  ⟨[("calibration.startTime", "2020-01-01T00:00:00"),
    ("calibration.stopTime", "2020-01-02T00:00:00"),
    ("number_lines", "101"),
    ("noise.rangeCount", "2"),
    ("noise.noiseVector[0].azimuthTime", "2020-01-01T00:00:00"),
    ("noise.noiseVector[0].line", "0"),
    ("noise.noiseVector[0].pixel", "0 10 25"),
    ("noise.noiseVector[0].noiseLut", "1 2 3"),
    ("noise.noiseVector[1].azimuthTime", "2020-01-02T00:00:00"),
    ("noise.noiseVector[1].line", "100"),
    ("noise.noiseVector[1].pixel", "0 10 25"),
    ("noise.noiseVector[1].noiseLut", "3 4 5")]⟩

/-- Sample metadata with one range-noise entry whose pixels are `-2000000000` and
`2000000000`: both are values of the type `int`, their difference is not. -/
def farPixelsMetadata : ImageKeywordlist :=
  ⟨[("calibration.startTime", "2020-01-01T00:00:00"),
    ("calibration.stopTime", "2020-01-02T00:00:00"),
    ("number_lines", "101"),
    ("noise.rangeCount", "1"),
    ("noise.noiseVector[0].azimuthTime", "2020-01-01T00:00:00"),
    ("noise.noiseVector[0].line", "0"),
    ("noise.noiseVector[0].pixel", "-2000000000 2000000000"),
    ("noise.noiseVector[0].noiseLut", "1 2")]⟩

/-- The lookup `s` with the `deltaMJD` of its first range vector replaced by `d`: a
lookup that differs from `s` only in `rangeNoiseVectorList[0].deltaMJD`. -/
def withFirstDeltaMJD (s : Sentinel1ThermalNoiseLookupData) (d : Option ℚ) :
    Sentinel1ThermalNoiseLookupData :=
  { s with m_RangeNoiseVectorList :=
      match s.m_RangeNoiseVectorList with
      | [] => []
      | v :: rest => { v with deltaMJD := d } :: rest }

/-- A range vector at line 0 with three samples. -/
def unevenVector0 : Sentinel1CalibrationStruct :=
  { timeMJD := 0, deltaMJD := some 0, line := 0, pixels := [0, 10, 20],
    deltaPixels := [0, 10, 10], vect := [1, 2, 3] }

/-- A range vector at line 100 with two samples. -/
def unevenVector1 : Sentinel1CalibrationStruct :=
  { timeMJD := 1, deltaMJD := some 1, line := 100, pixels := [0, 10],
    deltaPixels := [0, 10], vect := [3, 4] }

/-- A 2-entry range-noise table whose vectors have different sample counts (3 and 2);
every vector satisfies the vector invariant. -/
def unevenTable : List Sentinel1CalibrationStruct := [unevenVector0, unevenVector1]

/-- The lookup built in the arithmetic `A` from `unevenTable` with `firstLineTime = 0`,
`lastLineTime = 1`, `numOfLines = 101` and no azimuth block. -/
def unevenLookup (A : Arithmetic) : Sentinel1ThermalNoiseLookupData :=
  InitParameters A Sentinel1ThermalNoiseLookupData.fresh 0 1 101 unevenTable []

/-- Sample metadata with no range-noise entry and one azimuth-noise entry. -/
def azimuthMetadata : ImageKeywordlist :=
  ⟨[("calibration.startTime", "2020-01-01T00:00:00"),
    ("calibration.stopTime", "2020-01-02T00:00:00"),
    ("number_lines", "11"),
    ("noise.rangeCount", "0"),
    ("noise.azimuthCount", "1"),
    ("noise.noiseAzimuthVector[0].firstAzimuthLine", "0"),
    ("noise.noiseAzimuthVector[0].firstRangeSample", "0"),
    ("noise.noiseAzimuthVector[0].lastAzimuthLine", "10"),
    ("noise.noiseAzimuthVector[0].lastRangeSample", "5"),
    ("noise.noiseAzimuthVector[0].line", "0 10"),
    ("noise.noiseAzimuthVector[0].noiseAzimuthLut", "2 4")]⟩

/-! ## Tables on a time grid of one day per line -/

/-- A range-noise table on the pixel grid `[0, 10]` with a vector at line 0, time 0 and
values `lower`, and a vector at line 100, time 100 and values `upper`; the times and
deltas are consistent with `firstLineTime = 0` and a line time interval of 1. -/
def dayTable (lower upper : List ℚ) : List Sentinel1CalibrationStruct :=
  [{ timeMJD := 0, deltaMJD := some 0, line := 0, pixels := [0, 10],
     deltaPixels := [0, 10], vect := lower },
   { timeMJD := 100, deltaMJD := some 100, line := 100, pixels := [0, 10],
     deltaPixels := [0, 10], vect := upper }]

/-- The lookup built in the arithmetic `A` from `dayTable lower upper` with
`firstLineTime = 0`, `lastLineTime = 100`, `numOfLines = 101` (the line time interval
is exactly 1) and no azimuth block. -/
def dayLookup (A : Arithmetic) (lower upper : List ℚ) : Sentinel1ThermalNoiseLookupData :=
  InitParameters A Sentinel1ThermalNoiseLookupData.fresh 0 100 101 (dayTable lower upper) []

/-- An azimuth block with `lines = [0, 10]` and the values `2^30` and `2^(-24)`, both
of which are values of `float` and of `double`; bounding box `x ∈ [0, 5]`,
`y ∈ [0, 10]`. -/
def steepAzimuthBlock : Sentinel1AzimuthNoiseStruct :=
  { firstAzimuthLine := 0, firstRangeSample := 0, lastAzimuthLine := 10,
    lastRangeSample := 5, lines := [0, 10], vect := [1073741824, 1 / 16777216] }

/-- A lookup with no range vector and the single azimuth block `steepAzimuthBlock`. -/
def steepAzimuthLookup (A : Arithmetic) : Sentinel1ThermalNoiseLookupData :=
  InitParameters A Sentinel1ThermalNoiseLookupData.fresh 0 1 11 [] [steepAzimuthBlock]

end otb


/-! The helpers of `mvdCore.h` and `mvdColorDynamicsController.h`. -/

namespace mvd

/-- The enumeration `RgbwChannel` of `mvdCore.h`. -/
inductive RgbwChannel where
  | RGBW_CHANNEL_NONE
  | RGBW_CHANNEL_RED
  | RGBW_CHANNEL_GREEN
  | RGBW_CHANNEL_BLUE
  | RGBW_CHANNEL_WHITE
  | RGBW_CHANNEL_RGB
  | RGBW_CHANNEL_ALL
  | RGBW_CHANNEL_COUNT
deriving DecidableEq

/-- The integer value of an enumerator: `RGBW_CHANNEL_NONE = -1`, `RGBW_CHANNEL_RED = 0`,
and one more for each following enumerator. -/
def RgbwChannel.toInt : RgbwChannel → Int
  | .RGBW_CHANNEL_NONE => -1
  | .RGBW_CHANNEL_RED => 0
  | .RGBW_CHANNEL_GREEN => 1
  | .RGBW_CHANNEL_BLUE => 2
  | .RGBW_CHANNEL_WHITE => 3
  | .RGBW_CHANNEL_RGB => 4
  | .RGBW_CHANNEL_ALL => 5
  | .RGBW_CHANNEL_COUNT => 6

/-- What a call of `RgbBounds` / `RgbwBounds` leaves behind: the returned boolean and
the two reference parameters `begin` and `end`. -/
structure Bounds where
  result : Bool
  begin : Int
  end' : Int
deriving DecidableEq

/-- `mvd::RgbBounds`. The type `CountType` of `begin` and `end` is declared outside the
source tree; `toCountType` is the conversion of an `int` value to it. A failed `assert`
is `none`. -/
def RgbBounds (toCountType : Int → Int) (begin end' : Int) (channels : RgbwChannel) :
    Option Bounds :=
  if channels = .RGBW_CHANNEL_COUNT then none
  else
    match channels with
    | .RGBW_CHANNEL_NONE | .RGBW_CHANNEL_WHITE =>
      some { result := true
             begin := toCountType RgbwChannel.RGBW_CHANNEL_NONE.toInt
             end' := toCountType RgbwChannel.RGBW_CHANNEL_NONE.toInt }
    | .RGBW_CHANNEL_RED | .RGBW_CHANNEL_GREEN | .RGBW_CHANNEL_BLUE =>
      some { result := true
             begin := toCountType channels.toInt
             end' := toCountType (channels.toInt + 1) }
    | .RGBW_CHANNEL_RGB | .RGBW_CHANNEL_ALL =>
      some { result := true
             begin := toCountType RgbwChannel.RGBW_CHANNEL_RED.toInt
             end' := toCountType RgbwChannel.RGBW_CHANNEL_WHITE.toInt }
    | _ => some { result := false, begin := begin, end' := end' }

/-- `mvd::RgbwBounds`, with the same conventions as `RgbBounds`. -/
def RgbwBounds (toCountType : Int → Int) (begin end' : Int) (channels : RgbwChannel) :
    Option Bounds :=
  if channels = .RGBW_CHANNEL_COUNT then none
  else
    match channels with
    | .RGBW_CHANNEL_NONE =>
      some { result := true
             begin := toCountType RgbwChannel.RGBW_CHANNEL_NONE.toInt
             end' := toCountType RgbwChannel.RGBW_CHANNEL_NONE.toInt }
    | .RGBW_CHANNEL_RED | .RGBW_CHANNEL_GREEN | .RGBW_CHANNEL_BLUE | .RGBW_CHANNEL_WHITE =>
      some { result := true
             begin := toCountType channels.toInt
             end' := toCountType (channels.toInt + 1) }
    | .RGBW_CHANNEL_RGB =>
      some { result := true
             begin := toCountType RgbwChannel.RGBW_CHANNEL_RED.toInt
             end' := toCountType RgbwChannel.RGBW_CHANNEL_WHITE.toInt }
    | .RGBW_CHANNEL_ALL =>
      some { result := true
             begin := toCountType RgbwChannel.RGBW_CHANNEL_RED.toInt
             end' := toCountType RgbwChannel.RGBW_CHANNEL_RGB.toInt }
    | _ => some { result := false, begin := begin, end' := end' }

/-- `ColorDynamicsController::RgbwBounds`: the branch that is compiled (the `#else`
branch) forwards to `mvd::RgbwBounds`. -/
def ColorDynamicsController.RgbwBounds (toCountType : Int → Int) (begin end' : Int)
    (channels : RgbwChannel) : Option Bounds :=
  mvd.RgbwBounds toCountType begin end' channels

/-- A conversion to `CountType` for running the functions: `CountType` as an unsigned
32-bit integer. -/
def toUnsignedInt (z : Int) : Int := z % 4294967296

/-- `mvd::IsVersionLess`. `split` is `QString::split(".")` and `toInt` is
`QString::toInt()`, both of the Qt library; a failed `assert` is `none`. -/
def IsVersionLess (split : String → List String) (toInt : String → Int) (v0 v1 : String) :
    Option Bool :=
  let V0List := split v0
  if ¬ (V0List.length ≥ 3) then none
  else
    let V1List := split v1
    if ¬ (V1List.length ≥ 3) then none
    else do
      let a0 ← V0List[0]?
      let a1 ← V0List[1]?
      let a2 ← V0List[2]?
      let b0 ← V1List[0]?
      let b1 ← V1List[1]?
      let b2 ← V1List[2]?
      some (decide (toInt a0 < toInt b0)
        || (decide (toInt a0 = toInt b0) && decide (toInt a1 < toInt b1))
        || (decide (toInt a1 = toInt b1) && decide (toInt a2 < toInt b2)))

/-- `mvd::IsVersionGreaterEqual`, with the same conventions as `IsVersionLess`. -/
def IsVersionGreaterEqual (split : String → List String) (toInt : String → Int)
    (v0 v1 : String) : Option Bool :=
  let V0List := split v0
  if ¬ (V0List.length ≥ 3) then none
  else
    let V1List := split v1
    if ¬ (V1List.length ≥ 3) then none
    else do
      let a0 ← V0List[0]?
      let a1 ← V0List[1]?
      let a2 ← V0List[2]?
      let b0 ← V1List[0]?
      let b1 ← V1List[1]?
      let b2 ← V1List[2]?
      some (decide (toInt a0 > toInt b0)
        || (decide (toInt a0 = toInt b0) && decide (toInt a1 > toInt b1))
        || (decide (toInt a1 = toInt b1) && decide (toInt a2 ≥ toInt b2)))

/-- The lexicographic order on version triples `(M, m, p)`, as the documentation of
`IsVersionLess` names it. -/
def versionLexLess (a b : Int × Int × Int) : Prop :=
  a.1 < b.1 ∨ (a.1 = b.1 ∧ (a.2.1 < b.2.1 ∨ (a.2.1 = b.2.1 ∧ a.2.2 < b.2.2)))

instance (a b : Int × Int × Int) : Decidable (versionLexLess a b) := by
  unfold versionLexLess
  infer_instance

/-- Splitting at every dot; `cur` is the component being read. -/
def splitOnDot : List Char → List Char → List (List Char)
  | [], cur => [cur]
  | ch :: rest, cur =>
    if ch = '.' then cur :: splitOnDot rest [] else splitOnDot rest (cur ++ [ch])

/-- A model of `QString::split(".")` for running the functions. -/
def dotSplit (str : String) : List String :=
  (splitOnDot str.toList []).map String.mk

/-- A model of `QString::toInt()` for running the functions: the value of a decimal
numeral, 0 when the conversion fails. -/
def decimalToInt (str : String) : Int :=
  (otb.tokenToInt str.toList).getD 0

/-- The components of a version string as a triple of integers. -/
def versionTriple (str : String) : Option (Int × Int × Int) :=
  match (dotSplit str).map decimalToInt with
  | M :: m :: p :: _ => some (M, m, p)
  | _ => none

end mvd

/-! The functor of `itkMaskNegatedImageFilter.h`. -/

namespace itk

/-- `Functor::MaskNegatedInput::operator()`: `0` stands for `NumericTraits<...>::Zero`
and `cast` for `static_cast<TOutput>`. -/
def Functor.MaskNegatedInput.operator {TInput TMask TOutput : Type} [Zero TMask]
    [DecidableEq TMask] [Zero TOutput] (cast : TInput → TOutput) (A : TInput) (B : TMask) :
    TOutput :=
  if B ≠ (0 : TMask) then (0 : TOutput) else cast A

end itk


namespace otb

/-! ## Basic facts about the machine arithmetic -/

lemma roundHalfEven_intCast (m : Int) : roundHalfEven (m : ℚ) = m := by
  simp [roundHalfEven]

lemma roundHalfEven_le {t : ℚ} {B : Int} (h : t ≤ (B : ℚ)) : roundHalfEven t ≤ B := by
  have hf : (⌊t⌋ : ℚ) ≤ t := Int.floor_le t
  have hfB : ⌊t⌋ ≤ B := by exact_mod_cast le_trans hf h
  unfold roundHalfEven
  simp only
  split_ifs with h1 h2 h3
  · exact hfB
  · have h4 : (⌊t⌋ : ℚ) < B := by linarith
    have h5 : ⌊t⌋ < B := by exact_mod_cast h4
    omega
  · exact hfB
  · have h4 : t - ⌊t⌋ = 1 / 2 := le_antisymm (not_lt.mp h2) (not_lt.mp h1)
    have h5 : (⌊t⌋ : ℚ) < B := by linarith
    have h6 : ⌊t⌋ < B := by exact_mod_cast h5
    omega

lemma le_roundHalfEven {t : ℚ} {B : Int} (h : (B : ℚ) ≤ t) : B ≤ roundHalfEven t := by
  have hB : B ≤ ⌊t⌋ := Int.le_floor.mpr h
  unfold roundHalfEven
  simp only
  split_ifs
  · exact hB
  · omega
  · exact hB
  · omega

lemma FloatType.prec_pos (T : FloatType) : 1 ≤ T.prec := by
  cases T <;> decide

lemma FloatType.subnormal_exponent_neg (T : FloatType) : 2 - T.emax - (T.prec : Int) ≤ 0 := by
  cases T <;> decide

lemma FloatType.prec_le_emax (T : FloatType) : (T.prec : Int) ≤ T.emax := by
  cases T <;> decide

lemma two_zpow_pos (e : Int) : (0 : ℚ) < (2 : ℚ) ^ e := zpow_pos (by norm_num) e

lemma log_two_lt {q : ℚ} {e : Int} (hq : q ≠ 0) (h : |q| < (2 : ℚ) ^ e) : Int.log 2 |q| < e := by
  apply (Int.lt_zpow_iff_log_lt (by norm_num : 1 < 2) (abs_pos.mpr hq)).mp
  simpa using h

lemma abs_lt_two_zpow_succ_log (q : ℚ) : |q| < (2 : ℚ) ^ (Int.log 2 |q| + 1) := by
  simpa using Int.lt_zpow_succ_log_self (by norm_num : 1 < 2) |q|

lemma log2Nat_spec : ∀ (fuel n : Nat), n ≤ fuel → n ≠ 0 →
    2 ^ log2Nat fuel n ≤ n ∧ n < 2 ^ (log2Nat fuel n + 1)
  | 0, n, h, h0 => by omega
  | fuel + 1, n, h, h0 => by
    rw [log2Nat]
    by_cases h2 : n < 2
    · simp only [h2, if_true]
      omega
    · simp only [h2, if_false]
      obtain ⟨ih1, ih2⟩ := log2Nat_spec fuel (n / 2) (by omega) (by omega)
      constructor
      · rw [pow_succ]
        omega
      · rw [pow_succ]
        omega

lemma int_log_two_eq {r : ℚ} {k : Int} (hr : 0 < r) (h1 : (2 : ℚ) ^ k ≤ r)
    (h2 : r < (2 : ℚ) ^ (k + 1)) : Int.log 2 r = k := by
  have a : k ≤ Int.log 2 r :=
    (Int.zpow_le_iff_le_log (by norm_num : 1 < 2) hr).mp (by simpa using h1)
  have b : Int.log 2 r < k + 1 :=
    (Int.lt_zpow_iff_log_lt (by norm_num : 1 < 2) hr).mp (by simpa using h2)
  omega

/-- The exponent computed from the digits of numerator and denominator is the integer
logarithm of base 2. -/
lemma floorLog2_eq (q : ℚ) : floorLog2 q = Int.log 2 |q| := by
  unfold floorLog2
  by_cases h0 : q = 0
  · simp [h0]
  rw [if_neg h0]
  have hpos : 0 < |q| := abs_pos.mpr h0
  have hn0 : q.num.natAbs ≠ 0 := Int.natAbs_ne_zero.mpr (Rat.num_ne_zero.mpr h0)
  obtain ⟨ha1, ha2⟩ := log2Nat_spec q.num.natAbs q.num.natAbs le_rfl hn0
  obtain ⟨hb1, hb2⟩ := log2Nat_spec q.den q.den le_rfl q.den_nz
  generalize log2Nat q.num.natAbs q.num.natAbs = a at ha1 ha2 ⊢
  generalize log2Nat q.den q.den = b at hb1 hb2 ⊢
  have hD : (0 : ℚ) < (q.den : ℚ) := by exact_mod_cast q.den_pos
  have habs : |q| = (q.num.natAbs : ℚ) / (q.den : ℚ) := by
    conv_lhs => rw [← Rat.num_div_den q]
    rw [abs_div, abs_of_pos hD, Nat.cast_natAbs]
    push_cast
    rfl
  have hA1 : (2 : ℚ) ^ (a : Int) ≤ (q.num.natAbs : ℚ) := by
    rw [zpow_natCast]
    exact_mod_cast ha1
  have hA2 : (q.num.natAbs : ℚ) < (2 : ℚ) ^ ((a : Int) + 1) := by
    have : (q.num.natAbs : ℚ) < (2 : ℚ) ^ (a + 1) := by exact_mod_cast ha2
    rw [show ((a : Int) + 1) = ((a + 1 : Nat) : Int) by push_cast; rfl, zpow_natCast]
    exact this
  have hB1 : (2 : ℚ) ^ (b : Int) ≤ (q.den : ℚ) := by
    rw [zpow_natCast]
    exact_mod_cast hb1
  have hB2 : (q.den : ℚ) < (2 : ℚ) ^ ((b : Int) + 1) := by
    have : (q.den : ℚ) < (2 : ℚ) ^ (b + 1) := by exact_mod_cast hb2
    rw [show ((b : Int) + 1) = ((b + 1 : Nat) : Int) by push_cast; rfl, zpow_natCast]
    exact this
  have two_ne : (2 : ℚ) ≠ 0 := by norm_num
  have hlow : (2 : ℚ) ^ ((a : Int) - (b : Int) - 1) ≤ |q| := by
    rw [habs, le_div_iff₀ hD]
    calc (2 : ℚ) ^ ((a : Int) - (b : Int) - 1) * (q.den : ℚ)
        ≤ (2 : ℚ) ^ ((a : Int) - (b : Int) - 1) * (2 : ℚ) ^ ((b : Int) + 1) :=
          mul_le_mul_of_nonneg_left (le_of_lt hB2) (le_of_lt (two_zpow_pos _))
      _ = (2 : ℚ) ^ (a : Int) := by
          rw [← zpow_add₀ two_ne]
          congr 1
          ring
      _ ≤ (q.num.natAbs : ℚ) := hA1
  have hhigh : |q| < (2 : ℚ) ^ ((a : Int) - (b : Int) + 1) := by
    rw [habs, div_lt_iff₀ hD]
    calc (q.num.natAbs : ℚ) < (2 : ℚ) ^ ((a : Int) + 1) := hA2
      _ = (2 : ℚ) ^ ((a : Int) - (b : Int) + 1) * (2 : ℚ) ^ (b : Int) := by
          rw [← zpow_add₀ two_ne]
          congr 1
          ring
      _ ≤ (2 : ℚ) ^ ((a : Int) - (b : Int) + 1) * (q.den : ℚ) :=
          mul_le_mul_of_nonneg_left hB1 (le_of_lt (two_zpow_pos _))
  simp only
  split_ifs with hk
  · exact (int_log_two_eq hpos hk hhigh).symm
  · refine (int_log_two_eq hpos hlow ?_).symm
    have : (a : Int) - (b : Int) - 1 + 1 = (a : Int) - (b : Int) := by ring
    rw [this]
    exact not_le.mp hk

lemma FloatType.ulpExponent_eq (T : FloatType) (q : ℚ) :
    T.ulpExponent q = max (Int.log 2 |q| - ((T.prec : Int) - 1)) (2 - T.emax - (T.prec : Int)) := by
  unfold FloatType.ulpExponent
  rw [floorLog2_eq]

lemma FloatType.nearest_zero (T : FloatType) : T.nearest 0 = 0 := by
  simp [FloatType.nearest, roundHalfEven]

/-- A number `m * 2 ^ e` with `|m| < 2 ^ prec` and `e` not below the exponent of the
subnormal numbers is a floating-point number: it is its own nearest floating-point
number. -/
lemma FloatType.nearest_dyadic (T : FloatType) (m e : Int) (hm : |m| < 2 ^ T.prec)
    (he : 2 - T.emax - (T.prec : Int) ≤ e) :
    T.nearest ((m : ℚ) * (2 : ℚ) ^ e) = (m : ℚ) * (2 : ℚ) ^ e := by
  by_cases h0 : m = 0
  · subst h0
    simp [FloatType.nearest_zero]
  have h2e := two_zpow_pos e
  have hq0 : (m : ℚ) * (2 : ℚ) ^ e ≠ 0 :=
    mul_ne_zero (by exact_mod_cast h0) (ne_of_gt h2e)
  have hu : T.ulpExponent ((m : ℚ) * (2 : ℚ) ^ e) ≤ e := by
    rw [FloatType.ulpExponent_eq]
    apply max_le _ he
    have hmq : |(m : ℚ)| < (2 : ℚ) ^ ((T.prec : Int)) := by
      have : ((|m| : Int) : ℚ) < ((2 ^ T.prec : Int) : ℚ) := by exact_mod_cast hm
      rw [zpow_natCast]
      push_cast at this ⊢
      exact this
    have hlt : |(m : ℚ) * (2 : ℚ) ^ e| < (2 : ℚ) ^ ((T.prec : Int) + e) := by
      rw [abs_mul, abs_of_pos h2e, zpow_add₀ (by norm_num : (2 : ℚ) ≠ 0)]
      exact mul_lt_mul_of_pos_right hmq h2e
    have := log_two_lt hq0 hlt
    omega
  obtain ⟨n, hn⟩ : ∃ n : Nat, e - T.ulpExponent ((m : ℚ) * (2 : ℚ) ^ e) = (n : Int) :=
    ⟨(e - T.ulpExponent ((m : ℚ) * (2 : ℚ) ^ e)).toNat, by omega⟩
  unfold FloatType.nearest
  generalize T.ulpExponent ((m : ℚ) * (2 : ℚ) ^ e) = u at hu hn ⊢
  have hue : e = u + (n : Int) := by omega
  have h2u := two_zpow_pos u
  have hq : (m : ℚ) * (2 : ℚ) ^ e / (2 : ℚ) ^ u = ((m * 2 ^ n : Int) : ℚ) := by
    rw [hue, zpow_add₀ (by norm_num : (2 : ℚ) ≠ 0), zpow_natCast]
    push_cast
    field_simp
    ring
  rw [hq, roundHalfEven_intCast, hue, zpow_add₀ (by norm_num : (2 : ℚ) ≠ 0), zpow_natCast]
  push_cast
  ring

/-- An integer of magnitude below `2 ^ prec` is a floating-point number. -/
lemma FloatType.nearest_intCast (T : FloatType) (z : Int) (hz : |z| < 2 ^ T.prec) :
    T.nearest (z : ℚ) = (z : ℚ) := by
  have h := T.nearest_dyadic z 0 hz T.subnormal_exponent_neg
  simpa using h

/-- The nearest floating-point number of `q` is an integer multiple `n * 2 ^ u` of the
unit in the last place, with `|n| ≤ 2 ^ prec`. -/
lemma FloatType.abs_mantissa_le (T : FloatType) (q : ℚ) :
    |roundHalfEven (q / (2 : ℚ) ^ T.ulpExponent q)| ≤ 2 ^ T.prec := by
  by_cases h0 : q = 0
  · subst h0
    simp [roundHalfEven]
  have hu : Int.log 2 |q| + 1 - T.ulpExponent q ≤ (T.prec : Int) := by
    have : Int.log 2 |q| - ((T.prec : Int) - 1) ≤ T.ulpExponent q := by
      rw [FloatType.ulpExponent_eq]
      exact le_max_left _ _
    omega
  have h2u := two_zpow_pos (T.ulpExponent q)
  have hlt : |q / (2 : ℚ) ^ T.ulpExponent q| < ((2 ^ T.prec : Int) : ℚ) := by
    rw [abs_div, abs_of_pos h2u, div_lt_iff₀ h2u]
    calc |q| < (2 : ℚ) ^ (Int.log 2 |q| + 1) := abs_lt_two_zpow_succ_log q
      _ = (2 : ℚ) ^ (Int.log 2 |q| + 1 - T.ulpExponent q) * (2 : ℚ) ^ T.ulpExponent q := by
          rw [← zpow_add₀ (by norm_num : (2 : ℚ) ≠ 0)]
          congr 1
          ring
      _ ≤ (2 : ℚ) ^ ((T.prec : Int)) * (2 : ℚ) ^ T.ulpExponent q := by
          apply mul_le_mul_of_nonneg_right _ (le_of_lt h2u)
          exact zpow_le_zpow_right₀ (by norm_num) hu
      _ = ((2 ^ T.prec : Int) : ℚ) * (2 : ℚ) ^ T.ulpExponent q := by
          rw [zpow_natCast]
          push_cast
          rfl
  rw [abs_lt] at hlt
  rw [abs_le]
  constructor
  · have : ((-(2 ^ T.prec) : Int) : ℚ) ≤ q / (2 : ℚ) ^ T.ulpExponent q := by
      push_cast at hlt ⊢
      exact le_of_lt hlt.1
    exact le_roundHalfEven this
  · exact roundHalfEven_le (le_of_lt hlt.2)

lemma FloatType.ulpExponent_ge (T : FloatType) (q : ℚ) :
    2 - T.emax - (T.prec : Int) ≤ T.ulpExponent q := by
  rw [FloatType.ulpExponent_eq]
  exact le_max_right _ _

/-- A number `n * 2 ^ u` with `|n| ≤ 2 ^ prec` and `u` not below the exponent of the
subnormal numbers is a floating-point number. -/
lemma FloatType.nearest_dyadic_le (T : FloatType) (n u : Int) (hn : |n| ≤ 2 ^ T.prec)
    (hu : 2 - T.emax - (T.prec : Int) ≤ u) :
    T.nearest ((n : ℚ) * (2 : ℚ) ^ u) = (n : ℚ) * (2 : ℚ) ^ u := by
  rcases lt_or_eq_of_le hn with hlt | heq
  · exact T.nearest_dyadic n u hlt hu
  · -- `|n| = 2 ^ prec`: write `n * 2 ^ u` as `(n / 2) * 2 ^ (u + 1)`
    have hp := T.prec_pos
    obtain ⟨p, hp1⟩ : ∃ p : Nat, T.prec = p + 1 := ⟨T.prec - 1, by omega⟩
    have hpow : (2 : Int) ^ T.prec = 2 * 2 ^ p := by rw [hp1, pow_succ]; ring
    have hpos : (0 : Int) < 2 ^ p := pow_pos (by norm_num) p
    obtain ⟨m, hm⟩ : ∃ m : Int, n = 2 * m ∧ |m| = 2 ^ p := by
      rcases abs_cases n with ⟨h1, _⟩ | ⟨h1, _⟩
      · refine ⟨2 ^ p, by omega, abs_of_pos hpos⟩
      · refine ⟨-(2 ^ p), by omega, ?_⟩
        rw [abs_neg, abs_of_pos hpos]
    obtain ⟨hnm, hmabs⟩ := hm
    have hmlt : |m| < 2 ^ T.prec := by
      rw [hmabs, hpow]
      omega
    have h := T.nearest_dyadic m (u + 1) hmlt (by omega)
    have e : (n : ℚ) * (2 : ℚ) ^ u = (m : ℚ) * (2 : ℚ) ^ (u + 1) := by
      rw [hnm, zpow_add₀ (by norm_num : (2 : ℚ) ≠ 0)]
      push_cast
      ring
    rw [e, h]

/-- Rounding is idempotent: the nearest floating-point number is a floating-point
number. -/
lemma FloatType.nearest_nearest (T : FloatType) (q : ℚ) : T.nearest (T.nearest q) = T.nearest q := by
  unfold FloatType.nearest
  exact T.nearest_dyadic_le _ _ (T.abs_mantissa_le q) (T.ulpExponent_ge q)

lemma FloatType.round_eq_some {T : FloatType} {q r : ℚ} (h : T.round q = some r) :
    r = T.nearest q ∧ |r| < (2 : ℚ) ^ (T.emax + 1) := by
  unfold FloatType.round at h
  split_ifs at h with hlt
  cases h
  exact ⟨rfl, hlt⟩

/-- The result of a floating-point operation is a floating-point number: rounding it
again returns it. -/
lemma FloatType.round_round {T : FloatType} {q r : ℚ} (h : T.round q = some r) :
    T.round r = some r := by
  obtain ⟨hr, hlt⟩ := FloatType.round_eq_some h
  unfold FloatType.round
  rw [hr, T.nearest_nearest, ← hr, if_pos hlt]

/-- Every `float` is a `double`. -/
lemma float_is_double {q : ℚ} (h : FloatType.float.round q = some q) :
    FloatType.double.round q = some q := by
  obtain ⟨hq, hlt⟩ := FloatType.round_eq_some h
  have hm := FloatType.float.abs_mantissa_le q
  have hu := FloatType.float.ulpExponent_ge q
  have hn : FloatType.double.nearest q = q := by
    rw [hq]
    unfold FloatType.nearest
    apply FloatType.double.nearest_dyadic
    · calc |roundHalfEven (q / (2 : ℚ) ^ FloatType.float.ulpExponent q)|
          ≤ 2 ^ FloatType.float.prec := hm
        _ < 2 ^ FloatType.double.prec := by decide
    · have e1 : (2 : Int) - FloatType.double.emax - (FloatType.double.prec : Int) = -1074 := by
        decide
      have e2 : (2 : Int) - FloatType.float.emax - (FloatType.float.prec : Int) = -149 := by
        decide
      rw [e1]
      rw [e2] at hu
      omega
  unfold FloatType.round
  rw [hn, if_pos]
  calc |q| < (2 : ℚ) ^ (FloatType.float.emax + 1) := hlt
    _ ≤ (2 : ℚ) ^ (FloatType.double.emax + 1) :=
        zpow_le_zpow_right₀ (by norm_num) (by decide)

/-- A value of either floating-point type is a `double`. -/
lemma value_is_double (T : FloatType) {q : ℚ} (h : T.round q = some q) :
    FloatType.double.round q = some q := by
  cases T
  · exact float_is_double h
  · exact h

lemma toInt32_of_isInt {z : Int} (h : IsInt z) : toInt32 z = z := by
  unfold IsInt at h
  unfold toInt32
  omega

lemma toInt64_of_small {z : Int} (h1 : -9223372036854775808 ≤ z)
    (h2 : z ≤ 9223372036854775807) : toInt64 z = z := by
  unfold toInt64
  omega

lemma ofInt_machine_double {z : Int} (h1 : -9007199254740992 < z) (h2 : z < 9007199254740992) :
    Arithmetic.machine.ofInt .double z = (z : ℚ) := by
  have h : |z| < 2 ^ FloatType.double.prec := by
    have e : (2 : Int) ^ FloatType.double.prec = 9007199254740992 := by decide
    rw [e, abs_lt]
    exact ⟨h1, h2⟩
  exact FloatType.nearest_intCast .double z h

lemma ofInt_machine_small (T : FloatType) {z : Int} (h1 : -16777216 < z) (h2 : z < 16777216) :
    Arithmetic.machine.ofInt T z = (z : ℚ) := by
  have h : |z| < 2 ^ T.prec := by
    rw [abs_lt]
    cases T
    · have e : (2 : Int) ^ FloatType.float.prec = 16777216 := by decide
      rw [e]
      exact ⟨h1, h2⟩
    · have e : (2 : Int) ^ FloatType.double.prec = 9007199254740992 := by decide
      rw [e]
      constructor <;> omega
  exact FloatType.nearest_intCast T z h

lemma round_zero (T : FloatType) : T.round 0 = some 0 := by
  cases T <;> decide!

lemma round_one (T : FloatType) : T.round 1 = some 1 := by
  cases T <;> decide!

lemma round_half (T : FloatType) : T.round (1 / 2) = some (1 / 2) := by
  cases T <;> decide!

/-- An integer of magnitude below `2 ^ 24` is a value of every floating-point type. -/
lemma round_intCast_small (T : FloatType) {z : Int} (h1 : -16777216 < z) (h2 : z < 16777216) :
    T.round (z : ℚ) = some (z : ℚ) := by
  have hn : T.nearest (z : ℚ) = (z : ℚ) := ofInt_machine_small T h1 h2
  unfold FloatType.round
  rw [hn, if_pos]
  have hz : |(z : ℚ)| < 16777216 := by
    rw [abs_lt]
    constructor
    · exact_mod_cast h1
    · exact_mod_cast h2
  calc |(z : ℚ)| < 16777216 := hz
    _ = (2 : ℚ) ^ ((24 : Int)) := by norm_num
    _ ≤ (2 : ℚ) ^ (T.emax + 1) := by
        apply zpow_le_zpow_right₀ (by norm_num)
        cases T <;> decide

/-! ## The ideal arithmetic -/

@[simp] lemma fadd_ideal (T : FloatType) (a b : ℚ) : fadd .ideal T a b = some (a + b) := rfl

@[simp] lemma fsub_ideal (T : FloatType) (a b : ℚ) : fsub .ideal T a b = some (a - b) := rfl

@[simp] lemma fmul_ideal (T : FloatType) (a b : ℚ) : fmul .ideal T a b = some (a * b) := rfl

lemma fdiv_ideal_of_ne (T : FloatType) {a b : ℚ} (h : b ≠ 0) :
    fdiv .ideal T a b = some (a / b) := by
  simp [fdiv, h, Arithmetic.ideal]

@[simp] lemma ofInt_ideal (T : FloatType) (z : Int) : Arithmetic.ideal.ofInt T z = (z : ℚ) := rfl

@[simp] lemma toInt_ideal (z : Int) : Arithmetic.ideal.toInt z = z := rfl

@[simp] lemma toIndexValueType_ideal (z : Int) : Arithmetic.ideal.toIndexValueType z = z := rfl

@[simp] lemma round_ideal (T : FloatType) (q : ℚ) : Arithmetic.ideal.round T q = some q := rfl

lemma toInt_machine_of_isInt {z : Int} (h : IsInt z) : Arithmetic.machine.toInt z = z :=
  toInt32_of_isInt h

/-! ## Rounding is monotonic -/

lemma abs_sub_roundHalfEven_le (t : ℚ) : |t - (roundHalfEven t : ℚ)| ≤ 1 / 2 := by
  have hf : (⌊t⌋ : ℚ) ≤ t := Int.floor_le t
  have hc : t < (⌊t⌋ : ℚ) + 1 := Int.lt_floor_add_one t
  unfold roundHalfEven
  simp only
  split_ifs with h1 h2 h3
  · rw [abs_le]
    constructor <;> linarith
  · rw [abs_le]
    push_cast
    constructor <;> linarith
  · have h4 : t - ⌊t⌋ = 1 / 2 := le_antisymm (not_lt.mp h2) (not_lt.mp h1)
    rw [abs_le]
    constructor <;> linarith
  · have h4 : t - ⌊t⌋ = 1 / 2 := le_antisymm (not_lt.mp h2) (not_lt.mp h1)
    rw [abs_le]
    push_cast
    constructor <;> linarith

lemma roundHalfEven_mono {t1 t2 : ℚ} (h : t1 ≤ t2) : roundHalfEven t1 ≤ roundHalfEven t2 := by
  by_contra hlt
  have h1 : roundHalfEven t2 + 1 ≤ roundHalfEven t1 := by omega
  have h1q : (roundHalfEven t2 : ℚ) + 1 ≤ (roundHalfEven t1 : ℚ) := by exact_mod_cast h1
  have a1 := abs_le.mp (abs_sub_roundHalfEven_le t1)
  have a2 := abs_le.mp (abs_sub_roundHalfEven_le t2)
  have heq : t1 = t2 := by
    apply le_antisymm h
    linarith [a1.1, a2.2]
  rw [heq] at hlt
  exact hlt (le_refl _)

lemma FloatType.nearest_nonneg (T : FloatType) {q : ℚ} (h : 0 ≤ q) : 0 ≤ T.nearest q := by
  unfold FloatType.nearest
  have h2u := two_zpow_pos (T.ulpExponent q)
  apply mul_nonneg _ (le_of_lt h2u)
  have : (0 : Int) ≤ roundHalfEven (q / (2 : ℚ) ^ T.ulpExponent q) :=
    le_roundHalfEven (by push_cast; exact div_nonneg h (le_of_lt h2u))
  exact_mod_cast this

lemma FloatType.nearest_nonpos (T : FloatType) {q : ℚ} (h : q ≤ 0) : T.nearest q ≤ 0 := by
  unfold FloatType.nearest
  have h2u := two_zpow_pos (T.ulpExponent q)
  apply mul_nonpos_of_nonpos_of_nonneg _ (le_of_lt h2u)
  have : roundHalfEven (q / (2 : ℚ) ^ T.ulpExponent q) ≤ (0 : Int) :=
    roundHalfEven_le (by push_cast; exact div_nonpos_of_nonpos_of_nonneg h (le_of_lt h2u))
  exact_mod_cast this

/-- The unit in the last place grows with the magnitude. -/
lemma FloatType.ulpExponent_mono (T : FloatType) {q1 q2 : ℚ} (h0 : q1 ≠ 0)
    (h : |q1| ≤ |q2|) : T.ulpExponent q1 ≤ T.ulpExponent q2 := by
  rw [FloatType.ulpExponent_eq, FloatType.ulpExponent_eq]
  have hlog : Int.log 2 |q1| ≤ Int.log 2 |q2| := Int.log_mono_right (abs_pos.mpr h0) h
  apply max_le_max _ (le_refl _)
  omega

/-- Two positive numbers in different binades: the nearest floating-point number of
the smaller one is at most the power of two that separates them, that of the larger
one is at least that power. -/
lemma FloatType.nearest_le_of_ulp_lt (T : FloatType) {q1 q2 : ℚ} (h1 : 0 < q1) (h2 : 0 < q2)
    (hu : T.ulpExponent q1 < T.ulpExponent q2) :
    T.nearest q1 ≤ (2 : ℚ) ^ Int.log 2 |q2| ∧ (2 : ℚ) ^ Int.log 2 |q2| ≤ T.nearest q2 := by
  have hp := T.prec_pos
  have hu1 := T.ulpExponent_eq q1
  have hu2 := T.ulpExponent_eq q2
  have hc1 := T.ulpExponent_ge q1
  have hl1 : Int.log 2 |q1| - ((T.prec : Int) - 1) ≤ T.ulpExponent q1 := by
    rw [hu1]
    exact le_max_left _ _
  have he2 : T.ulpExponent q2 = Int.log 2 |q2| - ((T.prec : Int) - 1) := by
    rcases max_cases (Int.log 2 |q2| - ((T.prec : Int) - 1)) (2 - T.emax - (T.prec : Int))
      with ⟨hm, _⟩ | ⟨hm, _⟩
    · rw [hu2, hm]
    · rw [hu2, hm] at hu
      omega
  have hlog : Int.log 2 |q1| + 1 ≤ Int.log 2 |q2| := by omega
  have hq1 : q1 < (2 : ℚ) ^ Int.log 2 |q2| := by
    calc q1 = |q1| := (abs_of_pos h1).symm
      _ < (2 : ℚ) ^ (Int.log 2 |q1| + 1) := abs_lt_two_zpow_succ_log q1
      _ ≤ (2 : ℚ) ^ Int.log 2 |q2| := zpow_le_zpow_right₀ (by norm_num) hlog
  have hq2 : (2 : ℚ) ^ Int.log 2 |q2| ≤ q2 := by
    have := Int.zpow_log_le_self (b := 2) (r := |q2|) (by norm_num) (abs_pos.mpr (ne_of_gt h2))
    rw [abs_of_pos h2] at this ⊢
    simpa using this
  generalize Int.log 2 |q2| = e2 at he2 hlog hq1 hq2 ⊢
  constructor
  · unfold FloatType.nearest
    generalize T.ulpExponent q1 = u1 at hu hc1 hl1 ⊢
    have h2u := two_zpow_pos u1
    obtain ⟨n, hn⟩ : ∃ n : Nat, e2 - u1 = (n : Int) := ⟨(e2 - u1).toNat, by omega⟩
    have e : (2 : ℚ) ^ e2 = (((2 : Int) ^ n : Int) : ℚ) * (2 : ℚ) ^ u1 := by
      have : e2 = (n : Int) + u1 := by omega
      rw [this, zpow_add₀ (by norm_num : (2 : ℚ) ≠ 0), zpow_natCast]
      push_cast
      rfl
    have hle : roundHalfEven (q1 / (2 : ℚ) ^ u1) ≤ (2 : Int) ^ n := by
      apply roundHalfEven_le
      rw [div_le_iff₀ h2u, ← e]
      exact le_of_lt hq1
    have hleq : (roundHalfEven (q1 / (2 : ℚ) ^ u1) : ℚ) ≤ (((2 : Int) ^ n : Int) : ℚ) := by
      exact_mod_cast hle
    rw [e]
    exact mul_le_mul_of_nonneg_right hleq (le_of_lt h2u)
  · unfold FloatType.nearest
    rw [he2]
    have h2u := two_zpow_pos (e2 - ((T.prec : Int) - 1))
    obtain ⟨n, hn⟩ : ∃ n : Nat, (T.prec : Int) - 1 = (n : Int) := ⟨T.prec - 1, by omega⟩
    have e : (2 : ℚ) ^ e2
        = (((2 : Int) ^ n : Int) : ℚ) * (2 : ℚ) ^ (e2 - ((T.prec : Int) - 1)) := by
      have : e2 = (n : Int) + (e2 - ((T.prec : Int) - 1)) := by omega
      nth_rewrite 1 [this]
      rw [zpow_add₀ (by norm_num : (2 : ℚ) ≠ 0), zpow_natCast]
      push_cast
      rfl
    have hle : (2 : Int) ^ n ≤ roundHalfEven (q2 / (2 : ℚ) ^ (e2 - ((T.prec : Int) - 1))) := by
      apply le_roundHalfEven
      rw [le_div_iff₀ h2u, ← e]
      exact hq2
    have hleq : (((2 : Int) ^ n : Int) : ℚ)
        ≤ (roundHalfEven (q2 / (2 : ℚ) ^ (e2 - ((T.prec : Int) - 1))) : ℚ) := by
      exact_mod_cast hle
    rw [e]
    exact mul_le_mul_of_nonneg_right hleq (le_of_lt h2u)

/-- The mirror image for two negative numbers. -/
lemma FloatType.nearest_le_of_ulp_gt (T : FloatType) {q1 q2 : ℚ} (h1 : q1 < 0) (h2 : q2 < 0)
    (hu : T.ulpExponent q2 < T.ulpExponent q1) :
    T.nearest q1 ≤ -(2 : ℚ) ^ Int.log 2 |q1| ∧ -(2 : ℚ) ^ Int.log 2 |q1| ≤ T.nearest q2 := by
  have hp := T.prec_pos
  have hu1 := T.ulpExponent_eq q1
  have hu2 := T.ulpExponent_eq q2
  have hc2 := T.ulpExponent_ge q2
  have hl2 : Int.log 2 |q2| - ((T.prec : Int) - 1) ≤ T.ulpExponent q2 := by
    rw [hu2]
    exact le_max_left _ _
  have he1 : T.ulpExponent q1 = Int.log 2 |q1| - ((T.prec : Int) - 1) := by
    rcases max_cases (Int.log 2 |q1| - ((T.prec : Int) - 1)) (2 - T.emax - (T.prec : Int))
      with ⟨hm, _⟩ | ⟨hm, _⟩
    · rw [hu1, hm]
    · rw [hu1, hm] at hu
      omega
  have hlog : Int.log 2 |q2| + 1 ≤ Int.log 2 |q1| := by omega
  have hq2 : -(2 : ℚ) ^ Int.log 2 |q1| < q2 := by
    have : |q2| < (2 : ℚ) ^ Int.log 2 |q1| :=
      calc |q2| < (2 : ℚ) ^ (Int.log 2 |q2| + 1) := abs_lt_two_zpow_succ_log q2
        _ ≤ (2 : ℚ) ^ Int.log 2 |q1| := zpow_le_zpow_right₀ (by norm_num) hlog
    have h4 : |q2| = -q2 := abs_of_neg h2
    linarith
  have hq1 : q1 ≤ -(2 : ℚ) ^ Int.log 2 |q1| := by
    have := Int.zpow_log_le_self (b := 2) (r := |q1|) (by norm_num) (abs_pos.mpr (ne_of_lt h1))
    have h3 : (2 : ℚ) ^ Int.log 2 |q1| ≤ |q1| := by simpa using this
    have h4 : |q1| = -q1 := abs_of_neg h1
    linarith
  generalize Int.log 2 |q1| = e1 at he1 hlog hq1 hq2 ⊢
  constructor
  · unfold FloatType.nearest
    rw [he1]
    have h2u := two_zpow_pos (e1 - ((T.prec : Int) - 1))
    obtain ⟨n, hn⟩ : ∃ n : Nat, (T.prec : Int) - 1 = (n : Int) := ⟨T.prec - 1, by omega⟩
    have e : (2 : ℚ) ^ e1
        = (((2 : Int) ^ n : Int) : ℚ) * (2 : ℚ) ^ (e1 - ((T.prec : Int) - 1)) := by
      have : e1 = (n : Int) + (e1 - ((T.prec : Int) - 1)) := by omega
      nth_rewrite 1 [this]
      rw [zpow_add₀ (by norm_num : (2 : ℚ) ≠ 0), zpow_natCast]
      push_cast
      rfl
    have hle : roundHalfEven (q1 / (2 : ℚ) ^ (e1 - ((T.prec : Int) - 1))) ≤ -((2 : Int) ^ n) := by
      apply roundHalfEven_le
      rw [div_le_iff₀ h2u]
      push_cast
      rw [neg_mul]
      push_cast at e
      rw [← e]
      exact hq1
    have hleq : (roundHalfEven (q1 / (2 : ℚ) ^ (e1 - ((T.prec : Int) - 1))) : ℚ)
        ≤ -(((2 : Int) ^ n : Int) : ℚ) := by
      exact_mod_cast hle
    rw [e, ← neg_mul]
    exact mul_le_mul_of_nonneg_right hleq (le_of_lt h2u)
  · unfold FloatType.nearest
    generalize T.ulpExponent q2 = u2 at hu hc2 hl2 ⊢
    have h2u := two_zpow_pos u2
    obtain ⟨n, hn⟩ : ∃ n : Nat, e1 - u2 = (n : Int) := ⟨(e1 - u2).toNat, by omega⟩
    have e : (2 : ℚ) ^ e1 = (((2 : Int) ^ n : Int) : ℚ) * (2 : ℚ) ^ u2 := by
      have : e1 = (n : Int) + u2 := by omega
      rw [this, zpow_add₀ (by norm_num : (2 : ℚ) ≠ 0), zpow_natCast]
      push_cast
      rfl
    have hle : -((2 : Int) ^ n) ≤ roundHalfEven (q2 / (2 : ℚ) ^ u2) := by
      apply le_roundHalfEven
      rw [le_div_iff₀ h2u]
      push_cast
      rw [neg_mul]
      push_cast at e
      rw [← e]
      exact le_of_lt hq2
    have hleq : -(((2 : Int) ^ n : Int) : ℚ) ≤ (roundHalfEven (q2 / (2 : ℚ) ^ u2) : ℚ) := by
      exact_mod_cast hle
    rw [e, ← neg_mul]
    exact mul_le_mul_of_nonneg_right hleq (le_of_lt h2u)

/-- Rounding to the nearest floating-point number is monotonic. -/
lemma FloatType.nearest_mono (T : FloatType) {q1 q2 : ℚ} (h : q1 ≤ q2) :
    T.nearest q1 ≤ T.nearest q2 := by
  have same : T.ulpExponent q1 = T.ulpExponent q2 → T.nearest q1 ≤ T.nearest q2 := by
    intro hu
    unfold FloatType.nearest
    rw [hu]
    have h2u := two_zpow_pos (T.ulpExponent q2)
    apply mul_le_mul_of_nonneg_right _ (le_of_lt h2u)
    have : roundHalfEven (q1 / (2 : ℚ) ^ T.ulpExponent q2)
        ≤ roundHalfEven (q2 / (2 : ℚ) ^ T.ulpExponent q2) :=
      roundHalfEven_mono (div_le_div_of_nonneg_right h (le_of_lt h2u))
    exact_mod_cast this
  rcases le_or_lt q1 0 with h1 | h1
  · rcases le_or_lt 0 q2 with h2 | h2
    · exact le_trans (T.nearest_nonpos h1) (T.nearest_nonneg h2)
    · -- both negative
      have h1n : q1 < 0 := lt_of_le_of_lt h h2
      have habs : |q2| ≤ |q1| := by
        rw [abs_of_neg h2, abs_of_neg h1n]
        linarith
      rcases lt_or_eq_of_le (T.ulpExponent_mono (ne_of_lt h2) habs) with hu | hu
      · obtain ⟨a, b⟩ := T.nearest_le_of_ulp_gt h1n h2 hu
        exact le_trans a b
      · exact same hu.symm
  · -- both positive
    have h2 : 0 < q2 := lt_of_lt_of_le h1 h
    have habs : |q1| ≤ |q2| := by
      rw [abs_of_pos h1, abs_of_pos h2]
      exact h
    rcases lt_or_eq_of_le (T.ulpExponent_mono (ne_of_gt h1) habs) with hu | hu
    · obtain ⟨a, b⟩ := T.nearest_le_of_ulp_lt h1 h2 hu
      exact le_trans a b
    · exact same hu

/-- Floating-point rounding is monotonic where it has finite results. -/
lemma FloatType.round_mono {T : FloatType} {q1 q2 r1 r2 : ℚ} (h1 : T.round q1 = some r1)
    (h2 : T.round q2 = some r2) (h : q1 ≤ q2) : r1 ≤ r2 := by
  rw [(FloatType.round_eq_some h1).1, (FloatType.round_eq_some h2).1]
  exact T.nearest_mono h

/-- Between two numbers with finite rounded values every number has a finite rounded
value, between these two. -/
lemma FloatType.round_between {T : FloatType} {qa qb q ra rb : ℚ} (ha : T.round qa = some ra)
    (hb : T.round qb = some rb) (h1 : qa ≤ q) (h2 : q ≤ qb) :
    ∃ r, T.round q = some r ∧ ra ≤ r ∧ r ≤ rb := by
  obtain ⟨ea, la⟩ := FloatType.round_eq_some ha
  obtain ⟨eb, lb⟩ := FloatType.round_eq_some hb
  have m1 : ra ≤ T.nearest q := by rw [ea]; exact T.nearest_mono h1
  have m2 : T.nearest q ≤ rb := by rw [eb]; exact T.nearest_mono h2
  refine ⟨T.nearest q, ?_, m1, m2⟩
  unfold FloatType.round
  rw [if_pos]
  rw [abs_lt] at la lb ⊢
  constructor <;> linarith [la.1, la.2, lb.1, lb.2]

/-! ## The difference of two nearby floating-point numbers is exact -/

/-- A floating-point number is an integer multiple of its unit in the last place,
with a multiplier of magnitude at most `2 ^ prec`. -/
lemma FloatType.mantissa_of_value (T : FloatType) {a : ℚ} (ha : T.round a = some a) :
    ∃ m : Int, a = (m : ℚ) * (2 : ℚ) ^ T.ulpExponent a ∧ |m| ≤ 2 ^ T.prec := by
  have h := (FloatType.round_eq_some ha).1
  refine ⟨roundHalfEven (a / (2 : ℚ) ^ T.ulpExponent a), ?_, T.abs_mantissa_le a⟩
  unfold FloatType.nearest at h
  exact h

/-- Sterbenz: for floating-point numbers `0 < b ≤ a ≤ 2 b` the difference `a - b` is a
floating-point number, so that the subtraction is exact. -/
lemma FloatType.round_sub_exact (T : FloatType) {a b : ℚ} (ha : T.round a = some a)
    (hb : T.round b = some b) (hb0 : 0 < b) (hba : b ≤ a) (hab : a ≤ 2 * b) :
    T.round (a - b) = some (a - b) := by
  obtain ⟨ma, hma, _⟩ := T.mantissa_of_value ha
  obtain ⟨mb, hmb, hmbl⟩ := T.mantissa_of_value hb
  have ha0 : 0 < a := lt_of_lt_of_le hb0 hba
  have hu : T.ulpExponent b ≤ T.ulpExponent a :=
    T.ulpExponent_mono (ne_of_gt hb0) (by rw [abs_of_pos hb0, abs_of_pos ha0]; exact hba)
  have hcb := T.ulpExponent_ge b
  generalize T.ulpExponent a = ua at hma hu
  generalize T.ulpExponent b = ub at hmb hu hcb
  have h2b := two_zpow_pos ub
  obtain ⟨n, hn⟩ : ∃ n : Nat, ua - ub = (n : Int) := ⟨(ua - ub).toNat, by omega⟩
  have hua : ua = (n : Int) + ub := by omega
  have hak : a - b = ((ma * 2 ^ n - mb : Int) : ℚ) * (2 : ℚ) ^ ub := by
    rw [hma, hmb, hua, zpow_add₀ (by norm_num : (2 : ℚ) ≠ 0), zpow_natCast]
    push_cast
    ring
  have hk0 : (0 : ℚ) ≤ ((ma * 2 ^ n - mb : Int) : ℚ) := by
    have : 0 ≤ ((ma * 2 ^ n - mb : Int) : ℚ) * (2 : ℚ) ^ ub := by
      rw [← hak]
      linarith
    exact nonneg_of_mul_nonneg_left this h2b
  have hk1 : ((ma * 2 ^ n - mb : Int) : ℚ) ≤ (mb : ℚ) := by
    have : ((ma * 2 ^ n - mb : Int) : ℚ) * (2 : ℚ) ^ ub ≤ (mb : ℚ) * (2 : ℚ) ^ ub := by
      rw [← hak, ← hmb]
      linarith
    exact le_of_mul_le_mul_right this h2b
  have hk0i : (0 : Int) ≤ ma * 2 ^ n - mb := by exact_mod_cast hk0
  have hk1i : ma * 2 ^ n - mb ≤ mb := by exact_mod_cast hk1
  have hmbabs : mb ≤ 2 ^ T.prec := le_trans (le_abs_self mb) hmbl
  have hkl : |ma * 2 ^ n - mb| ≤ 2 ^ T.prec := by
    rw [abs_of_nonneg hk0i]
    omega
  have hn := T.nearest_dyadic_le (ma * 2 ^ n - mb) ub hkl hcb
  rw [← hak] at hn
  unfold FloatType.round
  rw [hn, if_pos]
  have hlt := (FloatType.round_eq_some hb).2
  calc |a - b| = a - b := abs_of_nonneg (by linarith)
    _ ≤ b := by linarith
    _ = |b| := (abs_of_pos hb0).symm
    _ < (2 : ℚ) ^ (T.emax + 1) := hlt


/-! ## Basic facts about the primitive operations -/

lemma elemAt_natCast {α : Type} (v : List α) (k : Nat) : elemAt v (k : Int) = v[k]? := by
  simp [elemAt]

lemma elemAt_natCast_succ {α : Type} (v : List α) (k : Nat) :
    elemAt v ((k : Int) + 1) = v[k + 1]? := by
  have h : ((k : Int) + 1) = ((k + 1 : Nat) : Int) := by push_cast; rfl
  rw [h, elemAt_natCast]

lemma length_takeWhile_eq {α : Type} (p : α → Bool) :
    ∀ (l : List α) (m : Nat), m ≤ l.length →
      (∀ i e, i < m → l[i]? = some e → p e = true) →
      (∀ e, l[m]? = some e → p e = false) →
      (l.takeWhile p).length = m
  | [], m, hm, _, _ => by
    simp at hm
    simp [hm]
  | a :: l, 0, _, _, h2 => by
    have := h2 a (by simp)
    simp [List.takeWhile, this]
  | a :: l, m + 1, hm, h1, h2 => by
    have ha : p a = true := h1 0 a (Nat.succ_pos m) (by simp)
    have ih := length_takeWhile_eq p l m (by simpa using hm)
      (fun i e hi he => h1 (i + 1) e (by omega) (by simpa using he))
      (fun e he => h2 e (by simpa using he))
    simp [List.takeWhile, ha, ih]

lemma pairwise_getElem? {α : Type} {R : α → α → Prop} {l : List α} (h : l.Pairwise R)
    {i j : Nat} {a b : α} (hij : i < j) (ha : l[i]? = some a) (hb : l[j]? = some b) :
    R a b := by
  obtain ⟨hi, rfl⟩ := List.getElem?_eq_some.mp ha
  obtain ⟨hj, rfl⟩ := List.getElem?_eq_some.mp hb
  exact (List.pairwise_iff_getElem.mp h) i j hi hj hij

lemma upper_bound_of_segment {l : List Int} (hs : l.Pairwise (fun a b => a < b))
    {j : Nat} {p q x : Int} (hp : l[j]? = some p) (hq : l[j + 1]? = some q)
    (hpx : p ≤ x) (hxq : x < q) : upper_bound l x = j + 1 := by
  unfold upper_bound
  apply length_takeWhile_eq
  · exact le_of_lt (List.getElem?_eq_some.mp hq).1
  · intro i e hi he
    have hle : e ≤ p := by
      rcases Nat.lt_succ_iff_lt_or_eq.mp hi with h | h
      · exact le_of_lt (pairwise_getElem? hs h he hp)
      · subst h
        rw [he] at hp
        exact le_of_eq (Option.some.inj hp)
    simp only [decide_eq_true_eq, not_lt]
    omega
  · intro e he
    rw [hq] at he
    cases he
    simpa using hxq

lemma upper_bound_of_all_le {l : List Int} {x : Int} (h : ∀ e ∈ l, e ≤ x) :
    upper_bound l x = l.length := by
  unfold upper_bound
  apply length_takeWhile_eq
  · exact le_refl _
  · intro i e _ he
    obtain ⟨hi, rfl⟩ := List.getElem?_eq_some.mp he
    have := h _ (List.getElem_mem hi)
    simpa using this
  · intro e he
    have : l[l.length]? = none := List.getElem?_eq_none (le_refl _)
    rw [this] at he
    cases he

lemma GetPixelIndex_of_segment {l : List Int} (hs : l.Pairwise (fun a b => a < b))
    {j : Nat} {p q x : Int} (hp : l[j]? = some p) (hq : l[j + 1]? = some q)
    (hpx : p ≤ x) (hxq : x < q) : GetPixelIndex x l = (j : Int) := by
  have hlt : j + 1 < l.length := (List.getElem?_eq_some.mp hq).1
  unfold GetPixelIndex
  simp only [upper_bound_of_segment hs hp hq hpx hxq]
  rw [if_neg (by omega)]
  push_cast
  ring

lemma GetPixelIndex_of_all_le {l : List Int} {x : Int} (h : ∀ e ∈ l, e ≤ x) :
    GetPixelIndex x l = (l.length : Int) - 2 := by
  unfold GetPixelIndex
  simp [upper_bound_of_all_le h]

/-- In a strictly increasing vector every element is at most the last one. -/
lemma le_last_of_pairwise {l : List Int} (hs : l.Pairwise (fun a b => a < b))
    {n : Nat} {q : Int} (hn : l.length = n + 1) (hq : l[n]? = some q) :
    ∀ e ∈ l, e ≤ q := by
  intro e he
  obtain ⟨i, hi, rfl⟩ := List.getElem_of_mem he
  rcases Nat.lt_succ_iff_lt_or_eq.mp (hn ▸ hi) with h | h
  · exact le_of_lt (pairwise_getElem? hs h (List.getElem?_eq_getElem hi) hq)
  · subst h
    rw [List.getElem?_eq_getElem hi] at hq
    exact le_of_eq (Option.some.inj hq)

/-! ## The two linear scans -/

lemma azimuth_scan_first_match (l : List Sentinel1AzimuthNoiseStruct) (x y : Int) (k : Nat)
    (v : Sentinel1AzimuthNoiseStruct) (hv : l[k]? = some v) (hin : v.contains x y) :
    ∀ (trips i : Nat), i ≤ k → k < i + trips →
      (∀ m w, i ≤ m → m < k → l[m]? = some w → ¬ w.contains x y) →
      GetAzimuthVectorIndex.scan l x y trips i = some (k : Int)
  | 0, i, h1, h2, _ => by omega
  | trips + 1, i, h1, h2, hfirst => by
    have hklt : k < l.length := (List.getElem?_eq_some.mp hv).1
    have hi : i < l.length := by omega
    rw [GetAzimuthVectorIndex.scan, List.getElem?_eq_getElem hi]
    rcases Nat.eq_or_lt_of_le h1 with h | h
    · subst h
      rw [List.getElem?_eq_getElem hi] at hv
      cases hv
      simp [hin]
    · have hno : ¬ (l[i]).contains x y :=
        hfirst i _ (le_refl _) h (List.getElem?_eq_getElem hi)
      simp only [hno, if_false]
      exact azimuth_scan_first_match l x y k v hv hin trips (i + 1) h (by omega)
        (fun m w hm hmk hw => hfirst m w (by omega) hmk hw)

lemma range_scan_first_match (l : List Sentinel1CalibrationStruct) (y : Int) (t : Nat)
    (v : Sentinel1CalibrationStruct) (hv : l[t]? = some v) (hle : y ≤ v.line) :
    ∀ (trips i : Nat), i ≤ t → t < i + trips →
      (∀ m w, i ≤ m → m < t → l[m]? = some w → ¬ y ≤ w.line) →
      GetRangeVectorIndex.scan l y trips i = some ((t : Int) - 1)
  | 0, i, h1, h2, _ => by omega
  | trips + 1, i, h1, h2, hfirst => by
    have htlt : t < l.length := (List.getElem?_eq_some.mp hv).1
    have hi : i < l.length := by omega
    rw [GetRangeVectorIndex.scan, List.getElem?_eq_getElem hi]
    rcases Nat.eq_or_lt_of_le h1 with h | h
    · subst h
      rw [List.getElem?_eq_getElem hi] at hv
      cases hv
      simp [hle]
    · have hno : ¬ y ≤ (l[i]).line :=
        hfirst i _ (le_refl _) h (List.getElem?_eq_getElem hi)
      simp only [hno, if_false]
      exact range_scan_first_match l y t v hv hle trips (i + 1) h (by omega)
        (fun m w hm hmt hw => hfirst m w (by omega) hmt hw)

/-- Every index returned by the range scan started at `i ≥ 1` with `trips` iterations
lies in `[-1, i + trips - 2]`. -/
lemma range_scan_bounds (l : List Sentinel1CalibrationStruct) (y : Int) :
    ∀ (trips i : Nat) (r : Int), GetRangeVectorIndex.scan l y trips i = some r →
      r = -1 ∨ ((i : Int) - 1 ≤ r ∧ r < (i : Int) + trips - 1)
  | 0, i, r, h => by
    simp [GetRangeVectorIndex.scan] at h
    exact Or.inl h.symm
  | trips + 1, i, r, h => by
    rw [GetRangeVectorIndex.scan] at h
    cases hl : l[i]? with
    | none => simp [hl] at h
    | some v =>
      simp only [hl] at h
      by_cases hy : y ≤ v.line
      · simp only [hy, if_true, Option.some.injEq] at h
        right
        constructor <;> push_cast <;> omega
      · simp only [hy, if_false] at h
        rcases range_scan_bounds l y trips (i + 1) r h with h1 | ⟨h1, h2⟩
        · exact Or.inl h1
        · right
          constructor <;> push_cast at * <;> omega

/-! ## Closed forms of the two interpolations on a known bracket -/

/-- The value of `GetAzimuthNoise` once the block and the sample bracket are known. -/
lemma GetAzimuthNoise_of_bracket (A : Arithmetic) (E : ElementTypes)
    (s : Sentinel1ThermalNoiseLookupData) (x y : Int) (k j : Nat)
    (vec : Sentinel1AzimuthNoiseStruct) (l0 l1 : Int) (v0 v1 : ℚ)
    (hc : s.m_AzimuthCount ≠ 0)
    (hidx : GetAzimuthVectorIndex s (A.toInt x) (A.toInt y) = some (k : Int))
    (hvec : s.m_AzimuthNoiseVectorList[k]? = some vec)
    (hp : GetPixelIndex (A.toInt y) vec.lines = (j : Int))
    (hl0 : vec.lines[j]? = some l0) (hl1 : vec.lines[j + 1]? = some l1)
    (hv0 : vec.vect[j]? = some v0) (hv1 : vec.vect[j + 1]? = some v1) :
    GetAzimuthNoise A E s x y = GetAzimuthNoise.lutVal A E v0 v1 l0 l1 y := by
  unfold GetAzimuthNoise
  rw [if_pos hc]
  simp only [hidx, Option.bind_eq_bind, Option.some_bind, elemAt_natCast, hvec, hp,
    elemAt_natCast_succ, hl0, hl1, hv0, hv1]

/-- The linear interpolation of `GetAzimuthNoise` in the ideal arithmetic. -/
lemma GetAzimuthNoise_lutVal_ideal (E : ElementTypes) (v0 v1 : ℚ) (l0 l1 y : Int)
    (hne : l1 ≠ l0) :
    GetAzimuthNoise.lutVal .ideal E v0 v1 l0 l1 y
      = some (v0 + (v1 - v0) * (((y - l0 : Int) : ℚ) / ((l1 - l0 : Int) : ℚ))) := by
  have hd : ((l1 - l0 : Int) : ℚ) ≠ 0 := by
    intro h
    have : l1 - l0 = 0 := by exact_mod_cast h
    omega
  unfold GetAzimuthNoise.lutVal
  simp only [fsub_ideal, Option.bind_eq_bind, Option.some_bind, ofInt_ideal, toInt_ideal,
    toIndexValueType_ideal, fdiv_ideal_of_ne _ hd, fmul_ideal, fadd_ideal]

/-- The value of `GetRangeNoise` once the bracketing vectors are known. -/
lemma GetRangeNoise_of_vectors (A : Arithmetic) (E : ElementTypes)
    (s : Sentinel1ThermalNoiseLookupData) (x y : Int) (k : Nat)
    (vec0 vec1 : Sentinel1CalibrationStruct)
    (hidx : GetRangeVectorIndex s (A.toInt y) = some (k : Int))
    (hvec0 : s.m_RangeNoiseVectorList[k]? = some vec0)
    (hvec1 : s.m_RangeNoiseVectorList[k + 1]? = some vec1) :
    GetRangeNoise A E s x y
      = GetRangeNoise.blend A E s.m_FirstLineTime s.m_LineTimeInterval x y vec0 vec1 := by
  have hb : (k : Int) ≥ 0 ∧ (k : Int) < s.m_RangeCount - 1 := by
    constructor
    · omega
    · have := range_scan_bounds _ _ _ _ _ hidx
      omega
  have hc : s.m_RangeCount ≠ 0 := by omega
  unfold GetRangeNoise
  rw [if_pos hc]
  simp only [hidx, Option.bind_eq_bind, Option.some_bind, hb, and_self, not_true_eq_false,
    if_false, elemAt_natCast, hvec0, elemAt_natCast_succ, hvec1]

/-- The fraction `muX` once the sample bracket is known. -/
lemma GetRangeNoise_muX_of_bracket (A : Arithmetic) (E : ElementTypes) (x : Int) (j : Nat)
    (vec0 : Sentinel1CalibrationStruct) (p : Int) (dp : ℚ)
    (hp : GetPixelIndex (A.toInt x) vec0.pixels = (j : Int))
    (hpj : vec0.pixels[j]? = some p) (hdp : vec0.deltaPixels[j + 1]? = some dp) :
    GetRangeNoise.muX A E x vec0
      = fdiv A E.deltaPixels (A.ofInt E.deltaPixels (A.toIndexValueType (x - p))) dp := by
  unfold GetRangeNoise.muX
  simp only [hp, elemAt_natCast, hpj, elemAt_natCast_succ, hdp, Option.bind_eq_bind,
    Option.some_bind]

/-- The blend of `GetRangeNoise` once the sample bracket and the four stencil values
are known. -/
lemma GetRangeNoise_blend_of_bracket (A : Arithmetic) (E : ElementTypes) (first : ℚ)
    (lti : Option ℚ) (x y : Int) (j : Nat) (vec0 vec1 : Sentinel1CalibrationStruct)
    (a0 a1 b0 b1 : ℚ)
    (hp : GetPixelIndex (A.toInt x) vec0.pixels = (j : Int))
    (ha0 : vec0.vect[j]? = some a0) (ha1 : vec0.vect[j + 1]? = some a1)
    (hb0 : vec1.vect[j]? = some b0) (hb1 : vec1.vect[j + 1]? = some b1) :
    GetRangeNoise.blend A E first lti x y vec0 vec1
      = (GetRangeNoise.muY A first lti y vec0 vec1).bind (fun muY =>
          (GetRangeNoise.muX A E x vec0).bind (fun muX =>
            GetRangeNoise.lutVal A muX muY a0 a1 b0 b1)) := by
  unfold GetRangeNoise.blend
  simp only [hp, elemAt_natCast, elemAt_natCast_succ, ha0, ha1, hb0, hb1, Option.bind_eq_bind,
    Option.some_bind]

/-- The value of `GetRangeNoise` once the bracketing vectors and the sample bracket
are known. -/
lemma GetRangeNoise_of_bracket (A : Arithmetic) (E : ElementTypes)
    (s : Sentinel1ThermalNoiseLookupData) (x y : Int) (k j : Nat)
    (vec0 vec1 : Sentinel1CalibrationStruct) (a0 a1 b0 b1 : ℚ)
    (hidx : GetRangeVectorIndex s (A.toInt y) = some (k : Int))
    (hvec0 : s.m_RangeNoiseVectorList[k]? = some vec0)
    (hvec1 : s.m_RangeNoiseVectorList[k + 1]? = some vec1)
    (hp : GetPixelIndex (A.toInt x) vec0.pixels = (j : Int))
    (ha0 : vec0.vect[j]? = some a0) (ha1 : vec0.vect[j + 1]? = some a1)
    (hb0 : vec1.vect[j]? = some b0) (hb1 : vec1.vect[j + 1]? = some b1) :
    GetRangeNoise A E s x y
      = (GetRangeNoise.muY A s.m_FirstLineTime s.m_LineTimeInterval y vec0 vec1).bind
          (fun muY => (GetRangeNoise.muX A E x vec0).bind (fun muX =>
            GetRangeNoise.lutVal A muX muY a0 a1 b0 b1)) := by
  rw [GetRangeNoise_of_vectors A E s x y k vec0 vec1 hidx hvec0 hvec1,
    GetRangeNoise_blend_of_bracket A E _ _ x y j vec0 vec1 a0 a1 b0 b1 hp ha0 ha1 hb0 hb1]

/-- The blend in the ideal arithmetic is the bilinear blend of the specification. -/
lemma GetRangeNoise_lutVal_ideal (muX muY a0 a1 b0 b1 : ℚ) :
    GetRangeNoise.lutVal .ideal muX muY a0 a1 b0 b1 = some (bilinear muX muY a0 a1 b0 b1) := by
  simp [GetRangeNoise.lutVal, bilinear]

/-- The fraction `muY` in the ideal arithmetic. -/
lemma GetRangeNoise_muY_ideal (first lti : ℚ) (y : Int) (vec0 vec1 : Sentinel1CalibrationStruct)
    (d : ℚ) (hd : vec1.deltaMJD = some d) (hne : d ≠ 0) :
    GetRangeNoise.muY .ideal first (some lti) y vec0 vec1
      = some ((first + (y : ℚ) * lti - vec0.timeMJD) / d) := by
  simp [GetRangeNoise.muY, GetRangeNoise.azTime, hd, fdiv_ideal_of_ne _ hne]

/-! ## Point query -/

/-- C1: `GetValue(x, y)` is the product, taken in `double`, of `GetRangeNoise(x, y)` and
`GetAzimuthNoise(x, y)` (defined when both factors are); in the ideal arithmetic it is
their product as real numbers. The factors are independent: the range factor does not
change when the azimuth members of the lookup are replaced, the azimuth factor does
not change when the range and time members are replaced. -/
theorem GetValue_eq_product (A : Arithmetic) (E : ElementTypes)
    (s : Sentinel1ThermalNoiseLookupData) (x y : Int) :
    GetValue A E s x y
        = (GetRangeNoise A E s x y).bind (fun r =>
            (GetAzimuthNoise A E s x y).bind (fun a => fmul A .double r a))
      ∧ (∀ r a, GetRangeNoise A E s x y = some r → GetAzimuthNoise A E s x y = some a →
          GetValue A E s x y = fmul A .double r a)
      ∧ (∀ r a, GetRangeNoise .ideal E s x y = some r → GetAzimuthNoise .ideal E s x y = some a →
          GetValue .ideal E s x y = some (r * a))
      ∧ (∀ (c : Int) (al : List Sentinel1AzimuthNoiseStruct),
          GetRangeNoise A E { s with m_AzimuthCount := c, m_AzimuthNoiseVectorList := al } x y
            = GetRangeNoise A E s x y)
      ∧ (∀ (t0 t1 : ℚ) (n c : Int) (lti : Option ℚ) (rl : List Sentinel1CalibrationStruct),
          GetAzimuthNoise A E
              { s with m_FirstLineTime := t0, m_LastLineTime := t1, m_NumOfLines := n,
                       m_LineTimeInterval := lti, m_RangeCount := c,
                       m_RangeNoiseVectorList := rl } x y
            = GetAzimuthNoise A E s x y) := by
  refine ⟨?_, ?_, ?_, ?_, ?_⟩
  · unfold GetValue
    cases GetRangeNoise A E s x y <;> cases GetAzimuthNoise A E s x y <;> rfl
  · intro r a hr ha
    simp [GetValue, hr, ha]
  · intro r a hr ha
    simp [GetValue, hr, ha]
  · intro c al
    rfl
  · intro t0 t1 n c lti rl
    rfl

/-- Witness of C1: on the spec's table, in the arithmetic of the code, the range factor
at `(5, 50)` is `5/2`, the azimuth factor is 1, and `GetValue(5, 50)` is their product
in `double`, which is `5/2`. -/
theorem GetValue_eq_product_witness :
    GetRangeNoise .machine floatElements (specLookup .machine) 5 50 = some (5 / 2)
      ∧ GetAzimuthNoise .machine floatElements (specLookup .machine) 5 50 = some 1
      ∧ GetValue .machine floatElements (specLookup .machine) 5 50
          = fmul .machine .double (5 / 2) 1
      ∧ fmul .machine .double (5 / 2) 1 = some (5 / 2) := by
  have hr : GetRangeNoise .machine floatElements (specLookup .machine) 5 50 = some (5 / 2) := by
    decide!
  exact ⟨hr, rfl,
    (GetValue_eq_product .machine floatElements (specLookup .machine) 5 50).2.1 (5 / 2) 1 hr rfl,
    by decide!⟩

/-- C4: a lookup built by `InitParameters` with an empty range list has
`GetRangeNoise = 1` everywhere, with an empty azimuth list `GetAzimuthNoise = 1`
everywhere, and with both lists empty `GetValue = 1` everywhere (the product `1 * 1` in
`double` is 1), in the arithmetic of the code and in the ideal arithmetic. -/
theorem zero_vector_case (A : Arithmetic) (E : ElementTypes)
    (s0 : Sentinel1ThermalNoiseLookupData) (firstLineTime lastLineTime : ℚ)
    (numOfLines : Int) (rl : List Sentinel1CalibrationStruct)
    (al : List Sentinel1AzimuthNoiseStruct) (x y : Int) :
    GetRangeNoise A E (InitParameters A s0 firstLineTime lastLineTime numOfLines [] al) x y
        = some 1
      ∧ GetAzimuthNoise A E (InitParameters A s0 firstLineTime lastLineTime numOfLines rl []) x y
          = some 1
      ∧ GetValue .machine E
          (InitParameters .machine s0 firstLineTime lastLineTime numOfLines [] []) x y = some 1
      ∧ GetValue .ideal E
          (InitParameters .ideal s0 firstLineTime lastLineTime numOfLines [] []) x y = some 1 := by
  refine ⟨?_, ?_, ?_, ?_⟩
  · simp [GetRangeNoise, InitParameters]
  · simp [GetAzimuthNoise, InitParameters]
  · have h : fmul .machine .double 1 1 = some 1 := by decide!
    simp [GetValue, GetRangeNoise, GetAzimuthNoise, InitParameters, h]
  · simp [GetValue, GetRangeNoise, GetAzimuthNoise, InitParameters]

/-! ## Azimuth interpolation -/

/-- The bracket used by `GetAzimuthNoise` for a point of block `k` on the segment
`[lines[j], lines[j+1])`, or at the last sample, when the conversions to `int` keep
`x` and `y`. -/
lemma GetAzimuthNoise_on_segment (A : Arithmetic) (E : ElementTypes)
    (s : Sentinel1ThermalNoiseLookupData) (x y : Int) (k : Nat)
    (vec : Sentinel1AzimuthNoiseStruct)
    (hx : A.toInt x = x) (hy : A.toInt y = y)
    (hk : (k : Int) < s.m_AzimuthCount)
    (hvec : s.m_AzimuthNoiseVectorList[k]? = some vec)
    (hin : vec.contains x y)
    (hfirst : ∀ m w, m < k → s.m_AzimuthNoiseVectorList[m]? = some w → ¬ w.contains x y)
    (hsorted : vec.lines.Pairwise (fun a b => a < b))
    (j : Nat) (lj lj1 : Int) (vj vj1 : ℚ)
    (hlj : vec.lines[j]? = some lj) (hlj1 : vec.lines[j + 1]? = some lj1)
    (hvj : vec.vect[j]? = some vj) (hvj1 : vec.vect[j + 1]? = some vj1)
    (h1 : lj ≤ y) (h2 : y < lj1 ∨ (y = lj1 ∧ vec.lines.length = j + 2)) :
    GetAzimuthNoise A E s x y = GetAzimuthNoise.lutVal A E vj vj1 lj lj1 y := by
  have hc : s.m_AzimuthCount ≠ 0 := by omega
  have hidx : GetAzimuthVectorIndex s (A.toInt x) (A.toInt y) = some (k : Int) := by
    rw [hx, hy]
    unfold GetAzimuthVectorIndex
    exact azimuth_scan_first_match _ x y k vec hvec hin _ 0 (Nat.zero_le _) (by omega)
      (fun m w _ hmk hw => hfirst m w hmk hw)
  have hp : GetPixelIndex (A.toInt y) vec.lines = (j : Int) := by
    rw [hy]
    rcases h2 with hlt | ⟨heq, hn⟩
    · exact GetPixelIndex_of_segment hsorted hlj hlj1 h1 hlt
    · subst heq
      have hall := le_last_of_pairwise hsorted hn hlj1
      rw [GetPixelIndex_of_all_le hall, hn]
      push_cast
      ring
  exact GetAzimuthNoise_of_bracket A E s x y k j vec lj lj1 vj vj1 hc hidx hvec hp hlj hlj1
    hvj hvj1

/-- An `int` converted to `double` keeps its value. -/
lemma ofInt_machine_double_of_isInt {z : Int} (h : IsInt z) :
    Arithmetic.machine.ofInt .double z = (z : ℚ) := by
  unfold IsInt at h
  exact ofInt_machine_double (by omega) (by omega)

/-- An `int` converted to `IndexValueType` keeps its value. -/
lemma toIndexValueType_machine_of_isInt {z : Int} (h : IsInt z) :
    Arithmetic.machine.toIndexValueType z = z := by
  unfold IsInt at h
  exact toInt64_of_small (by omega) (by omega)

/-- The azimuth expression of the code at the lower sample of its segment. -/
lemma GetAzimuthNoise_lutVal_machine_lower (E : ElementTypes) (v0 v1 d : ℚ) (l0 l1 : Int)
    (hden : IsInt (l1 - l0)) (hne : l1 ≠ l0)
    (hv0 : FloatType.double.round v0 = some v0)
    (hd : fsub .machine E.vect v1 v0 = some d) :
    GetAzimuthNoise.lutVal .machine E v0 v1 l0 l1 l0 = some v0 := by
  have hnum : Arithmetic.machine.ofInt .double (Arithmetic.machine.toIndexValueType (l0 - l0))
      = 0 := by
    rw [sub_self, toIndexValueType_machine_of_isInt (by unfold IsInt; omega),
      ofInt_machine_double_of_isInt (by unfold IsInt; omega)]
    simp
  have hdenq : Arithmetic.machine.ofInt .double (Arithmetic.machine.toInt (l1 - l0))
      = ((l1 - l0 : Int) : ℚ) := by
    rw [toInt_machine_of_isInt hden, ofInt_machine_double_of_isInt hden]
  have hq : ((l1 - l0 : Int) : ℚ) ≠ 0 := by
    intro h
    have : l1 - l0 = 0 := by exact_mod_cast h
    omega
  have hfrac : fdiv .machine .double 0 ((l1 - l0 : Int) : ℚ) = some 0 := by
    unfold fdiv
    rw [if_neg hq, zero_div]
    exact round_zero .double
  have hmul : fmul .machine .double d 0 = some 0 := by
    unfold fmul
    rw [mul_zero]
    exact round_zero .double
  have hadd : fadd .machine .double v0 0 = some v0 := by
    unfold fadd
    rw [add_zero]
    exact hv0
  unfold GetAzimuthNoise.lutVal
  simp only [hd, hnum, hdenq, hfrac, hmul, hadd, Option.bind_eq_bind, Option.some_bind]

/-- The azimuth expression of the code at the upper sample of its segment: the
fraction is exactly 1, and what is returned is `v0 + (v1 - v0)` with the difference
rounded in the element type of `vect` and the sum rounded in `double`. -/
lemma GetAzimuthNoise_lutVal_machine_upper (E : ElementTypes) (v0 v1 : ℚ) (l0 l1 : Int)
    (hden : IsInt (l1 - l0)) (hne : l1 ≠ l0) :
    GetAzimuthNoise.lutVal .machine E v0 v1 l0 l1 l1
      = (fsub .machine E.vect v1 v0).bind (fun d => fadd .machine .double v0 d) := by
  have hnum : Arithmetic.machine.ofInt .double (Arithmetic.machine.toIndexValueType (l1 - l0))
      = ((l1 - l0 : Int) : ℚ) := by
    rw [toIndexValueType_machine_of_isInt hden, ofInt_machine_double_of_isInt hden]
  have hdenq : Arithmetic.machine.ofInt .double (Arithmetic.machine.toInt (l1 - l0))
      = ((l1 - l0 : Int) : ℚ) := by
    rw [toInt_machine_of_isInt hden, ofInt_machine_double_of_isInt hden]
  have hq : ((l1 - l0 : Int) : ℚ) ≠ 0 := by
    intro h
    have : l1 - l0 = 0 := by exact_mod_cast h
    omega
  have hfrac : fdiv .machine .double ((l1 - l0 : Int) : ℚ) ((l1 - l0 : Int) : ℚ) = some 1 := by
    unfold fdiv
    rw [if_neg hq, div_self hq]
    exact round_one .double
  unfold GetAzimuthNoise.lutVal
  rw [hnum, hdenq, hfrac]
  cases hd : fsub .machine E.vect v1 v0 with
  | none => rfl
  | some d =>
    have hmul : fmul .machine .double d 1 = some d := by
      unfold fmul
      rw [mul_one]
      exact value_is_double E.vect (FloatType.round_round hd)
    simp only [hmul, Option.bind_eq_bind, Option.some_bind]

/-- C5 (amended): let block `k` be the first azimuth block whose box contains `(x, y)`,
its lines strictly increasing (at least two) and `vect` of the same length.
In the ideal arithmetic, for every `j` with `lines[j] ≤ y ≤ lines[j+1]` the azimuth
noise is `vect[j] + (vect[j+1] - vect[j]) * (y - lines[j]) / (lines[j+1] - lines[j])`,
and at `y = lines[m]` it is `vect[m]` for every sample `m`, the last one included.
In any arithmetic that keeps `x` and `y` as `int`, the value is the expression of the
code on the segment `[lines[j], lines[j+1])`, the last segment including its upper end.
In the arithmetic of the code, with `x` and `y` of type `int`: at `y = lines[m]` for a
sample `m` other than the last the value is `vect[m]` (when `lines[m+1] - lines[m]` does
not overflow `int`, `vect[m]` is a `double` and `vect[m+1] - vect[m]` is finite); at the
last sample the value is `v0 + (v1 - v0)` with `v0`, `v1` the last two entries of `vect`,
the difference rounded in the element type of `vect` and the sum rounded in `double`,
which need not be `v1`. -/
theorem azimuth_interpolation (E : ElementTypes) (s : Sentinel1ThermalNoiseLookupData)
    (x y : Int) (k : Nat) (vec : Sentinel1AzimuthNoiseStruct)
    (hk : (k : Int) < s.m_AzimuthCount)
    (hvec : s.m_AzimuthNoiseVectorList[k]? = some vec)
    (hin : vec.contains x y)
    (hfirst : ∀ m w, m < k → s.m_AzimuthNoiseVectorList[m]? = some w → ¬ w.contains x y)
    (hsorted : vec.lines.Pairwise (fun a b => a < b))
    (hlen2 : 2 ≤ vec.lines.length)
    (hlen : vec.vect.length = vec.lines.length) :
    (∀ (j : Nat) (lj lj1 : Int) (vj vj1 : ℚ),
        vec.lines[j]? = some lj → vec.lines[j + 1]? = some lj1 →
        vec.vect[j]? = some vj → vec.vect[j + 1]? = some vj1 →
        lj ≤ y → y ≤ lj1 →
        GetAzimuthNoise .ideal E s x y
          = some (vj + (vj1 - vj) * ((y - lj : Int) : ℚ) / ((lj1 - lj : Int) : ℚ)))
      ∧ (∀ (m : Nat) (vm : ℚ), vec.lines[m]? = some y → vec.vect[m]? = some vm →
          GetAzimuthNoise .ideal E s x y = some vm)
      ∧ (∀ (A : Arithmetic), A.toInt x = x → A.toInt y = y →
          ∀ (j : Nat) (lj lj1 : Int) (vj vj1 : ℚ),
            vec.lines[j]? = some lj → vec.lines[j + 1]? = some lj1 →
            vec.vect[j]? = some vj → vec.vect[j + 1]? = some vj1 →
            lj ≤ y → (y < lj1 ∨ (y = lj1 ∧ vec.lines.length = j + 2)) →
            GetAzimuthNoise A E s x y = GetAzimuthNoise.lutVal A E vj vj1 lj lj1 y)
      ∧ (IsInt x → IsInt y →
          (∀ (m : Nat) (lm1 : Int) (vm vm1 d : ℚ),
              vec.lines[m]? = some y → vec.lines[m + 1]? = some lm1 →
              vec.vect[m]? = some vm → vec.vect[m + 1]? = some vm1 →
              IsInt (lm1 - y) → FloatType.double.round vm = some vm →
              fsub .machine E.vect vm1 vm = some d →
              GetAzimuthNoise .machine E s x y = some vm)
            ∧ (∀ (n : Nat) (l0 : Int) (v0 v1 : ℚ), vec.lines.length = n + 2 →
                vec.lines[n]? = some l0 → vec.lines[n + 1]? = some y →
                vec.vect[n]? = some v0 → vec.vect[n + 1]? = some v1 → IsInt (y - l0) →
                GetAzimuthNoise .machine E s x y
                  = (fsub .machine E.vect v1 v0).bind
                      (fun d => fadd .machine .double v0 d))) := by
  have seg : ∀ (A : Arithmetic), A.toInt x = x → A.toInt y = y →
      ∀ (j : Nat) (lj lj1 : Int) (vj vj1 : ℚ),
        vec.lines[j]? = some lj → vec.lines[j + 1]? = some lj1 →
        vec.vect[j]? = some vj → vec.vect[j + 1]? = some vj1 →
        lj ≤ y → (y < lj1 ∨ (y = lj1 ∧ vec.lines.length = j + 2)) →
        GetAzimuthNoise A E s x y = GetAzimuthNoise.lutVal A E vj vj1 lj lj1 y :=
    fun A hx hy j lj lj1 vj vj1 hlj hlj1 hvj hvj1 h1 h2 =>
      GetAzimuthNoise_on_segment A E s x y k vec hx hy hk hvec hin hfirst hsorted j lj lj1
        vj vj1 hlj hlj1 hvj hvj1 h1 h2
  have main : ∀ (j : Nat) (lj lj1 : Int) (vj vj1 : ℚ),
        vec.lines[j]? = some lj → vec.lines[j + 1]? = some lj1 →
        vec.vect[j]? = some vj → vec.vect[j + 1]? = some vj1 →
        lj ≤ y → y ≤ lj1 →
        GetAzimuthNoise .ideal E s x y
          = some (vj + (vj1 - vj) * ((y - lj : Int) : ℚ) / ((lj1 - lj : Int) : ℚ)) := by
    intro j lj lj1 vj vj1 hlj hlj1 hvj hvj1 h1 h2
    have hlt : lj < lj1 := pairwise_getElem? hsorted (Nat.lt_succ_self j) hlj hlj1
    have hj1 : j + 1 < vec.lines.length := (List.getElem?_eq_some.mp hlj1).1
    have hd : ((lj1 - lj : Int) : ℚ) ≠ 0 := by
      intro h
      have : lj1 - lj = 0 := by exact_mod_cast h
      omega
    rcases lt_or_eq_of_le h2 with hy | hy
    · -- strictly inside the segment
      rw [seg .ideal rfl rfl j lj lj1 vj vj1 hlj hlj1 hvj hvj1 h1 (Or.inl hy),
        GetAzimuthNoise_lutVal_ideal E vj vj1 lj lj1 y (by omega)]
      congr 1
      ring
    · -- at the upper end of the segment
      subst hy
      by_cases hlast : j + 2 < vec.lines.length
      · have hv2 : j + 2 < vec.vect.length := by omega
        have hl2 := List.getElem?_eq_getElem hlast
        have hlt2 : y < vec.lines[j + 2] :=
          pairwise_getElem? hsorted (Nat.lt_succ_self (j + 1)) hlj1 hl2
        rw [seg .ideal rfl rfl (j + 1) y _ vj1 _ hlj1 hl2 hvj1 (List.getElem?_eq_getElem hv2)
          (le_refl _) (Or.inl hlt2),
          GetAzimuthNoise_lutVal_ideal E vj1 _ y _ y (by omega)]
        congr 1
        rw [mul_div_assoc, div_self hd]
        simp
      · have hn : vec.lines.length = j + 2 := by omega
        rw [seg .ideal rfl rfl j lj y vj vj1 hlj hlj1 hvj hvj1 h1 (Or.inr ⟨rfl, hn⟩),
          GetAzimuthNoise_lutVal_ideal E vj vj1 lj y y (by omega)]
        congr 1
        ring
  refine ⟨main, ?_, seg, ?_⟩
  · intro m vm hlm hvm
    have hm : m < vec.lines.length := (List.getElem?_eq_some.mp hlm).1
    by_cases hnext : m + 1 < vec.lines.length
    · have hv1 : m + 1 < vec.vect.length := by omega
      rw [main m y _ vm _ hlm (List.getElem?_eq_getElem hnext) hvm
        (List.getElem?_eq_getElem hv1) (le_refl _)
        (le_of_lt (pairwise_getElem? hsorted (Nat.lt_succ_self m) hlm
          (List.getElem?_eq_getElem hnext)))]
      congr 1
      simp
    · obtain ⟨j, rfl⟩ : ∃ j, m = j + 1 := ⟨m - 1, by omega⟩
      have hj : j < vec.lines.length := by omega
      have hvj : j < vec.vect.length := by omega
      have hlt : vec.lines[j] < y :=
        pairwise_getElem? hsorted (Nat.lt_succ_self j) (List.getElem?_eq_getElem hj) hlm
      rw [main j _ y _ vm (List.getElem?_eq_getElem hj) hlm (List.getElem?_eq_getElem hvj) hvm
        (le_of_lt hlt) (le_refl _)]
      congr 1
      have hd : ((y - vec.lines[j] : Int) : ℚ) ≠ 0 := by
        intro h
        have : y - vec.lines[j] = 0 := by exact_mod_cast h
        omega
      rw [mul_div_assoc, div_self hd]
      ring
  · intro hx hy
    have hx1 := toInt_machine_of_isInt hx
    have hy1 := toInt_machine_of_isInt hy
    constructor
    · intro m lm1 vm vm1 d hlm hlm1 hvm hvm1 hden hdbl hd
      have hlt : y < lm1 := pairwise_getElem? hsorted (Nat.lt_succ_self m) hlm hlm1
      rw [seg .machine hx1 hy1 m y lm1 vm vm1 hlm hlm1 hvm hvm1 (le_refl _) (Or.inl hlt)]
      exact GetAzimuthNoise_lutVal_machine_lower E vm vm1 d y lm1 hden (by omega) hdbl hd
    · intro n l0 v0 v1 hn hl0 hl1 hv0 hv1 hden
      have hlt : l0 < y := pairwise_getElem? hsorted (Nat.lt_succ_self n) hl0 hl1
      rw [seg .machine hx1 hy1 n l0 y v0 v1 hl0 hl1 hv0 hv1 (le_of_lt hlt) (Or.inr ⟨rfl, hn⟩)]
      exact GetAzimuthNoise_lutVal_machine_upper E v0 v1 l0 y hden (by omega)

/-- Witness of C5: on the spec's single block, `GetAzimuthNoise(2, 5) = 3` in the ideal
arithmetic, and in the arithmetic of the code `GetAzimuthNoise(2, 0) = 2` and
`GetAzimuthNoise(2, 10) = 2 + (4 - 2) = 4`. -/
theorem azimuth_interpolation_witness :
    GetAzimuthNoise .ideal floatElements (specAzimuthLookup .machine) 2 5 = some 3
      ∧ GetAzimuthNoise .machine floatElements (specAzimuthLookup .machine) 2 0 = some 2
      ∧ GetAzimuthNoise .machine floatElements (specAzimuthLookup .machine) 2 10 = some 4 := by
  refine ⟨?_, ?_, ?_⟩
  · have h := (azimuth_interpolation floatElements (specAzimuthLookup .machine) 2 5 0
      specAzimuthBlock (by decide) rfl (by decide) (by intro m w hm; omega) (by decide)
      (by decide) rfl).1 0 0 10 2 4 rfl rfl rfl rfl (by decide) (by decide)
    rw [h]
    norm_num
  · exact ((azimuth_interpolation floatElements (specAzimuthLookup .machine) 2 0 0
      specAzimuthBlock (by decide) rfl (by decide) (by intro m w hm; omega) (by decide)
      (by decide) rfl).2.2.2 (by decide) (by decide)).1 0 10 2 4 2 rfl rfl rfl rfl
      (by decide) (by decide!) (by decide!)
  · have h := ((azimuth_interpolation floatElements (specAzimuthLookup .machine) 2 10 0
      specAzimuthBlock (by decide) rfl (by decide) (by intro m w hm; omega) (by decide)
      (by decide) rfl).2.2.2 (by decide) (by decide)).2 0 0 2 4 rfl rfl rfl rfl rfl
      (by decide)
    rw [h]
    decide!

/-- Counterexample to C5 as stated: the block with `lines = [0, 10]` and
`vect = [2^30, 2^-24]` satisfies every premise at `(2, 10)`, and at the last sample
`y = lines[1] = 10` the code returns `0`, not `vect[1] = 2^-24`, whether `vect` is a
vector of `float` or of `double`. -/
theorem azimuth_last_sample_not_reproduced :
    (steepAzimuthLookup .machine).m_AzimuthNoiseVectorList[0]? = some steepAzimuthBlock
      ∧ steepAzimuthBlock.contains 2 10
      ∧ steepAzimuthBlock.lines.Pairwise (fun a b => a < b)
      ∧ steepAzimuthBlock.vect.length = steepAzimuthBlock.lines.length
      ∧ steepAzimuthBlock.lines[1]? = some 10
      ∧ steepAzimuthBlock.vect[1]? = some (1 / 16777216)
      ∧ GetAzimuthNoise .machine floatElements (steepAzimuthLookup .machine) 2 10 = some 0
      ∧ GetAzimuthNoise .machine doubleElements (steepAzimuthLookup .machine) 2 10 = some 0
      ∧ (0 : ℚ) ≠ 1 / 16777216 := by
  refine ⟨rfl, by decide, by decide, rfl, rfl, rfl, by decide!, by decide!, by norm_num⟩

/-! ## Range noise on a known bracket -/

/-- The line time interval in the ideal arithmetic. -/
lemma computeLineTimeInterval_ideal (firstLineTime lastLineTime : ℚ) (numOfLines : Int)
    (h : ((numOfLines - 1 : Int) : ℚ) ≠ 0) :
    computeLineTimeInterval .ideal firstLineTime lastLineTime numOfLines
      = some ((lastLineTime - firstLineTime) / ((numOfLines - 1 : Int) : ℚ)) := by
  simp only [computeLineTimeInterval, fsub_ideal, Option.some_bind, ofInt_ideal, toInt_ideal,
    fdiv_ideal_of_ne _ h]

/-- The result of the blend of the code is a `double`. -/
lemma GetRangeNoise_lutVal_machine_is_double {muX muY a0 a1 b0 b1 r : ℚ}
    (h : GetRangeNoise.lutVal .machine muX muY a0 a1 b0 b1 = some r) :
    FloatType.double.round r = some r := by
  unfold GetRangeNoise.lutVal at h
  simp only [Option.bind_eq_bind, Option.bind_eq_some] at h
  obtain ⟨_, _, _, _, _, _, _, _, _, _, _, _, _, _, _, _, _, _, _, _, h⟩ := h
  exact FloatType.round_round h

/-- The result of `GetRangeNoise` in the arithmetic of the code is a `double`. -/
lemma GetRangeNoise_machine_is_double {E : ElementTypes} {s : Sentinel1ThermalNoiseLookupData}
    {x y : Int} {r : ℚ} (h : GetRangeNoise .machine E s x y = some r) :
    FloatType.double.round r = some r := by
  unfold GetRangeNoise at h
  split at h
  · simp only [Option.bind_eq_bind, Option.bind_eq_some] at h
    obtain ⟨vecIdx, _, h⟩ := h
    split at h
    · cases h
    · simp only [Option.bind_eq_bind, Option.bind_eq_some] at h
      obtain ⟨vec0, _, vec1, _, h⟩ := h
      unfold GetRangeNoise.blend at h
      simp only [Option.bind_eq_bind, Option.bind_eq_some] at h
      obtain ⟨_, _, _, _, _, _, _, _, _, _, _, _, h⟩ := h
      exact GetRangeNoise_lutVal_machine_is_double h
  · cases h
    exact round_one .double

/-- Without azimuth block `GetValue` is `GetRangeNoise` times 1 in `double`. -/
lemma GetValue_of_azimuthCount_zero (A : Arithmetic) (E : ElementTypes)
    (s : Sentinel1ThermalNoiseLookupData) (x y : Int) (h : s.m_AzimuthCount = 0) :
    GetValue A E s x y = (GetRangeNoise A E s x y).bind (fun r => fmul A .double r 1) := by
  unfold GetValue
  cases hr : GetRangeNoise A E s x y with
  | none => rfl
  | some r => simp [GetAzimuthNoise, h]

/-- Without azimuth block `GetValue` is `GetRangeNoise` in the ideal arithmetic. -/
lemma GetValue_ideal_of_azimuthCount_zero (E : ElementTypes)
    (s : Sentinel1ThermalNoiseLookupData) (x y : Int) (h : s.m_AzimuthCount = 0) :
    GetValue .ideal E s x y = GetRangeNoise .ideal E s x y := by
  rw [GetValue_of_azimuthCount_zero _ _ _ _ _ h]
  cases hr : GetRangeNoise .ideal E s x y with
  | none => rfl
  | some r => simp

/-- Without azimuth block `GetValue` is `GetRangeNoise` in the arithmetic of the code:
the product of a `double` and 1 is exact. -/
lemma GetValue_machine_of_azimuthCount_zero (E : ElementTypes)
    (s : Sentinel1ThermalNoiseLookupData) (x y : Int) (h : s.m_AzimuthCount = 0) :
    GetValue .machine E s x y = GetRangeNoise .machine E s x y := by
  rw [GetValue_of_azimuthCount_zero _ _ _ _ _ h]
  cases hr : GetRangeNoise .machine E s x y with
  | none => rfl
  | some r =>
    have := GetRangeNoise_machine_is_double hr
    simp only [Option.some_bind, fmul, mul_one]
    exact this

/-- The bilinear blend computed by `GetRangeNoise` in the ideal arithmetic when every
division is defined: the bracket is `(vec0, vec1)`, the sample bracket is `[p, q]` at
position `j`. -/
lemma GetRangeNoise_eq_blend (E : ElementTypes) (s : Sentinel1ThermalNoiseLookupData)
    (x y : Int) (k j : Nat)
    (vec0 vec1 : Sentinel1CalibrationStruct) (p q : Int) (lti d a0 a1 b0 b1 : ℚ)
    (hidx : GetRangeVectorIndex s y = some (k : Int))
    (hvec0 : s.m_RangeNoiseVectorList[k]? = some vec0)
    (hvec1 : s.m_RangeNoiseVectorList[k + 1]? = some vec1)
    (hlti : s.m_LineTimeInterval = some lti)
    (hdm : vec1.deltaMJD = some d) (hdelta : d ≠ 0)
    (hdp : DeltaPixelsConsistent vec0)
    (hp : GetPixelIndex x vec0.pixels = (j : Int))
    (hpj : vec0.pixels[j]? = some p) (hqj : vec0.pixels[j + 1]? = some q) (hpq : p ≠ q)
    (ha0 : vec0.vect[j]? = some a0) (ha1 : vec0.vect[j + 1]? = some a1)
    (hb0 : vec1.vect[j]? = some b0) (hb1 : vec1.vect[j + 1]? = some b1) :
    GetRangeNoise .ideal E s x y
      = some ((1 - (s.m_FirstLineTime + (y : ℚ) * lti - vec0.timeMJD) / d)
            * ((1 - ((x : ℚ) - p) / ((q : ℚ) - p)) * a0 + ((x : ℚ) - p) / ((q : ℚ) - p) * a1)
          + (s.m_FirstLineTime + (y : ℚ) * lti - vec0.timeMJD) / d
            * ((1 - ((x : ℚ) - p) / ((q : ℚ) - p)) * b0 + ((x : ℚ) - p) / ((q : ℚ) - p) * b1)) := by
  have hd : (((q - p : Int) : ℚ)) ≠ 0 := by
    intro h
    have : q - p = 0 := by exact_mod_cast h
    omega
  rw [GetRangeNoise_of_bracket .ideal E s x y k j vec0 vec1 a0 a1 b0 b1 hidx hvec0 hvec1 hp
    ha0 ha1 hb0 hb1, hlti, GetRangeNoise_muY_ideal _ _ _ _ _ d hdm hdelta,
    GetRangeNoise_muX_of_bracket .ideal E x j vec0 p _ hp hpj (hdp j p q hpj hqj)]
  simp only [Option.some_bind, ofInt_ideal, toIndexValueType_ideal, fdiv_ideal_of_ne _ hd,
    GetRangeNoise_lutVal_ideal, bilinear]
  push_cast
  rfl

/-- At a sampled pixel of the lower bracketing vector the blend only mixes the two
stored values of that sample, with weight `muY`. -/
lemma GetRangeNoise_at_sample (E : ElementTypes) (s : Sentinel1ThermalNoiseLookupData)
    (y : Int) (k j : Nat)
    (vec0 vec1 : Sentinel1CalibrationStruct) (p : Int) (lti d a b : ℚ)
    (hidx : GetRangeVectorIndex s y = some (k : Int))
    (hvec0 : s.m_RangeNoiseVectorList[k]? = some vec0)
    (hvec1 : s.m_RangeNoiseVectorList[k + 1]? = some vec1)
    (hlti : s.m_LineTimeInterval = some lti)
    (hdm : vec1.deltaMJD = some d) (hdelta : d ≠ 0)
    (hdp : DeltaPixelsConsistent vec0)
    (hinv : RangeVectorInvariant vec0)
    (hlen1 : vec1.vect.length = vec0.pixels.length)
    (hpj : vec0.pixels[j]? = some p)
    (ha : vec0.vect[j]? = some a) (hb : vec1.vect[j]? = some b) :
    GetRangeNoise .ideal E s p y
      = some ((1 - (s.m_FirstLineTime + (y : ℚ) * lti - vec0.timeMJD) / d) * a
          + (s.m_FirstLineTime + (y : ℚ) * lti - vec0.timeMJD) / d * b) := by
  obtain ⟨_, hlv, hlen2, hsorted⟩ := hinv
  have hj : j < vec0.pixels.length := (List.getElem?_eq_some.mp hpj).1
  by_cases hnext : j + 1 < vec0.pixels.length
  · have hq := List.getElem?_eq_getElem hnext
    have hlt : p < vec0.pixels[j + 1] :=
      pairwise_getElem? hsorted (Nat.lt_succ_self j) hpj hq
    have hidxp := GetPixelIndex_of_segment hsorted hpj hq (le_refl _) hlt
    have h0 : j + 1 < vec0.vect.length := by omega
    have h1 : j + 1 < vec1.vect.length := by omega
    rw [GetRangeNoise_eq_blend E s p y k j vec0 vec1 p _ lti d a _ b _ hidx hvec0 hvec1 hlti
      hdm hdelta hdp hidxp hpj hq (by omega) ha (List.getElem?_eq_getElem h0) hb
      (List.getElem?_eq_getElem h1)]
    congr 1
    simp
  · obtain ⟨m, rfl⟩ : ∃ m, j = m + 1 := ⟨j - 1, by omega⟩
    have hm : m < vec0.pixels.length := by omega
    have hpm := List.getElem?_eq_getElem hm
    have hlt : vec0.pixels[m] < p := pairwise_getElem? hsorted (Nat.lt_succ_self m) hpm hpj
    have hn : vec0.pixels.length = (m + 1) + 1 := by omega
    have hidxp : GetPixelIndex p vec0.pixels = (m : Int) := by
      rw [GetPixelIndex_of_all_le (le_last_of_pairwise hsorted hn hpj), hn]
      push_cast
      ring
    have h0 : m < vec0.vect.length := by omega
    have h1 : m < vec1.vect.length := by omega
    rw [GetRangeNoise_eq_blend E s p y k m vec0 vec1 _ p lti d _ a _ b hidx hvec0 hvec1 hlti
      hdm hdelta hdp hidxp hpm hpj (by omega) (List.getElem?_eq_getElem h0) ha
      (List.getElem?_eq_getElem h1) hb]
    congr 1
    have hd : ((p : ℚ) - (vec0.pixels[m] : ℚ)) ≠ 0 := by
      intro h
      have : (p : ℚ) = (vec0.pixels[m] : ℚ) := by linarith
      have : p = vec0.pixels[m] := by exact_mod_cast this
      omega
    rw [div_self hd]
    ring

/-! ## Interpolation exactness -/

/-- C2, as amended: under the premises of the property, when moreover the range list
is ordered by strictly increasing `timeMJD` (as the data model says) and every two
adjacent range vectors have the same pixel grid, `GetValue(pixels_i[j], line_i)` is
`vect_i[j]` for every range vector `i` and every sample `j`, in the exact arithmetic
in which the property is stated. -/
theorem interpolation_exactness_shared_grid (E : ElementTypes)
    (s0 : Sentinel1ThermalNoiseLookupData)
    (firstLineTime lastLineTime : ℚ) (numOfLines : Int)
    (rl : List Sentinel1CalibrationStruct) (i j : Nat) (v : Sentinel1CalibrationStruct)
    (p : Int) (val : ℚ)
    (hprem : ExactnessPremises firstLineTime lastLineTime numOfLines rl)
    (htord : rl.Pairwise (fun a b => a.timeMJD < b.timeMJD))
    (hgrid : ∀ (k : Nat) (a b : Sentinel1CalibrationStruct),
      rl[k]? = some a → rl[k + 1]? = some b → a.pixels = b.pixels)
    (hv : rl[i]? = some v) (hp : v.pixels[j]? = some p) (hval : v.vect[j]? = some val) :
    GetValue .ideal E (InitParameters .ideal s0 firstLineTime lastLineTime numOfLines rl [])
        p v.line
      = some val := by
  obtain ⟨hlen, hinv, hlines, hdp, htime, hdelta⟩ := hprem
  have hnz : (((numOfLines - 1 : Int) : ℚ)) ≠ 0 := by
    intro h
    have h0 : 0 < rl.length := by omega
    have h1 : 1 < rl.length := by omega
    have hlt : (rl[0]).timeMJD < (rl[1]).timeMJD :=
      pairwise_getElem? htord Nat.zero_lt_one (List.getElem?_eq_getElem h0)
        (List.getElem?_eq_getElem h1)
    rw [htime _ (List.getElem_mem h0), htime _ (List.getElem_mem h1), h] at hlt
    simp at hlt
  generalize hs : InitParameters .ideal s0 firstLineTime lastLineTime numOfLines rl [] = s
  have hrl : s.m_RangeNoiseVectorList = rl := by rw [← hs]; rfl
  have hcnt : s.m_RangeCount = (rl.length : Int) := by rw [← hs]; rfl
  have hfirst : s.m_FirstLineTime = firstLineTime := by rw [← hs]; rfl
  have hlti : s.m_LineTimeInterval
      = some ((lastLineTime - firstLineTime) / ((numOfLines - 1 : Int) : ℚ)) := by
    rw [← hs]
    exact computeLineTimeInterval_ideal _ _ _ hnz
  have haz : s.m_AzimuthCount = 0 := by rw [← hs]; rfl
  rw [GetValue_ideal_of_azimuthCount_zero E s _ _ haz]
  have hi : i < rl.length := (List.getElem?_eq_some.mp hv).1
  have hvmem : v ∈ rl := by
    obtain ⟨h, rfl⟩ := List.getElem?_eq_some.mp hv
    exact List.getElem_mem h
  rcases Nat.eq_zero_or_pos i with h0 | hpos
  · -- the first vector: the bracket is (0, 1) and `muY = 0`
    subst h0
    have h1 : 1 < rl.length := by omega
    have hw := List.getElem?_eq_getElem h1
    have hwmem : rl[1] ∈ rl := List.getElem_mem h1
    have hlt : v.line < (rl[1]).line := pairwise_getElem? hlines Nat.zero_lt_one hv hw
    have hidx : GetRangeVectorIndex s v.line = some ((0 : Nat) : Int) := by
      unfold GetRangeVectorIndex
      rw [hrl, hcnt, range_scan_first_match rl v.line 1 _ hw (le_of_lt hlt) _ 1 (le_refl _)
        (by omega) (fun m w hm hm1 _ => by omega)]
      rfl
    have hδ : (rl[1]).timeMJD - v.timeMJD ≠ 0 :=
      sub_ne_zero.mpr (ne_of_gt (pairwise_getElem? htord Nat.zero_lt_one hv hw))
    have hj : j < v.vect.length := (List.getElem?_eq_some.mp hval).1
    have hj1 : j < (rl[1]).vect.length := by
      have e1 := (hinv _ hwmem).2.1
      have e2 := (hinv v hvmem).2.1
      have e3 := congrArg List.length (hgrid 0 v _ hv hw)
      omega
    rw [GetRangeNoise_at_sample E s v.line 0 j v _ p _ _ val _ hidx (by rw [hrl]; exact hv)
      (by rw [hrl]; exact hw) hlti (hdelta 0 v _ hv hw) hδ (hdp v hvmem) (hinv v hvmem)
      (by rw [(hinv _ hwmem).2.1, hgrid 0 v _ hv hw]) hp hval (List.getElem?_eq_getElem hj1),
      hfirst, htime v hvmem]
    congr 1
    simp
  · -- a later vector: the bracket is (i - 1, i) and `muY = 1`
    obtain ⟨m, rfl⟩ : ∃ m, i = m + 1 := ⟨i - 1, by omega⟩
    have hm : m < rl.length := by omega
    have hu := List.getElem?_eq_getElem hm
    have humem : rl[m] ∈ rl := List.getElem_mem hm
    have hlt : (rl[m]).line < v.line := pairwise_getElem? hlines (Nat.lt_succ_self m) hu hv
    have hidx : GetRangeVectorIndex s v.line = some ((m : Nat) : Int) := by
      unfold GetRangeVectorIndex
      rw [hrl, hcnt, range_scan_first_match rl v.line (m + 1) v hv (le_refl _) _ 1 (by omega)
        (by omega) (fun k w _ hk hw => by
          have := pairwise_getElem? hlines hk hw hv
          omega)]
      push_cast
      congr 1
      ring
    have hδ : v.timeMJD - (rl[m]).timeMJD ≠ 0 :=
      sub_ne_zero.mpr (ne_of_gt (pairwise_getElem? htord (Nat.lt_succ_self m) hu hv))
    have hpix : (rl[m]).pixels = v.pixels := hgrid m _ v hu hv
    have hj : j < v.vect.length := (List.getElem?_eq_some.mp hval).1
    have hj0 : j < (rl[m]).vect.length := by
      have e1 := (hinv _ humem).2.1
      have e2 := (hinv v hvmem).2.1
      have e3 := congrArg List.length hpix
      omega
    rw [GetRangeNoise_at_sample E s v.line m j _ v p _ _ _ val hidx (by rw [hrl]; exact hu)
      (by rw [hrl]; exact hv) hlti (hdelta m _ v hu hv) hδ (hdp _ humem) (hinv _ humem)
      (by rw [(hinv v hvmem).2.1, hpix]) (by rw [hpix]; exact hp)
      (List.getElem?_eq_getElem hj0) hval, hfirst]
    congr 1
    have hnum : firstLineTime
        + (v.line : ℚ) * ((lastLineTime - firstLineTime) / ((numOfLines - 1 : Int) : ℚ))
        - (rl[m]).timeMJD = v.timeMJD - (rl[m]).timeMJD := by
      rw [htime v hvmem]
    rw [hnum, div_self hδ]
    ring

lemma specVector0_invariant : RangeVectorInvariant specVector0 := by
  simp [specVector0, RangeVectorInvariant]

lemma specVector0_deltaPixels : DeltaPixelsConsistent specVector0 := by
  intro k a b ha hb
  rcases k with _ | _ | k <;> simp_all [specVector0]
  subst_vars
  norm_num

lemma specLookup_ideal_lineTimeInterval :
    (specLookup .ideal).m_LineTimeInterval = some (1 / 100) := by
  simp [specLookup, InitParameters, computeLineTimeInterval, fdiv]

lemma specTable_premises : ExactnessPremises 0 1 101 specTable := by
  refine ⟨by decide, ?_, ?_, ?_, ?_, ?_⟩
  · simp [specTable, specVector0, specVector1, RangeVectorInvariant]
  · simp [specTable, specVector0, specVector1]
  · intro v hv k a b ha hb
    simp only [specTable, List.mem_cons, List.mem_singleton, List.not_mem_nil, or_false] at hv
    rcases hv with rfl | rfl <;> rcases k with _ | _ | k <;>
      simp_all [specVector0, specVector1] <;> (subst_vars; norm_num)
  · simp [specTable, specVector0, specVector1]
  · intro k a b ha hb
    rcases k with _ | _ | k <;> simp_all [specTable]
    obtain ⟨rfl, rfl⟩ := ha
    subst hb
    norm_num [specVector0, specVector1]

lemma specTable_grid : ∀ (k : Nat) (a b : Sentinel1CalibrationStruct),
    specTable[k]? = some a → specTable[k + 1]? = some b → a.pixels = b.pixels := by
  intro k a b ha hb
  rcases k with _ | _ | k <;> simp_all [specTable]
  obtain ⟨rfl, rfl⟩ := ha
  subst hb
  rfl

lemma specTable_times : specTable.Pairwise (fun a b => a.timeMJD < b.timeMJD) := by
  simp [specTable, specVector0, specVector1]

lemma mixedGridTable_premises : ExactnessPremises 0 1 101 mixedGridTable := by
  refine ⟨by decide, ?_, ?_, ?_, ?_, ?_⟩
  · simp [mixedGridTable, mixedVector0, mixedVector1, RangeVectorInvariant]
  · simp [mixedGridTable, mixedVector0, mixedVector1]
  · intro v hv k a b ha hb
    simp only [mixedGridTable, List.mem_cons, List.mem_singleton, List.not_mem_nil,
      or_false] at hv
    rcases hv with rfl | rfl <;> rcases k with _ | _ | k <;>
      simp_all [mixedVector0, mixedVector1] <;> (subst_vars; norm_num)
  · simp [mixedGridTable, mixedVector0, mixedVector1]
  · intro k a b ha hb
    rcases k with _ | _ | k <;> simp_all [mixedGridTable]
    obtain ⟨rfl, rfl⟩ := ha
    subst hb
    norm_num [mixedVector0, mixedVector1]

/-- Witness of C2 (amended): the spec's 2-entry table gives `GetValue(0,0) = 1`,
`GetValue(10,0) = 2`, `GetValue(0,100) = 3` and `GetValue(10,100) = 4`; on this table
the arithmetic of the code returns the same four values. -/
theorem interpolation_exactness_shared_grid_witness :
    (GetValue .ideal floatElements (specLookup .ideal) 0 0 = some 1
        ∧ GetValue .ideal floatElements (specLookup .ideal) 10 0 = some 2
        ∧ GetValue .ideal floatElements (specLookup .ideal) 0 100 = some 3
        ∧ GetValue .ideal floatElements (specLookup .ideal) 10 100 = some 4)
      ∧ (GetValue .machine floatElements (specLookup .machine) 0 0 = some 1
        ∧ GetValue .machine floatElements (specLookup .machine) 10 0 = some 2
        ∧ GetValue .machine floatElements (specLookup .machine) 0 100 = some 3
        ∧ GetValue .machine floatElements (specLookup .machine) 10 100 = some 4) :=
  ⟨⟨interpolation_exactness_shared_grid floatElements Sentinel1ThermalNoiseLookupData.fresh
      0 1 101 specTable 0 0 specVector0 0 1 specTable_premises specTable_times
      specTable_grid rfl rfl rfl,
    interpolation_exactness_shared_grid floatElements Sentinel1ThermalNoiseLookupData.fresh
      0 1 101 specTable 0 1 specVector0 10 2 specTable_premises specTable_times
      specTable_grid rfl rfl rfl,
    interpolation_exactness_shared_grid floatElements Sentinel1ThermalNoiseLookupData.fresh
      0 1 101 specTable 1 0 specVector1 0 3 specTable_premises specTable_times
      specTable_grid rfl rfl rfl,
    interpolation_exactness_shared_grid floatElements Sentinel1ThermalNoiseLookupData.fresh
      0 1 101 specTable 1 1 specVector1 10 4 specTable_premises specTable_times
      specTable_grid rfl rfl rfl⟩,
   ⟨by decide!, by decide!, by decide!, by decide!⟩⟩

/-- Counterexample to C2 as stated: `mixedGridTable` satisfies every premise of the
property (and is ordered by line and time), its vector 1 (line 100) has sample 1 at
pixel 20 with value 5, and yet `GetValue(20, 100)` is 7, in the exact arithmetic and
in the arithmetic of the code: the pixel bracket and `muX` are taken on the grid of
vector 0. -/
theorem interpolation_exactness_counterexample :
    ExactnessPremises 0 1 101 mixedGridTable
      ∧ RangeListOrdered mixedGridTable
      ∧ (∃ v, mixedGridTable[1]? = some v ∧ v.line = 100 ∧ v.pixels[1]? = some 20
          ∧ v.vect[1]? = some 5)
      ∧ GetValue .ideal floatElements (mixedGridLookup .ideal) 20 100 = some 7
      ∧ GetValue .ideal floatElements (mixedGridLookup .ideal) 20 100 ≠ some 5
      ∧ GetValue .machine floatElements (mixedGridLookup .machine) 20 100 = some 7
      ∧ GetValue .machine doubleElements (mixedGridLookup .machine) 20 100 = some 7 := by
  have hval : GetValue .ideal floatElements (mixedGridLookup .ideal) 20 100 = some 7 := by
    rw [GetValue_ideal_of_azimuthCount_zero _ _ _ _ rfl]
    have hlti : (mixedGridLookup .ideal).m_LineTimeInterval = some (1 / 100) := by
      simp [mixedGridLookup, InitParameters, computeLineTimeInterval, fdiv]
    rw [GetRangeNoise_eq_blend floatElements (mixedGridLookup .ideal) 20 100 0 0 mixedVector0
      mixedVector1 0 10 (1 / 100) 1 1 2 3 5 (by decide) rfl rfl hlti rfl (by norm_num)
      (mixedGridTable_premises.2.2.2.1 _ (by simp [mixedGridTable])) (by decide) rfl rfl
      (by decide) rfl rfl rfl rfl]
    simp [mixedGridLookup, InitParameters, mixedVector0, mixedVector1]
    norm_num
  refine ⟨mixedGridTable_premises, ?_, ⟨_, rfl, rfl, rfl, rfl⟩, hval, ?_, by decide!,
    by decide!⟩
  · simp [RangeListOrdered, mixedGridTable, mixedVector0, mixedVector1]
  · rw [hval]
    norm_num

/-! ## Midpoint of a stencil -/

/-- A multiple `z / 4` of a quarter with `|z| < 2 ^ 53` is a `double`. -/
lemma round_double_quarters {z : Int} (h1 : -9007199254740992 < z)
    (h2 : z < 9007199254740992) :
    FloatType.double.round ((z : ℚ) / 4) = some ((z : ℚ) / 4) := by
  have hm : |z| < 2 ^ FloatType.double.prec := by
    have e : (2 : Int) ^ FloatType.double.prec = 9007199254740992 := by decide
    rw [e, abs_lt]
    exact ⟨h1, h2⟩
  have e4 : (z : ℚ) * (2 : ℚ) ^ (-2 : Int) = (z : ℚ) / 4 := by
    rw [zpow_neg]
    norm_num
    ring
  have hn : FloatType.double.nearest ((z : ℚ) / 4) = (z : ℚ) / 4 := by
    have h := FloatType.double.nearest_dyadic z (-2) hm (by decide)
    rwa [e4] at h
  unfold FloatType.round
  rw [hn, if_pos]
  have hz : |(z : ℚ)| < 9007199254740992 := by
    rw [abs_lt]
    constructor
    · exact_mod_cast h1
    · exact_mod_cast h2
  calc |(z : ℚ) / 4| ≤ |(z : ℚ)| := by
        rw [abs_div]
        apply div_le_self (abs_nonneg _)
        norm_num
    _ < 9007199254740992 := hz
    _ = (2 : ℚ) ^ ((53 : Int)) := by norm_num
    _ ≤ (2 : ℚ) ^ (FloatType.double.emax + 1) :=
        zpow_le_zpow_right₀ (by norm_num) (by decide)

/-- The blend of the code at `muX = muY = 1/2` on four integer values of magnitude at
most `2 ^ 50` is computed without rounding error: it is their average. -/
lemma GetRangeNoise_lutVal_machine_half (z0 z1 z2 z3 : Int)
    (h0 : |z0| ≤ 1125899906842624) (h1 : |z1| ≤ 1125899906842624)
    (h2 : |z2| ≤ 1125899906842624) (h3 : |z3| ≤ 1125899906842624) :
    GetRangeNoise.lutVal .machine (1 / 2) (1 / 2) z0 z1 z2 z3
      = some (((z0 : ℚ) + z1 + z2 + z3) / 4) := by
  rw [abs_le] at h0 h1 h2 h3
  have q : ∀ (r : ℚ) (z : Int), r = (z : ℚ) / 4 → -9007199254740992 < z →
      z < 9007199254740992 → FloatType.double.round r = some ((z : ℚ) / 4) := by
    intro r z hr hz1 hz2
    rw [hr]
    exact round_double_quarters hz1 hz2
  have e0 : fsub .machine .double 1 (1 / 2) = some (1 / 2) := by
    have h := q (1 - 1 / 2) 2 (by norm_num) (by norm_num) (by norm_num)
    refine h.trans ?_
    norm_num
  have t0 : fmul .machine .double (1 / 2) z0 = some (((2 * z0 : Int) : ℚ) / 4) :=
    q _ _ (by push_cast; ring) (by omega) (by omega)
  have t1 : fmul .machine .double (1 / 2) z1 = some (((2 * z1 : Int) : ℚ) / 4) :=
    q _ _ (by push_cast; ring) (by omega) (by omega)
  have t2 : fmul .machine .double (1 / 2) z2 = some (((2 * z2 : Int) : ℚ) / 4) :=
    q _ _ (by push_cast; ring) (by omega) (by omega)
  have t3 : fmul .machine .double (1 / 2) z3 = some (((2 * z3 : Int) : ℚ) / 4) :=
    q _ _ (by push_cast; ring) (by omega) (by omega)
  have s0 : fadd .machine .double (((2 * z0 : Int) : ℚ) / 4) (((2 * z1 : Int) : ℚ) / 4)
      = some (((2 * z0 + 2 * z1 : Int) : ℚ) / 4) :=
    q _ _ (by push_cast; ring) (by omega) (by omega)
  have s1 : fadd .machine .double (((2 * z2 : Int) : ℚ) / 4) (((2 * z3 : Int) : ℚ) / 4)
      = some (((2 * z2 + 2 * z3 : Int) : ℚ) / 4) :=
    q _ _ (by push_cast; ring) (by omega) (by omega)
  have u0 : fmul .machine .double (1 / 2) (((2 * z0 + 2 * z1 : Int) : ℚ) / 4)
      = some (((z0 + z1 : Int) : ℚ) / 4) :=
    q _ _ (by push_cast; ring) (by omega) (by omega)
  have u1 : fmul .machine .double (1 / 2) (((2 * z2 + 2 * z3 : Int) : ℚ) / 4)
      = some (((z2 + z3 : Int) : ℚ) / 4) :=
    q _ _ (by push_cast; ring) (by omega) (by omega)
  have w : fadd .machine .double (((z0 + z1 : Int) : ℚ) / 4) (((z2 + z3 : Int) : ℚ) / 4)
      = some (((z0 + z1 + z2 + z3 : Int) : ℚ) / 4) :=
    q _ _ (by push_cast; ring) (by omega) (by omega)
  unfold GetRangeNoise.lutVal
  simp only [e0, t0, t1, t2, t3, s0, s1, u0, u1, w, Option.bind_eq_bind, Option.some_bind]
  push_cast
  rfl

/-- The fraction `muX` of the code half-way between two samples less than `2 ^ 24`
apart is exactly `1/2`. -/
lemma GetRangeNoise_muX_machine_half (E : ElementTypes) (x p q : Int) (j : Nat)
    (vec0 : Sentinel1CalibrationStruct)
    (hp : GetPixelIndex (Arithmetic.machine.toInt x) vec0.pixels = (j : Int))
    (hpj : vec0.pixels[j]? = some p)
    (hdp : vec0.deltaPixels[j + 1]? = some (((q - p : Int) : ℚ)))
    (hpq : p < q) (hsmall : q - p < 16777216) (hx : 2 * x = p + q) :
    GetRangeNoise.muX .machine E x vec0 = some (1 / 2) := by
  rw [GetRangeNoise_muX_of_bracket .machine E x j vec0 p _ hp hpj hdp,
    toIndexValueType_machine_of_isInt (by unfold IsInt; omega),
    ofInt_machine_small E.deltaPixels (by omega) (by omega)]
  have hd : ((q - p : Int) : ℚ) ≠ 0 := by
    intro h
    have : q - p = 0 := by exact_mod_cast h
    omega
  unfold fdiv
  rw [if_neg hd]
  have hhalf : ((x - p : Int) : ℚ) / ((q - p : Int) : ℚ) = 1 / 2 := by
    rw [div_eq_iff hd]
    have : (2 : ℚ) * x = p + q := by exact_mod_cast hx
    push_cast
    linarith
  rw [hhalf]
  exact round_half E.deltaPixels

/-- C3 (amended): in a lookup with an empty azimuth list (counts agreeing with the
lists, range list ordered by increasing line and time), let `vec0`, `vec1` be adjacent
range vectors, `vec0` with the vector invariant and with `deltaPixels` the consecutive
differences of `pixels`, and `[p, q]` adjacent samples of the grid of `vec0`, `vec1`
having values at the same two positions; let `x` be half-way between `p` and `q` and
`y` half-way between the two lines.
In the ideal arithmetic, when the times are consistent
(`timeMJD = firstLineTime + line * lineTimeInterval`, `deltaMJD` their difference),
`GetValue(x, y)` is the average of the four stencil values.
In the arithmetic of the code, for `x` and `y` of type `int`, `q - p < 2^24` and when the
fraction `muY` that the code computes is exactly `1/2`, `GetValue(x, y)` is the blend of
the code evaluated at `muX = muY = 1/2`, every operation rounded to `double`; it is the
average of the four stencil values when these are integers of magnitude at most
`2^50`. -/
theorem midpoint_bilinear (E : ElementTypes) (s : Sentinel1ThermalNoiseLookupData) (i j : Nat)
    (vec0 vec1 : Sentinel1CalibrationStruct) (x y p q : Int) (a0 a1 b0 b1 : ℚ)
    (hcount : s.m_RangeCount = (s.m_RangeNoiseVectorList.length : Int))
    (hazc : s.m_AzimuthCount = (s.m_AzimuthNoiseVectorList.length : Int))
    (haz : s.m_AzimuthNoiseVectorList = [])
    (hord : RangeListOrdered s.m_RangeNoiseVectorList)
    (hvec0 : s.m_RangeNoiseVectorList[i]? = some vec0)
    (hvec1 : s.m_RangeNoiseVectorList[i + 1]? = some vec1)
    (hinv0 : RangeVectorInvariant vec0)
    (hdp : DeltaPixelsConsistent vec0)
    (hp : vec0.pixels[j]? = some p) (hq : vec0.pixels[j + 1]? = some q)
    (hx : 2 * x = p + q) (hy : 2 * y = vec0.line + vec1.line)
    (ha0 : vec0.vect[j]? = some a0) (ha1 : vec0.vect[j + 1]? = some a1)
    (hb0 : vec1.vect[j]? = some b0) (hb1 : vec1.vect[j + 1]? = some b1) :
    (∀ lti : ℚ, s.m_LineTimeInterval = some lti →
        vec0.timeMJD = s.m_FirstLineTime + (vec0.line : ℚ) * lti →
        vec1.timeMJD = s.m_FirstLineTime + (vec1.line : ℚ) * lti →
        vec1.deltaMJD = some (vec1.timeMJD - vec0.timeMJD) →
        GetValue .ideal E s x y = some ((a0 + a1 + b0 + b1) / 4))
      ∧ (IsInt x → IsInt y → q - p < 16777216 →
          GetRangeNoise.muY .machine s.m_FirstLineTime s.m_LineTimeInterval y vec0 vec1
            = some (1 / 2) →
          GetValue .machine E s x y
              = GetRangeNoise.lutVal .machine (1 / 2) (1 / 2) a0 a1 b0 b1
            ∧ (∀ z0 z1 z2 z3 : Int, a0 = z0 → a1 = z1 → b0 = z2 → b1 = z3 →
                |z0| ≤ 1125899906842624 → |z1| ≤ 1125899906842624 →
                |z2| ≤ 1125899906842624 → |z3| ≤ 1125899906842624 →
                GetValue .machine E s x y = some ((a0 + a1 + b0 + b1) / 4))) := by
  have hazc0 : s.m_AzimuthCount = 0 := by rw [hazc, haz]; rfl
  obtain ⟨hl01, ht01⟩ := pairwise_getElem? hord (Nat.lt_succ_self i) hvec0 hvec1
  have hi1 : i + 1 < s.m_RangeNoiseVectorList.length := (List.getElem?_eq_some.mp hvec1).1
  have hpq : p < q := pairwise_getElem? hinv0.2.2.2 (Nat.lt_succ_self j) hp hq
  have hidx : GetRangeVectorIndex s y = some ((i : Nat) : Int) := by
    unfold GetRangeVectorIndex
    rw [hcount, range_scan_first_match _ y (i + 1) vec1 hvec1 (by omega) _ 1 (by omega)
      (by omega) (fun m w _ hm hw => by
        have hle : w.line ≤ vec0.line := by
          rcases Nat.lt_succ_iff_lt_or_eq.mp hm with h | h
          · exact le_of_lt (pairwise_getElem? hord h hw hvec0).1
          · subst h
            rw [hw] at hvec0
            cases hvec0
            exact le_refl _
        omega)]
    push_cast
    congr 1
    ring
  have hidxp : GetPixelIndex x vec0.pixels = (j : Int) :=
    GetPixelIndex_of_segment hinv0.2.2.2 hp hq (by omega) (by omega)
  constructor
  · intro lti hlti ht0 ht1 hdelta
    rw [GetValue_ideal_of_azimuthCount_zero E s _ _ hazc0]
    have hδ : vec1.timeMJD - vec0.timeMJD ≠ 0 := sub_ne_zero.mpr (ne_of_gt ht01)
    rw [GetRangeNoise_eq_blend E s x y i j vec0 vec1 p q lti _ a0 a1 b0 b1 hidx hvec0 hvec1
      hlti hdelta hδ hdp hidxp hp hq (by omega) ha0 ha1 hb0 hb1]
    have hxq : (2 : ℚ) * x = p + q := by exact_mod_cast hx
    have hyq : (2 : ℚ) * y = vec0.line + vec1.line := by exact_mod_cast hy
    have hqp : ((q : ℚ) - p) ≠ 0 := by
      intro h
      have : (q : ℚ) = p := by linarith
      have : q = p := by exact_mod_cast this
      omega
    have hmuX : ((x : ℚ) - p) / ((q : ℚ) - p) = 1 / 2 := by
      rw [div_eq_iff hqp]
      linarith
    have hmuY : (s.m_FirstLineTime + (y : ℚ) * lti - vec0.timeMJD)
        / (vec1.timeMJD - vec0.timeMJD) = 1 / 2 := by
      rw [div_eq_iff hδ, ht1, ht0]
      have : (y : ℚ) = (vec0.line + vec1.line) / 2 := by linarith
      rw [this]
      ring
    rw [hmuX, hmuY]
    congr 1
    ring
  · intro hxi hyi hsmall hmuY
    have hx1 := toInt_machine_of_isInt hxi
    have hy1 := toInt_machine_of_isInt hyi
    have hmain : GetValue .machine E s x y
        = GetRangeNoise.lutVal .machine (1 / 2) (1 / 2) a0 a1 b0 b1 := by
      rw [GetValue_machine_of_azimuthCount_zero E s _ _ hazc0,
        GetRangeNoise_of_bracket .machine E s x y i j vec0 vec1 a0 a1 b0 b1
          (by rw [hy1]; exact hidx) hvec0 hvec1 (by rw [hx1]; exact hidxp) ha0 ha1 hb0 hb1,
        hmuY,
        GetRangeNoise_muX_machine_half E x p q j vec0 (by rw [hx1]; exact hidxp) hp
          (hdp j p q hp hq) hpq hsmall hx]
      rfl
    refine ⟨hmain, ?_⟩
    intro z0 z1 z2 z3 e0 e1 e2 e3 h0 h1 h2 h3
    rw [hmain, e0, e1, e2, e3]
    exact GetRangeNoise_lutVal_machine_half z0 z1 z2 z3 h0 h1 h2 h3

lemma specTable_ordered : RangeListOrdered specTable := by
  simp [RangeListOrdered, specTable, specVector0, specVector1]

/-- Witness of C3: with the spec's 2-entry table `GetValue(5, 50) = 2.5`, in the ideal
arithmetic and in the arithmetic of the code. -/
theorem midpoint_bilinear_witness :
    GetValue .ideal floatElements (specLookup .ideal) 5 50 = some (5 / 2)
      ∧ GetValue .machine floatElements (specLookup .machine) 5 50 = some (5 / 2) := by
  constructor
  · have h := (midpoint_bilinear floatElements (specLookup .ideal) 0 0 specVector0 specVector1
      5 50 0 10 1 2 3 4 rfl rfl rfl specTable_ordered rfl rfl specVector0_invariant
      specVector0_deltaPixels rfl rfl (by decide) (by decide) rfl rfl rfl rfl).1 (1 / 100)
      specLookup_ideal_lineTimeInterval
      (by simp [specLookup, InitParameters, specVector0])
      (by simp [specLookup, InitParameters, specVector1])
      (by simp [specVector0, specVector1])
    rw [h]
    norm_num
  · have h := ((midpoint_bilinear floatElements (specLookup .machine) 0 0 specVector0
      specVector1 5 50 0 10 1 2 3 4 rfl rfl rfl specTable_ordered rfl rfl
      specVector0_invariant specVector0_deltaPixels rfl rfl (by decide) (by decide)
      rfl rfl rfl rfl).2 (by decide) (by decide) (by decide) (by decide!)).2 1 2 3 4
      (by norm_num) (by norm_num) (by norm_num) (by norm_num)
      (by decide) (by decide) (by decide) (by decide)
    rw [h]
    norm_num

/-- Counterexample to C3 as stated: the table with lines 0 and 100, times 0 and 100
(`firstLineTime = 0`, `lastLineTime = 100`, 101 lines, so that the line time interval
is exactly 1), pixel grid `[0, 10]` and values `[2^30, 2^-24]`, `[3, 4]` satisfies every
premise of the property, also in floating point, and at the midpoint `(5, 50)` the code
returns `1073741831 / 4`, which is not the average of the four stencil values,
whether the vectors hold `float` or `double`. -/
theorem midpoint_not_average :
    (dayLookup .machine [1073741824, 1 / 16777216] [3, 4]).m_LineTimeInterval = some 1
      ∧ RangeListOrdered (dayTable [1073741824, 1 / 16777216] [3, 4])
      ∧ (∀ v ∈ dayTable [1073741824, 1 / 16777216] [3, 4],
          RangeVectorInvariant v ∧ DeltaPixelsConsistent v ∧ v.pixels = [0, 10]
            ∧ v.timeMJD = 0 + (v.line : ℚ) * 1)
      ∧ (∃ v0 v1, dayTable [1073741824, 1 / 16777216] [3, 4] = [v0, v1]
          ∧ v1.deltaMJD = some (v1.timeMJD - v0.timeMJD)
          ∧ 2 * (5 : Int) = 0 + 10 ∧ 2 * (50 : Int) = v0.line + v1.line
          ∧ v0.vect = [1073741824, 1 / 16777216] ∧ v1.vect = [3, 4])
      ∧ GetValue .machine floatElements
          (dayLookup .machine [1073741824, 1 / 16777216] [3, 4]) 5 50
          = some (1073741831 / 4)
      ∧ GetValue .machine doubleElements
          (dayLookup .machine [1073741824, 1 / 16777216] [3, 4]) 5 50
          = some (1073741831 / 4)
      ∧ (1073741831 / 4 : ℚ) ≠ (1073741824 + 1 / 16777216 + 3 + 4) / 4 := by
  refine ⟨by decide!, ?_, ?_, ⟨_, _, rfl, ?_, by decide, by decide, rfl, rfl⟩, by decide!,
    by decide!, by norm_num⟩
  · simp [RangeListOrdered, dayTable]
  · intro v hv
    simp only [dayTable, List.mem_cons, List.mem_singleton, List.not_mem_nil, or_false] at hv
    rcases hv with rfl | rfl
    · refine ⟨by simp [RangeVectorInvariant], ?_, rfl, by simp⟩
      intro k a b ha hb
      rcases k with _ | _ | k <;> simp_all
      subst_vars
      norm_num
    · refine ⟨by simp [RangeVectorInvariant], ?_, rfl, by simp⟩
      intro k a b ha hb
      rcases k with _ | _ | k <;> simp_all
      subst_vars
      norm_num
  · norm_num

/-! ## Extrapolation beyond the last pixel -/

/-- C6 (amended): let `vec0`, `vec1` be the bracketing vectors selected for `y`, with
equal sample counts, `vec0` satisfying the vector invariant and `deltaPixels` the
consecutive differences of `pixels`; let `pn` be the last pixel of `vec0` and `pn1` the
one before, and `x ≥ pn`.
In the ideal arithmetic `GetRangeNoise(x, y)` lies on the line through
`GetRangeNoise(pn, y)` and `GetRangeNoise(pn1, y)`, and all three values are defined
when `lineTimeInterval` is finite and `vec1.deltaMJD` is finite and not zero.
In every arithmetic that keeps `x` and `y` as `int` (in the arithmetic of the code:
for `x` and `y` of type `int`), `GetRangeNoise(x, y)` uses the last segment without
clamping: the pixel index is that of the last segment, the fraction is
`(x - pn1) / deltaPixels[last]`, and the value is the blend of the code of the last two
entries of both vectors at that fraction. In the arithmetic of the code, for `x` and
`pn1` of type `int` and `pn - pn1 < 2^24`, the fraction that is computed is at least 1. -/
theorem range_extrapolation (E : ElementTypes) (s : Sentinel1ThermalNoiseLookupData)
    (x y : Int) (k n : Nat)
    (vec0 vec1 : Sentinel1CalibrationStruct) (pn pn1 : Int)
    (hidx : GetRangeVectorIndex s y = some (k : Int))
    (hvec0 : s.m_RangeNoiseVectorList[k]? = some vec0)
    (hvec1 : s.m_RangeNoiseVectorList[k + 1]? = some vec1)
    (hinv0 : RangeVectorInvariant vec0)
    (hsame : vec1.vect.length = vec0.vect.length)
    (hdp : DeltaPixelsConsistent vec0)
    (hn : vec0.pixels.length = n + 2)
    (hpn : vec0.pixels[n + 1]? = some pn) (hpn1 : vec0.pixels[n]? = some pn1)
    (hx : pn ≤ x) :
    (GetRangeNoise .ideal E s x y
          = lastSegmentLine .ideal (GetRangeNoise .ideal E s pn y)
              (GetRangeNoise .ideal E s pn1 y) pn pn1 x
        ∧ (∀ lti d, s.m_LineTimeInterval = some lti → vec1.deltaMJD = some d → d ≠ 0 →
            ∃ r rn rn1, GetRangeNoise .ideal E s x y = some r
              ∧ GetRangeNoise .ideal E s pn y = some rn
              ∧ GetRangeNoise .ideal E s pn1 y = some rn1
              ∧ r = rn + ((x : ℚ) - pn) * (rn - rn1) / ((pn : ℚ) - pn1)))
      ∧ (∀ (A : Arithmetic), A.toInt x = x → A.toInt y = y →
          ∀ a0 a1 b0 b1 : ℚ, vec0.vect[n]? = some a0 → vec0.vect[n + 1]? = some a1 →
            vec1.vect[n]? = some b0 → vec1.vect[n + 1]? = some b1 →
            GetPixelIndex (A.toInt x) vec0.pixels = (n : Int)
              ∧ GetRangeNoise A E s x y
                = (GetRangeNoise.muY A s.m_FirstLineTime s.m_LineTimeInterval y vec0 vec1).bind
                    (fun muY =>
                      (fdiv A E.deltaPixels
                          (A.ofInt E.deltaPixels (A.toIndexValueType (x - pn1)))
                          ((pn - pn1 : Int) : ℚ)).bind
                        (fun muX => GetRangeNoise.lutVal A muX muY a0 a1 b0 b1)))
      ∧ (IsInt x → IsInt pn1 → pn - pn1 < 16777216 →
          ∃ muX : ℚ, GetRangeNoise.muX .machine E x vec0 = some muX ∧ 1 ≤ muX) := by
  obtain ⟨hld, hlv, _, hsorted⟩ := hinv0
  have hlt : pn1 < pn := pairwise_getElem? hsorted (Nat.lt_succ_self n) hpn1 hpn
  have hall : ∀ e ∈ vec0.pixels, e ≤ pn := le_last_of_pairwise hsorted hn hpn
  have hix : GetPixelIndex x vec0.pixels = (n : Int) := by
    rw [GetPixelIndex_of_all_le (fun e he => le_trans (hall e he) hx), hn]
    push_cast
    ring
  have hipn : GetPixelIndex pn vec0.pixels = (n : Int) := by
    rw [GetPixelIndex_of_all_le hall, hn]
    push_cast
    ring
  have hipn1 : GetPixelIndex pn1 vec0.pixels = (n : Int) :=
    GetPixelIndex_of_segment hsorted hpn1 hpn (le_refl _) hlt
  have h0a : n < vec0.vect.length := by omega
  have h0b : n + 1 < vec0.vect.length := by omega
  have h1a : n < vec1.vect.length := by omega
  have h1b : n + 1 < vec1.vect.length := by omega
  have hd := hdp n pn1 pn hpn1 hpn
  have hdq : (((pn - pn1 : Int) : ℚ)) ≠ 0 := by
    intro h
    have : pn - pn1 = 0 := by exact_mod_cast h
    omega
  have hdq2 : ((pn : ℚ) - pn1) ≠ 0 := by
    have := hdq
    push_cast at this
    exact this
  have key : ∀ x1 : Int, GetPixelIndex x1 vec0.pixels = (n : Int) →
      GetRangeNoise .ideal E s x1 y
        = (GetRangeNoise.muY .ideal s.m_FirstLineTime s.m_LineTimeInterval y vec0 vec1).bind
            (fun muY => some (bilinear (((x1 - pn1 : Int) : ℚ) / ((pn - pn1 : Int) : ℚ)) muY
              vec0.vect[n] vec0.vect[n + 1] vec1.vect[n] vec1.vect[n + 1])) := by
    intro x1 hx1
    rw [GetRangeNoise_of_bracket .ideal E s x1 y k n vec0 vec1 _ _ _ _ hidx hvec0 hvec1 hx1
      (List.getElem?_eq_getElem h0a) (List.getElem?_eq_getElem h0b)
      (List.getElem?_eq_getElem h1a) (List.getElem?_eq_getElem h1b),
      GetRangeNoise_muX_of_bracket .ideal E x1 n vec0 pn1 _ hx1 hpn1 hd]
    simp only [ofInt_ideal, toIndexValueType_ideal, fdiv_ideal_of_ne _ hdq, Option.some_bind,
      GetRangeNoise_lutVal_ideal]
  refine ⟨⟨?_, ?_⟩, ?_, ?_⟩
  · rw [key x hix, key pn hipn, key pn1 hipn1]
    unfold lastSegmentLine
    cases GetRangeNoise.muY .ideal s.m_FirstLineTime s.m_LineTimeInterval y vec0 vec1 with
    | none => rfl
    | some muY =>
      simp only [Option.some_bind, Option.bind_eq_bind, fsub_ideal, fmul_ideal, fadd_ideal,
        ofInt_ideal, toInt_ideal, toIndexValueType_ideal, fdiv_ideal_of_ne _ hdq,
        Option.some.injEq, bilinear]
      push_cast
      field_simp
      ring
  · intro lti d hlti hdm hδ
    rw [key x hix, key pn hipn, key pn1 hipn1, hlti,
      GetRangeNoise_muY_ideal _ _ _ _ _ d hdm hδ]
    simp only [Option.some_bind, Option.some.injEq]
    refine ⟨_, _, _, rfl, rfl, rfl, ?_⟩
    simp only [bilinear]
    push_cast
    field_simp
    ring
  · intro A hxA hyA a0 a1 b0 b1 ha0 ha1 hb0 hb1
    have hixA : GetPixelIndex (A.toInt x) vec0.pixels = (n : Int) := by rw [hxA]; exact hix
    refine ⟨hixA, ?_⟩
    rw [GetRangeNoise_of_bracket A E s x y k n vec0 vec1 a0 a1 b0 b1 (by rw [hyA]; exact hidx)
      hvec0 hvec1 hixA ha0 ha1 hb0 hb1,
      GetRangeNoise_muX_of_bracket A E x n vec0 pn1 _ hixA hpn1 hd]
  · intro hxi hp1i hsmall
    have hx1 := toInt_machine_of_isInt hxi
    unfold IsInt at hxi hp1i
    have hixm : GetPixelIndex (Arithmetic.machine.toInt x) vec0.pixels = (n : Int) := by
      rw [hx1]
      exact hix
    have hdpos : (0 : ℚ) < ((pn - pn1 : Int) : ℚ) := by
      have : (0 : Int) < pn - pn1 := by omega
      exact_mod_cast this
    have hdone : (1 : ℚ) ≤ ((pn - pn1 : Int) : ℚ) := by
      have : (1 : Int) ≤ pn - pn1 := by omega
      exact_mod_cast this
    have e64 : Arithmetic.machine.toIndexValueType (x - pn1) = x - pn1 :=
      toInt64_of_small (by omega) (by omega)
    -- the numerator, converted to the element type, lies between the divisor and `2^32`
    have hnum_lo : ((pn - pn1 : Int) : ℚ)
        ≤ Arithmetic.machine.ofInt E.deltaPixels (Arithmetic.machine.toIndexValueType (x - pn1)) := by
      rw [e64, ← ofInt_machine_small E.deltaPixels (z := pn - pn1) (by omega) (by omega)]
      exact E.deltaPixels.nearest_mono (by exact_mod_cast (by omega : pn - pn1 ≤ x - pn1))
    have hbig : E.deltaPixels.nearest (((4294967296 : Int) : ℚ)) = 4294967296 := by
      have h := E.deltaPixels.nearest_dyadic 1 32
        (by
          have := E.deltaPixels.prec_pos
          have h2 : (2 : Int) ^ 1 ≤ 2 ^ E.deltaPixels.prec :=
            pow_le_pow_right₀ (by norm_num) this
          rw [abs_of_pos (by norm_num : (0 : Int) < 1)]
          omega)
        (by
          have := E.deltaPixels.subnormal_exponent_neg
          omega)
      have e : ((1 : Int) : ℚ) * (2 : ℚ) ^ (32 : Int) = ((4294967296 : Int) : ℚ) := by norm_num
      rw [e] at h
      rw [h]
      norm_num
    have hnum_hi : Arithmetic.machine.ofInt E.deltaPixels
        (Arithmetic.machine.toIndexValueType (x - pn1)) ≤ 4294967296 := by
      rw [e64, ← hbig]
      exact E.deltaPixels.nearest_mono (by exact_mod_cast (by omega : x - pn1 ≤ 4294967296))
    have hr1 : E.deltaPixels.round 1 = some 1 := round_one _
    have hrbig : E.deltaPixels.round 4294967296 = some 4294967296 := by
      cases E.deltaPixels <;> decide!
    obtain ⟨muX, hmuX, hlo, _⟩ := FloatType.round_between hr1 hrbig
      ((one_le_div hdpos).mpr hnum_lo)
      (le_trans (div_le_self (le_trans (le_of_lt hdpos) hnum_lo) hdone) hnum_hi)
    refine ⟨muX, ?_, hlo⟩
    rw [GetRangeNoise_muX_of_bracket .machine E x n vec0 pn1 _ hixm hpn1 hd]
    unfold fdiv
    rw [if_neg (ne_of_gt hdpos)]
    exact hmuX

/-- Witness of C6: on the spec's table, whose last pixel is 10, the value at
`(20, 50)` continues the last segment through the values at `(10, 50)` and `(0, 50)`,
and all three values are defined, in the ideal arithmetic; in the arithmetic of the
code the bracket at `x = 20` is the last segment, the fraction is 2 and the value is
4. -/
theorem range_extrapolation_witness :
    (GetRangeNoise .ideal floatElements (specLookup .ideal) 20 50
        = lastSegmentLine .ideal (GetRangeNoise .ideal floatElements (specLookup .ideal) 10 50)
            (GetRangeNoise .ideal floatElements (specLookup .ideal) 0 50) 10 0 20
      ∧ ∃ r rn rn1, GetRangeNoise .ideal floatElements (specLookup .ideal) 20 50 = some r
          ∧ GetRangeNoise .ideal floatElements (specLookup .ideal) 10 50 = some rn
          ∧ GetRangeNoise .ideal floatElements (specLookup .ideal) 0 50 = some rn1
          ∧ r = rn + (((20 : Int) : ℚ) - ((10 : Int) : ℚ)) * (rn - rn1)
              / (((10 : Int) : ℚ) - ((0 : Int) : ℚ)))
      ∧ GetPixelIndex (Arithmetic.machine.toInt 20) specVector0.pixels = 0
      ∧ fdiv .machine .float
          (Arithmetic.machine.ofInt .float (Arithmetic.machine.toIndexValueType (20 - 0))) 10
          = some 2
      ∧ GetRangeNoise .machine floatElements (specLookup .machine) 20 50 = some 4
      ∧ (∃ muX : ℚ, GetRangeNoise.muX .machine floatElements 20 specVector0 = some muX
          ∧ 1 ≤ muX) := by
  have h := (range_extrapolation floatElements (specLookup .ideal) 20 50 0 0 specVector0
    specVector1 10 0 (by decide) rfl rfl specVector0_invariant rfl specVector0_deltaPixels
    rfl rfl rfl (by decide)).1
  have hm := (range_extrapolation floatElements (specLookup .machine) 20 50 0 0 specVector0
    specVector1 10 0 (by decide) rfl rfl specVector0_invariant rfl specVector0_deltaPixels
    rfl rfl rfl (by decide)).2.1 .machine (by decide) (by decide) 1 2 3 4 rfl rfl rfl rfl
  have hx := (range_extrapolation floatElements (specLookup .machine) 20 50 0 0 specVector0
    specVector1 10 0 (by decide) rfl rfl specVector0_invariant rfl specVector0_deltaPixels
    rfl rfl rfl (by decide)).2.2 (by decide) (by decide) (by decide)
  refine ⟨⟨h.1, h.2 (1 / 100) 1 specLookup_ideal_lineTimeInterval rfl (by norm_num)⟩, hm.1,
    by decide!, ?_, hx⟩
  rw [hm.2]
  decide!

/-- Counterexample to C6 as stated: on the spec's table (last pixel 10, the one before
0) the code returns at `(11, 2)`, `(10, 2)` and `(0, 2)` values `r`, `rn`, `rn1` for which
`r` is not `rn + (11 - 10) * (rn - rn1) / (10 - 0)`, whether the right-hand side is
evaluated exactly or in `double`, and whether `deltaPixels` holds `float` or `double`.
At `x = 4294967295`, which is not an `int`, the pixel index is taken for `(int)x = -1`
and no value is defined. -/
theorem range_extrapolation_not_on_line :
    GetRangeVectorIndex (specLookup .machine) 2 = some 0
      ∧ RangeVectorInvariant specVector0 ∧ DeltaPixelsConsistent specVector0
      ∧ specVector1.vect.length = specVector0.vect.length
      ∧ specVector0.pixels = [0, 10]
      ∧ GetRangeNoise .machine floatElements (specLookup .machine) 11 2
          = some (2409425827486761 / 1125899906842624)
      ∧ GetRangeNoise .machine doubleElements (specLookup .machine) 11 2
          = some (2409425800643215 / 1125899906842624)
      ∧ (∀ E, E = floatElements ∨ E = doubleElements →
          GetRangeNoise .machine E (specLookup .machine) 10 2
              = some (2296835809958953 / 1125899906842624)
            ∧ GetRangeNoise .machine E (specLookup .machine) 0 2
              = some (1170935903116329 / 1125899906842624)
            ∧ GetRangeNoise .machine E (specLookup .machine) 11 2
              ≠ lastSegmentLine .ideal (GetRangeNoise .machine E (specLookup .machine) 10 2)
                  (GetRangeNoise .machine E (specLookup .machine) 0 2) 10 0 11
            ∧ GetRangeNoise .machine E (specLookup .machine) 11 2
              ≠ lastSegmentLine .machine (GetRangeNoise .machine E (specLookup .machine) 10 2)
                  (GetRangeNoise .machine E (specLookup .machine) 0 2) 10 0 11
            ∧ GetRangeNoise .machine E (specLookup .machine) 4294967295 2 = none) := by
  refine ⟨by decide, specVector0_invariant, specVector0_deltaPixels, rfl, rfl, by decide!,
    by decide!, ?_⟩
  intro E hE
  rcases hE with rfl | rfl <;> decide!

/-! ## Ingestion: what a successful `SetImageKeywordlist` has done -/

lemma except_ok_or_error {ε α : Type} (r : Except ε α) :
    (∃ a, r = .ok a) ∨ (∃ e, r = .error e) := by
  cases r with
  | ok a => exact Or.inl ⟨a, rfl⟩
  | error e => exact Or.inr ⟨e, rfl⟩

/-- Everything a successful ingestion has read and stored. -/
lemma SetImageKeywordlist_ok_inv {A : Arithmetic} {E : ElementTypes} {c : Conversions}
    {s s1 : Sentinel1ThermalNoiseLookupData}
    {kwl : ImageKeywordlist} (h : SetImageKeywordlist A E c s kwl = .ok s1) :
    ∃ (first last : ℚ) (n rc : Int) (rl : List Sentinel1CalibrationStruct),
      readKey kwl "calibration.startTime" c.toModifiedJulianDate = .ok first
        ∧ readKey kwl "calibration.stopTime" c.toModifiedJulianDate = .ok last
        ∧ readKey kwl "number_lines" c.stoi = .ok n
        ∧ readKey kwl "noise.rangeCount" c.stoi = .ok rc
        ∧ SetImageKeywordlist.rangeLoop A E c kwl rc.toNat 0 0 [] = .ok rl
        ∧ s1.m_FirstLineTime = first ∧ s1.m_LastLineTime = last ∧ s1.m_NumOfLines = n
        ∧ s1.m_LineTimeInterval = computeLineTimeInterval A first last n
        ∧ s1.m_RangeCount = rc ∧ s1.m_RangeNoiseVectorList = rl
        ∧ ((kwl.HasKey "noise.azimuthCount" = true
              ∧ ∃ ac, readKey kwl "noise.azimuthCount" c.stoi = .ok ac
                ∧ SetImageKeywordlist.azimuthLoop c kwl ac.toNat 0 s.m_AzimuthNoiseVectorList
                    = .ok s1.m_AzimuthNoiseVectorList
                ∧ s1.m_AzimuthCount = ac)
            ∨ (kwl.HasKey "noise.azimuthCount" = false
              ∧ s1.m_AzimuthCount = s.m_AzimuthCount
              ∧ s1.m_AzimuthNoiseVectorList = s.m_AzimuthNoiseVectorList)) := by
  unfold SetImageKeywordlist at h
  rcases except_ok_or_error (readKey kwl "calibration.startTime" c.toModifiedJulianDate)
    with ⟨first, h1⟩ | ⟨e, h1⟩
  swap
  · simp [h1, bind, Except.bind] at h
  rcases except_ok_or_error (readKey kwl "calibration.stopTime" c.toModifiedJulianDate)
    with ⟨last, h2⟩ | ⟨e, h2⟩
  swap
  · simp [h1, h2, bind, Except.bind] at h
  rcases except_ok_or_error (readKey kwl "number_lines" c.stoi) with ⟨n, h3⟩ | ⟨e, h3⟩
  swap
  · simp [h1, h2, h3, bind, Except.bind] at h
  rcases except_ok_or_error (readKey kwl "noise.rangeCount" c.stoi) with ⟨rc, h4⟩ | ⟨e, h4⟩
  swap
  · simp [h1, h2, h3, h4, bind, Except.bind] at h
  rcases except_ok_or_error (SetImageKeywordlist.rangeLoop A E c kwl rc.toNat 0 0 [])
    with ⟨rl, h5⟩ | ⟨e, h5⟩
  swap
  · simp [h1, h2, h3, h4, h5, bind, Except.bind] at h
  refine ⟨first, last, n, rc, rl, h1, h2, h3, h4, h5, ?_⟩
  cases hk : kwl.HasKey "noise.azimuthCount" with
  | false =>
    simp [h1, h2, h3, h4, h5, hk, bind, Except.bind, pure, Except.pure] at h
    subst h
    simp
  | true =>
    rcases except_ok_or_error (readKey kwl "noise.azimuthCount" c.stoi) with ⟨ac, h6⟩ | ⟨e, h6⟩
    swap
    · simp [h1, h2, h3, h4, h5, hk, h6, bind, Except.bind] at h
    rcases except_ok_or_error
      (SetImageKeywordlist.azimuthLoop c kwl ac.toNat 0 s.m_AzimuthNoiseVectorList)
      with ⟨al, h7⟩ | ⟨e, h7⟩
    swap
    · simp [h1, h2, h3, h4, h5, hk, h6, h7, bind, Except.bind] at h
    simp [h1, h2, h3, h4, h5, hk, h6, h7, bind, Except.bind, pure, Except.pure] at h
    subst h
    simp [h6, h7]

/-! ## The pixel-difference loop -/

lemma deltaPixelsLoop_append (A : Arithmetic) (T : FloatType) (prev : Int) (pixels : List Int)
    (acc : List ℚ) :
    SetImageKeywordlist.deltaPixelsLoop A T prev pixels acc
      = acc ++ SetImageKeywordlist.deltaPixelsLoop A T prev pixels [] := by
  induction pixels generalizing prev acc with
  | nil => simp [SetImageKeywordlist.deltaPixelsLoop]
  | cons p rest ih =>
    rw [SetImageKeywordlist.deltaPixelsLoop, ih,
      SetImageKeywordlist.deltaPixelsLoop, ih p ([] ++ _)]
    simp

lemma deltaPixelsLoop_cons (A : Arithmetic) (T : FloatType) (prev p : Int) (rest : List Int) :
    SetImageKeywordlist.deltaPixelsLoop A T prev (p :: rest) []
      = A.ofInt T (A.toInt (p - prev)) :: SetImageKeywordlist.deltaPixelsLoop A T p rest [] := by
  rw [SetImageKeywordlist.deltaPixelsLoop, deltaPixelsLoop_append]
  simp

lemma deltaPixelsLoop_length (A : Arithmetic) (T : FloatType) (prev : Int) (pixels : List Int) :
    (SetImageKeywordlist.deltaPixelsLoop A T prev pixels []).length = pixels.length := by
  induction pixels generalizing prev with
  | nil => simp [SetImageKeywordlist.deltaPixelsLoop]
  | cons p rest ih => simp [deltaPixelsLoop_cons, ih]

lemma deltaPixelsLoop_succ (A : Arithmetic) (T : FloatType) (prev : Int) (pixels : List Int)
    (k : Nat) (a b : Int)
    (ha : pixels[k]? = some a) (hb : pixels[k + 1]? = some b) :
    (SetImageKeywordlist.deltaPixelsLoop A T prev pixels [])[k + 1]?
      = some (A.ofInt T (A.toInt (b - a))) := by
  induction pixels generalizing prev k with
  | nil => simp at ha
  | cons p rest ih =>
    rw [deltaPixelsLoop_cons]
    cases k with
    | zero =>
      simp only [List.getElem?_cons_zero, Option.some.injEq] at ha
      subst ha
      cases rest with
      | nil => simp at hb
      | cons q rest2 =>
        simp only [zero_add, List.getElem?_cons_succ, List.getElem?_cons_zero,
          Option.some.injEq] at hb
        subst hb
        simp [deltaPixelsLoop_cons]
    | succ k =>
      simp only [List.getElem?_cons_succ] at ha hb ⊢
      exact ih p k ha hb

lemma deltaPixelsLoop_running_sum (T : FloatType) (prev : Int) (pixels : List Int) (k : Nat)
    (pk : Int) (hk : pixels[k]? = some pk) :
    ((SetImageKeywordlist.deltaPixelsLoop .ideal T prev pixels []).take (k + 1)).sum
      = (pk : ℚ) - (prev : ℚ) := by
  induction pixels generalizing prev k with
  | nil => simp at hk
  | cons p rest ih =>
    rw [deltaPixelsLoop_cons]
    cases k with
    | zero =>
      simp only [List.getElem?_cons_zero, Option.some.injEq] at hk
      subst hk
      simp
    | succ k =>
      simp only [List.getElem?_cons_succ] at hk
      rw [List.take_succ_cons, List.sum_cons, ih p k hk]
      simp only [ofInt_ideal, toInt_ideal]
      push_cast
      ring

/-- On pixels in `[0, 2^24)` the differences taken by the code are exact: no `int`
overflows and every difference is a value of the element type. -/
lemma deltaPixelsLoop_machine_eq_ideal (T : FloatType) (prev : Int) (pixels : List Int)
    (hprev : 0 ≤ prev ∧ prev < 16777216)
    (h : ∀ e ∈ pixels, 0 ≤ e ∧ e < 16777216) :
    SetImageKeywordlist.deltaPixelsLoop .machine T prev pixels []
      = SetImageKeywordlist.deltaPixelsLoop .ideal T prev pixels [] := by
  induction pixels generalizing prev with
  | nil => rfl
  | cons p rest ih =>
    have hp := h p (List.mem_cons_self _ _)
    rw [deltaPixelsLoop_cons, deltaPixelsLoop_cons,
      ih p hp (fun e he => h e (List.mem_cons_of_mem _ he)),
      toInt_machine_of_isInt (by unfold IsInt; omega),
      ofInt_machine_small T (by omega) (by omega)]
    rfl

/-! ## The two ingestion loops -/

lemma readKey_ok_of_bind {α β : Type} {r : Except IngestionError α}
    {f : α → Except IngestionError β} {b : β} (h : r >>= f = .ok b) :
    ∃ a, r = .ok a ∧ f a = .ok b := by
  cases r with
  | error e => simp [bind, Except.bind] at h
  | ok a => exact ⟨a, rfl, h⟩

/-- What a successful range-loop body has read for entry `i`. -/
lemma rangeEntry_ok_inv {A : Arithmetic} {E : ElementTypes} {c : Conversions}
    {kwl : ImageKeywordlist} {i : Nat} {lastMJD : ℚ}
    {v : Sentinel1CalibrationStruct}
    (h : SetImageKeywordlist.rangeEntry A E c kwl i lastMJD = .ok v) :
    readKey kwl ("noise.noiseVector[" ++ toString i ++ "]." ++ "azimuthTime")
        c.toModifiedJulianDate = .ok v.timeMJD
      ∧ v.deltaMJD = fsub A .double v.timeMJD lastMJD
      ∧ readKey kwl ("noise.noiseVector[" ++ toString i ++ "]." ++ "line") c.stoi = .ok v.line
      ∧ readKey kwl ("noise.noiseVector[" ++ toString i ++ "]." ++ "pixel")
          c.ConvertStringToVectorInt = .ok v.pixels
      ∧ readKey kwl ("noise.noiseVector[" ++ toString i ++ "]." ++ "noiseLut")
          c.ConvertStringToVectorFloat = .ok v.vect
      ∧ v.deltaPixels = SetImageKeywordlist.deltaPixelsLoop A E.deltaPixels 0 v.pixels [] := by
  unfold SetImageKeywordlist.rangeEntry at h
  obtain ⟨t, h1, h⟩ := readKey_ok_of_bind h
  obtain ⟨ln, h2, h⟩ := readKey_ok_of_bind h
  obtain ⟨px, h3, h⟩ := readKey_ok_of_bind h
  obtain ⟨vt, h4, h⟩ := readKey_ok_of_bind h
  simp only [pure, Except.pure, Except.ok.injEq] at h
  subst h
  exact ⟨h1, rfl, h2, h3, h4, rfl⟩

/-- What a successful azimuth-loop body has read for entry `i`. -/
lemma azimuthEntry_ok_inv {c : Conversions} {kwl : ImageKeywordlist} {i : Nat}
    {v : Sentinel1AzimuthNoiseStruct}
    (h : SetImageKeywordlist.azimuthEntry c kwl i = .ok v) :
    readKey kwl ("noise.noiseAzimuthVector[" ++ toString i ++ "]." ++ "line")
        c.ConvertStringToVectorInt = .ok v.lines
      ∧ readKey kwl ("noise.noiseAzimuthVector[" ++ toString i ++ "]." ++ "noiseAzimuthLut")
          c.ConvertStringToVectorFloat = .ok v.vect := by
  unfold SetImageKeywordlist.azimuthEntry at h
  obtain ⟨a1, _, h⟩ := readKey_ok_of_bind h
  obtain ⟨a2, _, h⟩ := readKey_ok_of_bind h
  obtain ⟨a3, _, h⟩ := readKey_ok_of_bind h
  obtain ⟨a4, _, h⟩ := readKey_ok_of_bind h
  obtain ⟨ls, h5, h⟩ := readKey_ok_of_bind h
  obtain ⟨vt, h6, h⟩ := readKey_ok_of_bind h
  simp only [pure, Except.pure, Except.ok.injEq] at h
  subst h
  exact ⟨h5, h6⟩

/-- A successful range loop appends one entry per iteration, entry `m` of the new part
being read by the loop body for index `i + m`. -/
lemma rangeLoop_ok_inv (A : Arithmetic) (E : ElementTypes) (c : Conversions)
    (kwl : ImageKeywordlist) :
    ∀ (trips i : Nat) (lastMJD : ℚ) (acc l : List Sentinel1CalibrationStruct),
      SetImageKeywordlist.rangeLoop A E c kwl trips i lastMJD acc = .ok l →
      ∃ new : List Sentinel1CalibrationStruct, l = acc ++ new ∧ new.length = trips
        ∧ ∀ m, m < trips → ∃ v last, new[m]? = some v
            ∧ SetImageKeywordlist.rangeEntry A E c kwl (i + m) last = .ok v
  | 0, i, lastMJD, acc, l, h => by
    simp only [SetImageKeywordlist.rangeLoop, Except.ok.injEq] at h
    exact ⟨[], by simp [h], rfl, fun m hm => absurd hm (Nat.not_lt_zero m)⟩
  | trips + 1, i, lastMJD, acc, l, h => by
    rw [SetImageKeywordlist.rangeLoop] at h
    rcases except_ok_or_error (SetImageKeywordlist.rangeEntry A E c kwl i lastMJD)
      with ⟨v0, h0⟩ | ⟨e, h0⟩
    swap
    · simp [h0] at h
    simp only [h0] at h
    obtain ⟨new, hl, hlen, hnew⟩ := rangeLoop_ok_inv A E c kwl trips (i + 1) _ _ l h
    refine ⟨v0 :: new, by simp [hl], by simp [hlen], ?_⟩
    intro m hm
    cases m with
    | zero => exact ⟨v0, lastMJD, by simp, h0⟩
    | succ m =>
      obtain ⟨v, last, hv, he⟩ := hnew m (by omega)
      refine ⟨v, last, by simpa using hv, ?_⟩
      rw [show i + (m + 1) = i + 1 + m by omega]
      exact he

/-- A successful azimuth loop appends one entry per iteration, entry `m` of the new
part being read by the loop body for index `i + m`. -/
lemma azimuthLoop_ok_inv (c : Conversions) (kwl : ImageKeywordlist) :
    ∀ (trips i : Nat) (acc l : List Sentinel1AzimuthNoiseStruct),
      SetImageKeywordlist.azimuthLoop c kwl trips i acc = .ok l →
      ∃ new : List Sentinel1AzimuthNoiseStruct, l = acc ++ new ∧ new.length = trips
        ∧ ∀ m, m < trips → ∃ v, new[m]? = some v
            ∧ SetImageKeywordlist.azimuthEntry c kwl (i + m) = .ok v
  | 0, i, acc, l, h => by
    simp only [SetImageKeywordlist.azimuthLoop, Except.ok.injEq] at h
    exact ⟨[], by simp [h], rfl, fun m hm => absurd hm (Nat.not_lt_zero m)⟩
  | trips + 1, i, acc, l, h => by
    rw [SetImageKeywordlist.azimuthLoop] at h
    rcases except_ok_or_error (SetImageKeywordlist.azimuthEntry c kwl i)
      with ⟨v0, h0⟩ | ⟨e, h0⟩
    swap
    · simp [h0] at h
    simp only [h0] at h
    obtain ⟨new, hl, hlen, hnew⟩ := azimuthLoop_ok_inv c kwl trips (i + 1) _ l h
    refine ⟨v0 :: new, by simp [hl], by simp [hlen], ?_⟩
    intro m hm
    cases m with
    | zero => exact ⟨v0, by simp, h0⟩
    | succ m =>
      obtain ⟨v, hv, he⟩ := hnew m (by omega)
      refine ⟨v, by simpa using hv, ?_⟩
      rw [show i + (m + 1) = i + 1 + m by omega]
      exact he

/-! ## Ingestion: `number_lines` -/

/-- C7, as amended: ingestion fails whenever `std::stoi` cannot convert the value of
`number_lines`; a value that converts to an integer `n`, also `n < 2`, is accepted:
after a successful ingestion `numOfLines = n` and `lineTimeInterval` is the quotient
of `lastLineTime - firstLineTime` by `n - 1` as the code computes it, which has no
finite value for `n = 1` (in the arithmetic of the code and in the ideal arithmetic,
in which it is the exact quotient). -/
theorem number_lines_ingestion (E : ElementTypes) (c : Conversions)
    (s : Sentinel1ThermalNoiseLookupData) (kwl : ImageKeywordlist) :
    (∀ (A : Arithmetic) v, kwl.GetMetadataByKey "number_lines" = .ok v → c.stoi v = none →
        ∃ e, SetImageKeywordlist A E c s kwl = .error e)
      ∧ (∀ (A : Arithmetic) s1 v n, SetImageKeywordlist A E c s kwl = .ok s1 →
          kwl.GetMetadataByKey "number_lines" = .ok v → c.stoi v = some n →
          s1.m_NumOfLines = n
            ∧ s1.m_LineTimeInterval
                = computeLineTimeInterval A s1.m_FirstLineTime s1.m_LastLineTime n)
      ∧ (∀ s1 v n, SetImageKeywordlist .ideal E c s kwl = .ok s1 →
          kwl.GetMetadataByKey "number_lines" = .ok v → c.stoi v = some n →
          s1.m_LineTimeInterval
                = fdiv .ideal .double (s1.m_LastLineTime - s1.m_FirstLineTime)
                    (((n - 1 : Int) : ℚ))
            ∧ (n = 1 → s1.m_LineTimeInterval = none))
      ∧ (∀ s1 v, SetImageKeywordlist .machine E c s kwl = .ok s1 →
          kwl.GetMetadataByKey "number_lines" = .ok v → c.stoi v = some 1 →
          s1.m_LineTimeInterval = none) := by
  have key : ∀ (A : Arithmetic) s1 v n, SetImageKeywordlist A E c s kwl = .ok s1 →
      kwl.GetMetadataByKey "number_lines" = .ok v → c.stoi v = some n →
      s1.m_NumOfLines = n
        ∧ s1.m_LineTimeInterval
            = computeLineTimeInterval A s1.m_FirstLineTime s1.m_LastLineTime n := by
    intro A s1 v n h hv hstoi
    obtain ⟨first, last, n1, _, _, _, _, h3, _, _, hf, hl, hn, hlti, _⟩ :=
      SetImageKeywordlist_ok_inv h
    simp only [readKey, hv, hstoi, Except.ok.injEq] at h3
    subst h3
    exact ⟨hn, by rw [hlti, hf, hl]⟩
  refine ⟨?_, key, ?_, ?_⟩
  · intro A v hv hstoi
    rcases except_ok_or_error (SetImageKeywordlist A E c s kwl) with ⟨s1, h⟩ | ⟨e, h⟩
    · obtain ⟨_, _, n, _, _, _, _, h3, _⟩ := SetImageKeywordlist_ok_inv h
      simp [readKey, hv, hstoi] at h3
    · exact ⟨e, h⟩
  · intro s1 v n h hv hstoi
    have hk := (key .ideal s1 v n h hv hstoi).2
    refine ⟨by rw [hk]; rfl, ?_⟩
    intro h1
    rw [hk, h1]
    simp [computeLineTimeInterval, fdiv]
  · intro s1 v h hv hstoi
    rw [(key .machine s1 v 1 h hv hstoi).2]
    unfold computeLineTimeInterval
    have h0 : Arithmetic.machine.ofInt .double (Arithmetic.machine.toInt (1 - 1)) = 0 := by
      rw [sub_self, toInt_machine_of_isInt (by unfold IsInt; omega),
        ofInt_machine_double_of_isInt (by unfold IsInt; omega)]
      simp
    rw [h0]
    cases fsub .machine .double s1.m_LastLineTime s1.m_FirstLineTime with
    | none => rfl
    | some d => simp [fdiv]

/-- Witness of C7 (amended): with the sample conversions, the value `many` makes the
ingestion fail, and the legacy sample metadata (101 lines) is ingested with
`numOfLines = 101`. -/
theorem number_lines_ingestion_witness :
    (∃ e, SetImageKeywordlist .machine floatElements sampleConversions
        Sentinel1ThermalNoiseLookupData.fresh textLinesMetadata = .error e)
      ∧ (∃ s1, SetImageKeywordlist .machine floatElements sampleConversions
          Sentinel1ThermalNoiseLookupData.fresh legacyMetadata = .ok s1
        ∧ s1.m_NumOfLines = 101) :=
  ⟨(number_lines_ingestion floatElements sampleConversions
      Sentinel1ThermalNoiseLookupData.fresh textLinesMetadata).1 .machine "many" rfl rfl,
    ⟨_, rfl, ((number_lines_ingestion floatElements sampleConversions
      Sentinel1ThermalNoiseLookupData.fresh legacyMetadata).2.1 .machine _ "101" 101
      rfl rfl rfl).1⟩⟩

/-- Counterexample to C7 as stated: `number_lines = 1` converts to the integer 1,
smaller than 2, and the ingestion succeeds; the stored `lineTimeInterval` is the
quotient by `1 - 1 = 0` and has no finite value. -/
theorem number_lines_below_two_accepted :
    readKey singleLineMetadata "number_lines" sampleConversions.stoi = .ok 1
      ∧ ∃ s1, SetImageKeywordlist .machine floatElements sampleConversions
          Sentinel1ThermalNoiseLookupData.fresh singleLineMetadata = .ok s1
        ∧ s1.m_NumOfLines = 1 ∧ s1.m_LineTimeInterval = none :=
  ⟨rfl, _, rfl, rfl, by decide!⟩

/-! ## Ingestion: the lists of an entry -/

/-- C8, as amended: ingestion fails whenever, within a range-noise entry (index below
`rangeCount`), the `pixel` or the `noiseLut` value is missing or does not convert, or,
within an azimuth-noise entry (index below `azimuthCount`), the `line` or the
`noiseAzimuthLut` value is missing or does not convert. The lengths of the two lists of
an entry are not compared: after a successful ingestion range entry `i` holds the two
lists exactly as converted. -/
theorem list_conversion_failure (A : Arithmetic) (E : ElementTypes) (c : Conversions)
    (s : Sentinel1ThermalNoiseLookupData) (kwl : ImageKeywordlist) :
    (∀ (rc : Int) (i : Nat), readKey kwl "noise.rangeCount" c.stoi = .ok rc → (i : Int) < rc →
        ((∃ e, readKey kwl ("noise.noiseVector[" ++ toString i ++ "]." ++ "pixel")
              c.ConvertStringToVectorInt = .error e)
          ∨ (∃ e, readKey kwl ("noise.noiseVector[" ++ toString i ++ "]." ++ "noiseLut")
              c.ConvertStringToVectorFloat = .error e)) →
        ∃ e, SetImageKeywordlist A E c s kwl = .error e)
      ∧ (∀ (ac : Int) (i : Nat), kwl.HasKey "noise.azimuthCount" = true →
          readKey kwl "noise.azimuthCount" c.stoi = .ok ac → (i : Int) < ac →
          ((∃ e, readKey kwl ("noise.noiseAzimuthVector[" ++ toString i ++ "]." ++ "line")
                c.ConvertStringToVectorInt = .error e)
            ∨ (∃ e, readKey kwl
                ("noise.noiseAzimuthVector[" ++ toString i ++ "]." ++ "noiseAzimuthLut")
                c.ConvertStringToVectorFloat = .error e)) →
          ∃ e, SetImageKeywordlist A E c s kwl = .error e)
      ∧ (∀ (s1 : Sentinel1ThermalNoiseLookupData) (i : Nat) (v : Sentinel1CalibrationStruct),
          SetImageKeywordlist A E c s kwl = .ok s1 → s1.m_RangeNoiseVectorList[i]? = some v →
          readKey kwl ("noise.noiseVector[" ++ toString i ++ "]." ++ "pixel")
              c.ConvertStringToVectorInt = .ok v.pixels
            ∧ readKey kwl ("noise.noiseVector[" ++ toString i ++ "]." ++ "noiseLut")
              c.ConvertStringToVectorFloat = .ok v.vect) := by
  refine ⟨?_, ?_, ?_⟩
  · intro rc i hrc hi hfail
    rcases except_ok_or_error (SetImageKeywordlist A E c s kwl) with ⟨s1, h⟩ | ⟨e, h⟩
    swap
    · exact ⟨e, h⟩
    exfalso
    obtain ⟨_, _, _, rc1, rl, _, _, _, h4, h5, _⟩ := SetImageKeywordlist_ok_inv h
    rw [hrc] at h4
    cases h4
    obtain ⟨new, _, _, hnew⟩ := rangeLoop_ok_inv A E c kwl _ _ _ _ _ h5
    obtain ⟨v, last, _, he⟩ := hnew i (by omega)
    rw [Nat.zero_add] at he
    obtain ⟨_, _, _, hp, hl, _⟩ := rangeEntry_ok_inv he
    rcases hfail with ⟨e, hf⟩ | ⟨e, hf⟩
    · rw [hp] at hf
      cases hf
    · rw [hl] at hf
      cases hf
  · intro ac i hkey hac hi hfail
    rcases except_ok_or_error (SetImageKeywordlist A E c s kwl) with ⟨s1, h⟩ | ⟨e, h⟩
    swap
    · exact ⟨e, h⟩
    exfalso
    obtain ⟨_, _, _, _, _, _, _, _, _, _, _, _, _, _, _, _, haz⟩ := SetImageKeywordlist_ok_inv h
    rcases haz with ⟨_, ac1, h6, h7, _⟩ | ⟨hno, _⟩
    swap
    · rw [hkey] at hno
      cases hno
    rw [hac] at h6
    cases h6
    obtain ⟨new, _, _, hnew⟩ := azimuthLoop_ok_inv c kwl _ _ _ _ h7
    obtain ⟨v, _, he⟩ := hnew i (by omega)
    rw [Nat.zero_add] at he
    obtain ⟨hp, hl⟩ := azimuthEntry_ok_inv he
    rcases hfail with ⟨e, hf⟩ | ⟨e, hf⟩
    · rw [hp] at hf
      cases hf
    · rw [hl] at hf
      cases hf
  · intro s1 i v h hv
    obtain ⟨_, _, _, rc, rl, _, _, _, _, h5, _, _, _, _, _, hrl, _⟩ := SetImageKeywordlist_ok_inv h
    obtain ⟨new, hl, hlen, hnew⟩ := rangeLoop_ok_inv A E c kwl _ _ _ _ _ h5
    rw [hrl, hl, List.nil_append] at hv
    have hi : i < rc.toNat := hlen ▸ (List.getElem?_eq_some.mp hv).1
    obtain ⟨w, last, hw, he⟩ := hnew i hi
    rw [hv] at hw
    cases hw
    rw [Nat.zero_add] at he
    obtain ⟨_, _, _, hp, hlut, _⟩ := rangeEntry_ok_inv he
    exact ⟨hp, hlut⟩

/-- Witness of C8 (amended): the sample entry whose `pixel` value is `0 x` makes the
ingestion fail, and the legacy sample metadata is ingested with entry 0 holding the
lists as converted. -/
theorem list_conversion_failure_witness :
    (∃ e, SetImageKeywordlist .machine floatElements sampleConversions
        Sentinel1ThermalNoiseLookupData.fresh brokenListMetadata = .error e)
      ∧ readKey legacyMetadata "noise.noiseVector[0].pixel"
          sampleConversions.ConvertStringToVectorInt = .ok [0, 10, 25] :=
  ⟨(list_conversion_failure .machine floatElements sampleConversions
      Sentinel1ThermalNoiseLookupData.fresh
      brokenListMetadata).1 1 0 rfl (by decide) (Or.inl ⟨_, rfl⟩),
    ((list_conversion_failure .machine floatElements sampleConversions
      Sentinel1ThermalNoiseLookupData.fresh
      legacyMetadata).2.2 _ 0 _ rfl rfl).1⟩

/-- Counterexample to C8 as stated: the entry of `mismatchedMetadata` has a `pixel` list
of length 2 and a `noiseLut` list of length 1, and the ingestion succeeds, storing both
lists. -/
theorem mismatched_lengths_accepted :
    ∃ s1 v, SetImageKeywordlist .machine floatElements sampleConversions
        Sentinel1ThermalNoiseLookupData.fresh mismatchedMetadata = .ok s1
      ∧ s1.m_RangeNoiseVectorList = [v] ∧ v.pixels = [0, 10] ∧ v.vect = [7]
      ∧ v.pixels.length ≠ v.vect.length :=
  ⟨_, _, rfl, rfl, rfl, by decide, by decide⟩

/-! ## Ingestion: the azimuth members without `noise.azimuthCount` -/

/-- Without the key `noise.azimuthCount`, a successful ingestion leaves the azimuth
count and the azimuth list as they were before the call. -/
lemma SetImageKeywordlist_keeps_azimuth {A : Arithmetic} {E : ElementTypes} {c : Conversions}
    {s s1 : Sentinel1ThermalNoiseLookupData} {kwl : ImageKeywordlist}
    (hkey : kwl.HasKey "noise.azimuthCount" = false)
    (h : SetImageKeywordlist A E c s kwl = .ok s1) :
    s1.m_AzimuthCount = s.m_AzimuthCount
      ∧ s1.m_AzimuthNoiseVectorList = s.m_AzimuthNoiseVectorList := by
  obtain ⟨_, _, _, _, _, _, _, _, _, _, _, _, _, _, _, _, haz⟩ := SetImageKeywordlist_ok_inv h
  rcases haz with ⟨hyes, _⟩ | ⟨_, h1, h2⟩
  · rw [hkey] at hyes
    cases hyes
  · exact ⟨h1, h2⟩

/-- C9, the code at the failing input: a lookup that holds the azimuth block
`specAzimuthBlock` ingests the legacy sample metadata, which has no
`noise.azimuthCount` key; afterwards the azimuth count is still 1, the block is still
in the list, and `GetAzimuthNoise(2, 5)` is 3, not 1. -/
theorem stale_azimuth_after_ingestion :
    legacyMetadata.HasKey "noise.azimuthCount" = false
      ∧ ∃ s1, SetImageKeywordlist .machine floatElements sampleConversions
          (specAzimuthLookup .machine) legacyMetadata = .ok s1
        ∧ s1.m_AzimuthCount = 1
        ∧ s1.m_AzimuthNoiseVectorList = [specAzimuthBlock]
        ∧ GetAzimuthNoise .machine floatElements s1 2 5 = some 3 := by
  refine ⟨rfl, ?_⟩
  obtain ⟨s1, h⟩ : ∃ s1, SetImageKeywordlist .machine floatElements sampleConversions
      (specAzimuthLookup .machine) legacyMetadata = .ok s1 := ⟨_, rfl⟩
  have hkey : legacyMetadata.HasKey "noise.azimuthCount" = false := rfl
  obtain ⟨hc, hl⟩ := SetImageKeywordlist_keeps_azimuth hkey h
  have hc1 : s1.m_AzimuthCount = 1 := by rw [hc]; rfl
  have hl1 : s1.m_AzimuthNoiseVectorList = [specAzimuthBlock] := by rw [hl]; rfl
  refine ⟨s1, h, hc1, hl1, ?_⟩
  have hidx : GetAzimuthVectorIndex s1 (Arithmetic.machine.toInt 2) (Arithmetic.machine.toInt 5)
      = some ((0 : Nat) : Int) := by
    unfold GetAzimuthVectorIndex
    rw [hc1, hl1]
    decide
  rw [GetAzimuthNoise_of_bracket .machine floatElements s1 2 5 0 0 specAzimuthBlock 0 10 2 4
    (by rw [hc1]; decide) hidx (by rw [hl1]; rfl) (by decide) rfl rfl rfl rfl]
  decide!

/-! ## Ingestion: `deltaPixels` -/

/-- C10 (amended): every range-noise entry stored by a successful
`SetImageKeywordlist` has `deltaPixels` of the same length as `pixels`; `deltaPixels[0]`
is `pixels[0] - 0` and `deltaPixels[k+1]` is `pixels[k+1] - pixels[k]`, each difference
taken in `int` and converted to the element type of `deltaPixels`. In the arithmetic of
the code, when all pixels of the entry lie in `[0, 2^24)`, and in the ideal arithmetic
always, `deltaPixels[0] = pixels[0]`, `deltaPixels[k+1] = pixels[k+1] - pixels[k]` and
the prefix sums of `deltaPixels` reproduce `pixels`. -/
theorem ingested_deltaPixels (A : Arithmetic) (E : ElementTypes) (c : Conversions)
    (s s1 : Sentinel1ThermalNoiseLookupData)
    (kwl : ImageKeywordlist) (v : Sentinel1CalibrationStruct)
    (h : SetImageKeywordlist A E c s kwl = .ok s1) (hv : v ∈ s1.m_RangeNoiseVectorList) :
    v.deltaPixels.length = v.pixels.length
      ∧ (∀ p0 : Int, v.pixels[0]? = some p0 →
          v.deltaPixels[0]? = some (A.ofInt E.deltaPixels (A.toInt (p0 - 0))))
      ∧ (∀ (k : Nat) (a b : Int), v.pixels[k]? = some a → v.pixels[k + 1]? = some b →
          v.deltaPixels[k + 1]? = some (A.ofInt E.deltaPixels (A.toInt (b - a))))
      ∧ ((A = .ideal ∨ (A = .machine ∧ ∀ e ∈ v.pixels, 0 ≤ e ∧ e < 16777216)) →
          (∀ p0 : Int, v.pixels[0]? = some p0 → v.deltaPixels[0]? = some (p0 : ℚ))
            ∧ (∀ (k : Nat) (a b : Int), v.pixels[k]? = some a → v.pixels[k + 1]? = some b →
                v.deltaPixels[k + 1]? = some (((b - a : Int) : ℚ)))
            ∧ (∀ (k : Nat) (pk : Int), v.pixels[k]? = some pk →
                (v.deltaPixels.take (k + 1)).sum = (pk : ℚ))) := by
  obtain ⟨_, _, _, rc, rl, _, _, _, _, h5, _, _, _, _, _, hrl, _⟩ := SetImageKeywordlist_ok_inv h
  obtain ⟨new, hl, hlen, hnew⟩ := rangeLoop_ok_inv A E c kwl _ _ _ _ _ h5
  rw [hrl, hl, List.nil_append] at hv
  obtain ⟨i, hi, rfl⟩ := List.getElem_of_mem hv
  obtain ⟨w, last, hw, he⟩ := hnew i (hlen ▸ hi)
  rw [List.getElem?_eq_getElem hi] at hw
  cases hw
  obtain ⟨_, _, _, _, _, hd⟩ := rangeEntry_ok_inv he
  have hzero : ∀ (B : Arithmetic) (p0 : Int), (new[i]).pixels[0]? = some p0 →
      (SetImageKeywordlist.deltaPixelsLoop B E.deltaPixels 0 (new[i]).pixels [])[0]?
        = some (B.ofInt E.deltaPixels (B.toInt (p0 - 0))) := by
    intro B p0 hp0
    cases hpx : (new[i]).pixels with
    | nil => simp [hpx] at hp0
    | cons q rest =>
      simp only [hpx, List.getElem?_cons_zero, Option.some.injEq] at hp0
      subst hp0
      simp [deltaPixelsLoop_cons]
  have hideal : SetImageKeywordlist.deltaPixelsLoop A E.deltaPixels 0 (new[i]).pixels []
        = SetImageKeywordlist.deltaPixelsLoop .ideal E.deltaPixels 0 (new[i]).pixels [] →
      (∀ p0 : Int, (new[i]).pixels[0]? = some p0 → (new[i]).deltaPixels[0]? = some (p0 : ℚ))
        ∧ (∀ (k : Nat) (a b : Int), (new[i]).pixels[k]? = some a →
            (new[i]).pixels[k + 1]? = some b →
            (new[i]).deltaPixels[k + 1]? = some (((b - a : Int) : ℚ)))
        ∧ (∀ (k : Nat) (pk : Int), (new[i]).pixels[k]? = some pk →
            ((new[i]).deltaPixels.take (k + 1)).sum = (pk : ℚ)) := by
    intro heq
    rw [hd, heq]
    refine ⟨?_, ?_, ?_⟩
    · intro p0 hp0
      rw [hzero .ideal p0 hp0]
      simp
    · intro k a b ha hb
      rw [deltaPixelsLoop_succ .ideal _ 0 _ k a b ha hb]
      rfl
    · intro k pk hk
      rw [deltaPixelsLoop_running_sum _ 0 _ k pk hk]
      simp
  refine ⟨by rw [hd]; exact deltaPixelsLoop_length _ _ _ _, ?_, ?_, ?_⟩
  · intro p0 hp0
    rw [hd]
    exact hzero A p0 hp0
  · intro k a b ha hb
    rw [hd]
    exact deltaPixelsLoop_succ A _ 0 _ k a b ha hb
  · intro hA
    apply hideal
    rcases hA with rfl | ⟨rfl, hsmall⟩
    · rfl
    · exact deltaPixelsLoop_machine_eq_ideal _ 0 _ (by decide) hsmall

/-- Witness of C10: in the arithmetic of the code the first range entry of the legacy
sample metadata has `pixels = [0, 10, 25]`, all below `2^24`, and the sum of its three
`deltaPixels` is 25. -/
theorem ingested_deltaPixels_witness :
    ∃ s1 v, SetImageKeywordlist .machine floatElements sampleConversions
        Sentinel1ThermalNoiseLookupData.fresh legacyMetadata = .ok s1
      ∧ v ∈ s1.m_RangeNoiseVectorList ∧ v.pixels = [0, 10, 25]
      ∧ (v.deltaPixels.take 3).sum = 25 :=
  ⟨_, _, rfl, List.Mem.head _, rfl,
    ((ingested_deltaPixels .machine floatElements sampleConversions
      Sentinel1ThermalNoiseLookupData.fresh _ legacyMetadata _ rfl (List.Mem.head _)).2.2.2
      (Or.inr ⟨rfl, by decide⟩)).2.2 2 25 rfl⟩

/-- Counterexample to C10 as stated: a range entry with `pixel = -2000000000 2000000000`
is ingested; the difference `2000000000 - (-2000000000)` overflows `int`, and the stored
`deltaPixels[1]` is `-294967296`, not `4000000000`, whether `deltaPixels` holds `float`
or `double`; the sum of the two entries is `-2294967296`, not `pixels[1]`. -/
theorem ingested_deltaPixels_overflow :
    (∃ s1 v, SetImageKeywordlist .machine floatElements sampleConversions
          Sentinel1ThermalNoiseLookupData.fresh farPixelsMetadata = .ok s1
        ∧ s1.m_RangeNoiseVectorList = [v]
        ∧ v.pixels = [-2000000000, 2000000000]
        ∧ v.deltaPixels = [-2000000000, -294967296]
        ∧ v.deltaPixels[1]? ≠ some (((2000000000 - (-2000000000) : Int) : ℚ))
        ∧ (v.deltaPixels.take 2).sum ≠ ((2000000000 : Int) : ℚ))
      ∧ (∃ s1 v, SetImageKeywordlist .machine doubleElements sampleConversions
          Sentinel1ThermalNoiseLookupData.fresh farPixelsMetadata = .ok s1
        ∧ s1.m_RangeNoiseVectorList = [v]
        ∧ v.pixels = [-2000000000, 2000000000]
        ∧ v.deltaPixels = [-2000000000, -294967296]
        ∧ v.deltaPixels[1]? ≠ some (((2000000000 - (-2000000000) : Int) : ℚ))
        ∧ (v.deltaPixels.take 2).sum ≠ ((2000000000 : Int) : ℚ)) :=
  ⟨⟨_, _, rfl, rfl, rfl, by decide!, by decide!, by decide!⟩,
    ⟨_, _, rfl, rfl, rfl, by decide!, by decide!, by decide!⟩⟩

/-! ## Ingestion: `deltaMJD` -/

/-- In the part appended by a successful range loop, the first entry has its `deltaMJD`
taken against the `lastMJD` the loop started with, every later one against the
`timeMJD` of the entry before it. -/
lemma rangeLoop_deltaMJD (A : Arithmetic) (E : ElementTypes) (c : Conversions)
    (kwl : ImageKeywordlist) :
    ∀ (trips i : Nat) (lastMJD : ℚ) (acc l : List Sentinel1CalibrationStruct),
      SetImageKeywordlist.rangeLoop A E c kwl trips i lastMJD acc = .ok l →
      ∃ new : List Sentinel1CalibrationStruct, l = acc ++ new
        ∧ (∀ v, new[0]? = some v → v.deltaMJD = fsub A .double v.timeMJD lastMJD)
        ∧ (∀ (m : Nat) (a b : Sentinel1CalibrationStruct), new[m]? = some a →
            new[m + 1]? = some b → b.deltaMJD = fsub A .double b.timeMJD a.timeMJD)
  | 0, i, lastMJD, acc, l, h => by
    simp only [SetImageKeywordlist.rangeLoop, Except.ok.injEq] at h
    exact ⟨[], by simp [h], by simp, by simp⟩
  | trips + 1, i, lastMJD, acc, l, h => by
    rw [SetImageKeywordlist.rangeLoop] at h
    rcases except_ok_or_error (SetImageKeywordlist.rangeEntry A E c kwl i lastMJD)
      with ⟨v0, h0⟩ | ⟨e, h0⟩
    swap
    · simp [h0] at h
    simp only [h0] at h
    obtain ⟨new, hl, hfirst, hnext⟩ := rangeLoop_deltaMJD A E c kwl trips (i + 1) _ _ l h
    obtain ⟨_, hd0, _⟩ := rangeEntry_ok_inv h0
    refine ⟨v0 :: new, by simp [hl], ?_, ?_⟩
    · intro v hv
      simp only [List.getElem?_cons_zero, Option.some.injEq] at hv
      subst hv
      exact hd0
    · intro m a b ha hb
      cases m with
      | zero =>
        simp only [List.getElem?_cons_zero, Option.some.injEq] at ha
        subst ha
        simp only [zero_add, List.getElem?_cons_succ] at hb
        exact hfirst b hb
      | succ m =>
        simp only [List.getElem?_cons_succ] at ha hb
        exact hnext m a b ha hb

/-- C11: in the range list stored by a successful `SetImageKeywordlist`, the `deltaMJD`
of entry 0 is `timeMJD[0] - 0`, and the `deltaMJD` of every entry `i + 1` is
`timeMJD[i+1] - timeMJD[i]`, the subtraction of the code (in `double`). The `deltaMJD`
of entry 0 is `timeMJD[0]` itself, not 0, in the arithmetic of the code (`timeMJD[0]`
being a `double`) and in the ideal arithmetic, in which every `deltaMJD` is the exact
difference. In the arithmetic of the code the subtraction is exact as well when the two
times are positive `double`s and the later one is at most twice the earlier one, as
modified Julian dates of one product are. -/
theorem ingested_deltaMJD (A : Arithmetic) (E : ElementTypes) (c : Conversions)
    (s s1 : Sentinel1ThermalNoiseLookupData)
    (kwl : ImageKeywordlist) (h : SetImageKeywordlist A E c s kwl = .ok s1) :
    (∀ v, s1.m_RangeNoiseVectorList[0]? = some v →
        v.deltaMJD = fsub A .double v.timeMJD 0
          ∧ (A.round .double v.timeMJD = some v.timeMJD → v.deltaMJD = some v.timeMJD))
      ∧ (∀ (i : Nat) (a b : Sentinel1CalibrationStruct),
          s1.m_RangeNoiseVectorList[i]? = some a → s1.m_RangeNoiseVectorList[i + 1]? = some b →
          b.deltaMJD = fsub A .double b.timeMJD a.timeMJD)
      ∧ (A = .ideal →
          (∀ v, s1.m_RangeNoiseVectorList[0]? = some v →
              v.deltaMJD = some (v.timeMJD - 0) ∧ v.deltaMJD = some v.timeMJD)
            ∧ (∀ (i : Nat) (a b : Sentinel1CalibrationStruct),
                s1.m_RangeNoiseVectorList[i]? = some a →
                s1.m_RangeNoiseVectorList[i + 1]? = some b →
                b.deltaMJD = some (b.timeMJD - a.timeMJD)))
      ∧ (A = .machine →
          ∀ (i : Nat) (a b : Sentinel1CalibrationStruct),
            s1.m_RangeNoiseVectorList[i]? = some a →
            s1.m_RangeNoiseVectorList[i + 1]? = some b →
            FloatType.double.round a.timeMJD = some a.timeMJD →
            FloatType.double.round b.timeMJD = some b.timeMJD →
            0 < a.timeMJD → a.timeMJD ≤ b.timeMJD → b.timeMJD ≤ 2 * a.timeMJD →
            b.deltaMJD = some (b.timeMJD - a.timeMJD)) := by
  obtain ⟨_, _, _, rc, rl, _, _, _, _, h5, _, _, _, _, _, hrl, _⟩ := SetImageKeywordlist_ok_inv h
  obtain ⟨new, hl, hfirst, hnext⟩ := rangeLoop_deltaMJD A E c kwl _ _ _ _ _ h5
  rw [hrl, hl, List.nil_append]
  refine ⟨?_, hnext, ?_, ?_⟩
  · intro v hv
    have := hfirst v hv
    refine ⟨this, ?_⟩
    intro hr
    rw [this]
    unfold fsub
    rw [sub_zero]
    exact hr
  · intro hA
    subst hA
    refine ⟨?_, ?_⟩
    · intro v hv
      have := hfirst v hv
      exact ⟨this, by rw [this]; simp⟩
    · intro i a b ha hb
      exact hnext i a b ha hb
  · intro hA i a b ha hb hra hrb ha0 hab hba
    subst hA
    rw [hnext i a b ha hb]
    exact FloatType.double.round_sub_exact hrb hra ha0 hab hba

/-- Witness of C11: in the arithmetic of the code the two range entries of the legacy
sample metadata have times 58849 and 58850; entry 0 has `deltaMJD = timeMJD`, entry 1
has the difference of the two times, computed exactly. -/
theorem ingested_deltaMJD_witness :
    ∃ s1 a b, SetImageKeywordlist .machine floatElements sampleConversions
        Sentinel1ThermalNoiseLookupData.fresh legacyMetadata = .ok s1
      ∧ s1.m_RangeNoiseVectorList = [a, b]
      ∧ a.timeMJD = 58849 ∧ b.timeMJD = 58850
      ∧ a.deltaMJD = some a.timeMJD
      ∧ b.deltaMJD = fsub .machine .double b.timeMJD a.timeMJD
      ∧ b.deltaMJD = some (b.timeMJD - a.timeMJD) :=
  ⟨_, _, _, rfl, rfl, rfl, rfl,
    ((ingested_deltaMJD .machine floatElements sampleConversions
      Sentinel1ThermalNoiseLookupData.fresh _ legacyMetadata rfl).1 _ rfl).2 (by decide!),
    (ingested_deltaMJD .machine floatElements sampleConversions
      Sentinel1ThermalNoiseLookupData.fresh _ legacyMetadata rfl).2.1 0 _ _ rfl rfl,
    (ingested_deltaMJD .machine floatElements sampleConversions
      Sentinel1ThermalNoiseLookupData.fresh _ legacyMetadata rfl).2.2.2 rfl 0 _ _ rfl rfl
      (by decide!) (by decide!) (by decide!) (by decide!) (by decide!)⟩

/-! ## Construction from explicit parameters: round trip -/

/-- C12: after `InitParameters` the range count is the length of the given range list,
the azimuth count the length of the given azimuth list, the stored lists and times are
the given ones, and `lineTimeInterval` is the quotient
`(lastLineTime - firstLineTime) / (numOfLines - 1)` as the code computes it. In the
ideal arithmetic it is the exact quotient, a finite number exactly when `numOfLines`
is not 1; in the arithmetic of the code it has no finite value for `numOfLines = 1`,
and for another `numOfLines` (such that `numOfLines - 1` is an `int`) it is the
difference of the times rounded to `double`, divided by `numOfLines - 1` and rounded
to `double`. -/
theorem InitParameters_round_trip (A : Arithmetic) (s0 : Sentinel1ThermalNoiseLookupData)
    (firstLineTime lastLineTime : ℚ) (numOfLines : Int)
    (rl : List Sentinel1CalibrationStruct) (al : List Sentinel1AzimuthNoiseStruct) :
    (InitParameters A s0 firstLineTime lastLineTime numOfLines rl al).m_RangeCount
        = (rl.length : Int)
      ∧ (InitParameters A s0 firstLineTime lastLineTime numOfLines rl al).m_AzimuthCount
        = (al.length : Int)
      ∧ (InitParameters A s0 firstLineTime lastLineTime numOfLines rl al).m_RangeNoiseVectorList
        = rl
      ∧ (InitParameters A s0 firstLineTime lastLineTime numOfLines rl al).m_AzimuthNoiseVectorList
        = al
      ∧ (InitParameters A s0 firstLineTime lastLineTime numOfLines rl al).m_FirstLineTime
        = firstLineTime
      ∧ (InitParameters A s0 firstLineTime lastLineTime numOfLines rl al).m_LastLineTime
        = lastLineTime
      ∧ (InitParameters A s0 firstLineTime lastLineTime numOfLines rl al).m_NumOfLines
        = numOfLines
      ∧ (InitParameters A s0 firstLineTime lastLineTime numOfLines rl al).m_LineTimeInterval
        = computeLineTimeInterval A firstLineTime lastLineTime numOfLines
      ∧ (InitParameters .ideal s0 firstLineTime lastLineTime numOfLines rl al).m_LineTimeInterval
        = fdiv .ideal .double (lastLineTime - firstLineTime) (((numOfLines - 1 : Int) : ℚ))
      ∧ (InitParameters .ideal s0 firstLineTime lastLineTime numOfLines rl al).m_LineTimeInterval
        = (if numOfLines = 1 then none
           else some ((lastLineTime - firstLineTime) / ((numOfLines : ℚ) - 1)))
      ∧ (InitParameters .machine s0 firstLineTime lastLineTime numOfLines rl
            al).m_LineTimeInterval
        = (if numOfLines = 1 then none
           else if IsInt (numOfLines - 1) then
             (fsub .machine .double lastLineTime firstLineTime).bind
               (fun d => FloatType.double.round (d / ((numOfLines : ℚ) - 1)))
           else computeLineTimeInterval .machine firstLineTime lastLineTime numOfLines) := by
  refine ⟨rfl, rfl, rfl, rfl, rfl, rfl, rfl, rfl, rfl, ?_, ?_⟩
  · show computeLineTimeInterval .ideal firstLineTime lastLineTime numOfLines = _
    by_cases hn : numOfLines = 1
    · subst hn
      simp [computeLineTimeInterval, fdiv]
    · have hnz : (((numOfLines - 1 : Int) : ℚ)) ≠ 0 := by
        intro h
        have : numOfLines - 1 = 0 := by exact_mod_cast h
        omega
      rw [computeLineTimeInterval_ideal _ _ _ hnz, if_neg hn]
      push_cast
      rfl
  · show computeLineTimeInterval .machine firstLineTime lastLineTime numOfLines = _
    by_cases hn : numOfLines = 1
    · subst hn
      rw [if_pos rfl]
      unfold computeLineTimeInterval
      have h0 : Arithmetic.machine.ofInt .double (Arithmetic.machine.toInt (1 - 1)) = 0 := by
        rw [sub_self, toInt_machine_of_isInt (by unfold IsInt; omega),
          ofInt_machine_double_of_isInt (by unfold IsInt; omega)]
        simp
      rw [h0]
      cases fsub .machine .double lastLineTime firstLineTime with
      | none => rfl
      | some d => simp [fdiv]
    · rw [if_neg hn]
      by_cases hi : IsInt (numOfLines - 1)
      · rw [if_pos hi]
        unfold computeLineTimeInterval
        rw [toInt_machine_of_isInt hi, ofInt_machine_double_of_isInt hi]
        have hnz : (((numOfLines - 1 : Int) : ℚ)) ≠ 0 := by
          intro h
          have : numOfLines - 1 = 0 := by exact_mod_cast h
          omega
        congr 1
        funext d
        unfold fdiv
        rw [if_neg hnz]
        push_cast
        rfl
      · rw [if_neg hi]

lemma GetRangeNoise_eq_bind_blend (A : Arithmetic) (E : ElementTypes)
    (s : Sentinel1ThermalNoiseLookupData) (x y : Int) :
    GetRangeNoise A E s x y
      = if s.m_RangeCount ≠ 0 then
          (GetRangeVectorIndex s (A.toInt y)).bind (fun vecIdx =>
            if ¬ (vecIdx ≥ 0 ∧ vecIdx < s.m_RangeCount - 1) then none
            else (elemAt s.m_RangeNoiseVectorList vecIdx).bind (fun vec0 =>
              (elemAt s.m_RangeNoiseVectorList (vecIdx + 1)).bind (fun vec1 =>
                GetRangeNoise.blend A E s.m_FirstLineTime s.m_LineTimeInterval x y vec0 vec1)))
        else some 1 := by
  unfold GetRangeNoise
  by_cases hc : s.m_RangeCount ≠ 0
  swap
  · rw [if_neg hc, if_neg hc]
  rw [if_pos hc, if_pos hc]
  cases GetRangeVectorIndex s (A.toInt y) with
  | none => rfl
  | some r =>
    by_cases hr : r ≥ 0 ∧ r < s.m_RangeCount - 1
    · simp only [Option.bind_eq_bind, Option.some_bind, if_neg (not_not.mpr hr)]
    · simp only [Option.bind_eq_bind, Option.some_bind, if_pos hr]

/-! ## The `deltaMJD` of the first range vector is not read -/

/-- The range scan only reads the lines: two lists with the same lines give the same
result. -/
lemma range_scan_congr (l l1 : List Sentinel1CalibrationStruct) (y : Int)
    (h : ∀ i : Nat, (l[i]?).map (fun (v : Sentinel1CalibrationStruct) => v.line)
      = (l1[i]?).map (fun (v : Sentinel1CalibrationStruct) => v.line)) :
    ∀ (trips i : Nat),
      GetRangeVectorIndex.scan l y trips i = GetRangeVectorIndex.scan l1 y trips i
  | 0, i => rfl
  | trips + 1, i => by
    rw [GetRangeVectorIndex.scan, GetRangeVectorIndex.scan]
    have hi := h i
    cases h0 : l[i]? with
    | none =>
      cases h1 : l1[i]? with
      | none => rfl
      | some w => simp [h0, h1] at hi
    | some v =>
      cases h1 : l1[i]? with
      | none => simp [h0, h1] at hi
      | some w =>
        simp only [h0, h1, Option.map_some', Option.some.injEq] at hi
        simp only [hi]
        rw [range_scan_congr l l1 y h trips (i + 1)]

/-- C13: replacing the `deltaMJD` of the first range vector changes neither
`GetRangeNoise` nor `GetAzimuthNoise` nor `GetValue`, at any query: where the value is
defined on one lookup it is defined, and the same, on the other. -/
theorem first_deltaMJD_not_read (A : Arithmetic) (E : ElementTypes)
    (s : Sentinel1ThermalNoiseLookupData) (d : Option ℚ) (x y : Int) :
    GetRangeNoise A E (withFirstDeltaMJD s d) x y = GetRangeNoise A E s x y
      ∧ GetAzimuthNoise A E (withFirstDeltaMJD s d) x y = GetAzimuthNoise A E s x y
      ∧ GetValue A E (withFirstDeltaMJD s d) x y = GetValue A E s x y := by
  have haz : GetAzimuthNoise A E (withFirstDeltaMJD s d) x y = GetAzimuthNoise A E s x y := rfl
  have hrange : GetRangeNoise A E (withFirstDeltaMJD s d) x y = GetRangeNoise A E s x y := by
    cases hl : s.m_RangeNoiseVectorList with
    | nil =>
      have : withFirstDeltaMJD s d = s := by
        cases s
        simp only [withFirstDeltaMJD] at hl ⊢
        simp [hl]
      rw [this]
    | cons v rest =>
      have hl1 : (withFirstDeltaMJD s d).m_RangeNoiseVectorList
          = { v with deltaMJD := d } :: rest := by
        simp [withFirstDeltaMJD, hl]
      have hcnt : (withFirstDeltaMJD s d).m_RangeCount = s.m_RangeCount := rfl
      have hft : (withFirstDeltaMJD s d).m_FirstLineTime = s.m_FirstLineTime := rfl
      have hlti : (withFirstDeltaMJD s d).m_LineTimeInterval = s.m_LineTimeInterval := rfl
      have hidx : GetRangeVectorIndex (withFirstDeltaMJD s d) (A.toInt y)
          = GetRangeVectorIndex s (A.toInt y) := by
        unfold GetRangeVectorIndex
        rw [hcnt, hl1, hl]
        apply range_scan_congr
        intro i
        cases i <;> simp
      rw [GetRangeNoise_eq_bind_blend, GetRangeNoise_eq_bind_blend, hidx, hcnt, hft, hlti,
        hl1, hl]
      by_cases hc : s.m_RangeCount ≠ 0
      swap
      · rw [if_neg hc, if_neg hc]
      rw [if_pos hc, if_pos hc]
      cases GetRangeVectorIndex s (A.toInt y) with
      | none => rfl
      | some r =>
        rw [Option.some_bind, Option.some_bind]
        by_cases hr : r ≥ 0 ∧ r < s.m_RangeCount - 1
        swap
        · rw [if_pos hr, if_pos hr]
        rw [if_neg (not_not.mpr hr), if_neg (not_not.mpr hr)]
        obtain ⟨k, rfl⟩ : ∃ k : Nat, r = (k : Int) := ⟨r.toNat, by omega⟩
        cases k with
        | zero =>
          have e0 : ∀ (l : List Sentinel1CalibrationStruct), elemAt l ((0 : Nat) : Int) = l[0]? :=
            fun l => elemAt_natCast l 0
          have e1 : ∀ (l : List Sentinel1CalibrationStruct),
              elemAt l (((0 : Nat) : Int) + 1) = l[1]? := fun l => elemAt_natCast_succ l 0
          rw [e0, e0, e1, e1]
          simp only [List.getElem?_cons_zero, List.getElem?_cons_succ, Option.some_bind]
          rfl
        | succ k =>
          rw [elemAt_natCast, elemAt_natCast, elemAt_natCast_succ, elemAt_natCast_succ]
          rfl
  refine ⟨hrange, haz, ?_⟩
  unfold GetValue
  rw [hrange, haz]
/-! ## The bracket returned by `GetRangeVectorIndex` -/

/-- The range scan started just after a vector whose line is below `y` returns a
bracket of `y` as soon as some later vector within its reach has a line at or above
`y`. -/
lemma range_scan_bracket (l : List Sentinel1CalibrationStruct) (y : Int) :
    ∀ (trips j : Nat) (u : Sentinel1CalibrationStruct),
      l[j]? = some u → u.line < y →
      (∃ t v, j + 1 ≤ t ∧ t < j + 1 + trips ∧ l[t]? = some v ∧ y ≤ v.line) →
      ∃ r : Nat, GetRangeVectorIndex.scan l y trips (j + 1) = some (r : Int)
        ∧ j ≤ r ∧ r < j + trips
        ∧ ∃ v0 v1, l[r]? = some v0 ∧ l[r + 1]? = some v1 ∧ v0.line < y ∧ y ≤ v1.line
  | 0, j, u, _, _, ⟨t, v, h1, h2, _, _⟩ => by omega
  | trips + 1, j, u, hu, hlt, ⟨t, v, h1, h2, hv, hle⟩ => by
    have htlen : t < l.length := (List.getElem?_eq_some.mp hv).1
    have hj1 : j + 1 < l.length := by omega
    rw [GetRangeVectorIndex.scan, List.getElem?_eq_getElem hj1]
    by_cases hy : y ≤ (l[j + 1]).line
    · refine ⟨j, ?_, le_refl _, by omega, u, l[j + 1], hu, List.getElem?_eq_getElem hj1, hlt, hy⟩
      simp only [hy, if_true]
      congr 1
      push_cast
      ring
    · simp only [hy, if_false]
      have htne : t ≠ j + 1 := by
        intro h
        subst h
        rw [List.getElem?_eq_getElem hj1] at hv
        cases hv
        exact hy hle
      obtain ⟨r, hr, hjr, hrt, hbr⟩ := range_scan_bracket l y trips (j + 1) l[j + 1]
        (List.getElem?_eq_getElem hj1) (by omega) ⟨t, v, by omega, by omega, hv, hle⟩
      exact ⟨r, hr, by omega, by omega, hbr⟩

/-- C20: in a lookup whose range count is the length of its range list, with at least
two range vectors, for every `y` strictly between the line of the first and the line
of the last vector, `GetRangeVectorIndex(y)` returns an index `i` with
`0 ≤ i < rangeCount - 1` and `list[i].line < y ≤ list[i+1].line`. The order of the
lines in between is not needed. -/
theorem GetRangeVectorIndex_bracket (s : Sentinel1ThermalNoiseLookupData) (y : Int)
    (vfirst vlast : Sentinel1CalibrationStruct)
    (hcount : s.m_RangeCount = (s.m_RangeNoiseVectorList.length : Int))
    (hlen : 2 ≤ s.m_RangeNoiseVectorList.length)
    (hfirst : s.m_RangeNoiseVectorList[0]? = some vfirst)
    (hlast : s.m_RangeNoiseVectorList[s.m_RangeNoiseVectorList.length - 1]? = some vlast)
    (hlo : vfirst.line < y) (hhi : y < vlast.line) :
    ∃ i : Nat, GetRangeVectorIndex s y = some (i : Int)
      ∧ 0 ≤ (i : Int) ∧ (i : Int) < s.m_RangeCount - 1
      ∧ ∃ v0 v1, s.m_RangeNoiseVectorList[i]? = some v0
          ∧ s.m_RangeNoiseVectorList[i + 1]? = some v1 ∧ v0.line < y ∧ y ≤ v1.line := by
  obtain ⟨r, hr, _, hrt, hbr⟩ := range_scan_bracket s.m_RangeNoiseVectorList y
    (s.m_RangeCount - 1).toNat 0 vfirst hfirst hlo
    ⟨s.m_RangeNoiseVectorList.length - 1, vlast, by omega, by omega, hlast, le_of_lt hhi⟩
  refine ⟨r, hr, by omega, by omega, hbr⟩

lemma specLookup_counts :
    (specLookup .machine).m_RangeCount
      = ((specLookup .machine).m_RangeNoiseVectorList.length : Int) := rfl

/-- Witness of C20: on the spec's table (lines 0 and 100) `GetRangeVectorIndex(50)`
returns a bracket of 50. -/
theorem GetRangeVectorIndex_bracket_witness :
    ∃ i : Nat, GetRangeVectorIndex (specLookup .machine) 50 = some (i : Int)
      ∧ 0 ≤ (i : Int) ∧ (i : Int) < (specLookup .machine).m_RangeCount - 1
      ∧ ∃ v0 v1, (specLookup .machine).m_RangeNoiseVectorList[i]? = some v0
          ∧ (specLookup .machine).m_RangeNoiseVectorList[i + 1]? = some v1
          ∧ v0.line < 50 ∧ 50 ≤ v1.line :=
  GetRangeVectorIndex_bracket (specLookup .machine) 50 specVector0 specVector1 specLookup_counts
    (by decide) rfl rfl (by decide) (by decide)

/-! ## `GetPixelIndex` on a sorted vector -/

lemma upper_bound_nil (x : Int) : upper_bound [] x = 0 := rfl

lemma upper_bound_cons (a : Int) (v : List Int) (x : Int) :
    upper_bound (a :: v) x = if x < a then 0 else upper_bound v x + 1 := by
  unfold upper_bound
  by_cases h : x < a
  · simp [List.takeWhile, h]
  · simp [List.takeWhile, h]

lemma upper_bound_le_length (v : List Int) (x : Int) : upper_bound v x ≤ v.length := by
  unfold upper_bound
  exact (List.takeWhile_sublist _).length_le

/-- Every element before the position returned by `upper_bound` is at most `x`. -/
lemma upper_bound_before (v : List Int) (x : Int) :
    ∀ (i : Nat) (e : Int), i < upper_bound v x → v[i]? = some e → e ≤ x := by
  induction v with
  | nil => intro i e hi; simp [upper_bound_nil] at hi
  | cons a v ih =>
    intro i e hi he
    rw [upper_bound_cons] at hi
    by_cases h : x < a
    · simp [h] at hi
    · rw [if_neg h] at hi
      cases i with
      | zero =>
        simp only [List.getElem?_cons_zero, Option.some.injEq] at he
        omega
      | succ i =>
        simp only [List.getElem?_cons_succ] at he
        exact ih i e (by omega) he

/-- The element at the position returned by `upper_bound`, when there is one, is
greater than `x`. -/
lemma upper_bound_at (v : List Int) (x : Int) :
    ∀ e : Int, v[upper_bound v x]? = some e → x < e := by
  induction v with
  | nil => intro e he; simp at he
  | cons a v ih =>
    intro e he
    rw [upper_bound_cons] at he
    by_cases h : x < a
    · rw [if_pos h] at he
      simp only [List.getElem?_cons_zero, Option.some.injEq] at he
      omega
    · rw [if_neg h] at he
      simp only [List.getElem?_cons_succ] at he
      exact ih e he

lemma upper_bound_mono (v : List Int) {x1 x2 : Int} (h : x1 ≤ x2) :
    upper_bound v x1 ≤ upper_bound v x2 := by
  induction v with
  | nil => simp [upper_bound_nil]
  | cons a v ih =>
    rw [upper_bound_cons, upper_bound_cons]
    by_cases h1 : x1 < a
    · rw [if_pos h1]
      exact Nat.zero_le _
    · have h2 : ¬ x2 < a := by omega
      rw [if_neg h1, if_neg h2]
      omega

/-- C22, as amended: for every strictly increasing vector of length `n ≥ 2` and every
`x` at or above its first element, the result of `GetPixelIndex` satisfies
`0 ≤ idx ≤ n - 2`, and `idx = n - 2` whenever `x` is at or beyond the last element. -/
theorem GetPixelIndex_valid_pair (v : List Int) (x first last : Int)
    (hsorted : v.Pairwise (fun a b => a < b)) (hlen : 2 ≤ v.length)
    (hfirst : v[0]? = some first) (hlast : v[v.length - 1]? = some last)
    (hx : first ≤ x) :
    0 ≤ GetPixelIndex x v ∧ GetPixelIndex x v ≤ (v.length : Int) - 2
      ∧ (last ≤ x → GetPixelIndex x v = (v.length : Int) - 2) := by
  have hpos : 1 ≤ upper_bound v x := by
    by_contra h
    have h0 : upper_bound v x = 0 := by omega
    have := upper_bound_at v x first (by rw [h0]; exact hfirst)
    omega
  have hle := upper_bound_le_length v x
  refine ⟨?_, ?_, ?_⟩
  · unfold GetPixelIndex
    by_cases h : upper_bound v x = v.length
    · simp only [h, if_true]
      omega
    · simp only [h, if_false]
      omega
  · unfold GetPixelIndex
    by_cases h : upper_bound v x = v.length
    · simp only [h, if_true]
      omega
    · simp only [h, if_false]
      omega
  · intro hl
    have hn : v.length = (v.length - 2) + 1 + 1 := by omega
    have hall : ∀ e ∈ v, e ≤ last :=
      le_last_of_pairwise hsorted (n := v.length - 1) (by omega) hlast
    exact GetPixelIndex_of_all_le (fun e he => le_trans (hall e he) hl)

/-- Witness of C22 (amended): on the vector `[0, 10, 25]` the queries 0, 12 and 40 give
the indices 0, 1 and 1. -/
theorem GetPixelIndex_valid_pair_witness :
    (0 ≤ GetPixelIndex 12 [0, 10, 25] ∧ GetPixelIndex 12 [0, 10, 25] ≤ 1)
      ∧ GetPixelIndex 40 [0, 10, 25] = 1 := by
  have h1 := GetPixelIndex_valid_pair [0, 10, 25] 12 0 25 (by decide) (by decide) rfl rfl
    (by decide)
  have h2 := GetPixelIndex_valid_pair [0, 10, 25] 40 0 25 (by decide) (by decide) rfl rfl
    (by decide)
  exact ⟨⟨h1.1, h1.2.1⟩, h2.2.2 (by decide)⟩

/-- Counterexample to C22 as stated: the vector `[0, 10]` is strictly increasing of
length 2, and for `x = -1`, below its first element, `GetPixelIndex` returns `-1`,
which is not in `[0, n - 2]`. -/
theorem GetPixelIndex_below_first :
    [0, 10].Pairwise (fun a b : Int => a < b) ∧ GetPixelIndex (-1) [0, 10] = -1
      ∧ ¬ (0 ≤ GetPixelIndex (-1) [0, 10]) := by
  decide

/-- C23: for every strictly increasing vector of length `n ≥ 2` and every `x` with
`v[0] ≤ x < v[n-1]`, `GetPixelIndex(x, v)` is an index `i` with `v[i] ≤ x < v[i+1]`,
and it is the only such index. -/
theorem GetPixelIndex_segment (v : List Int) (x first last : Int)
    (hsorted : v.Pairwise (fun a b => a < b)) (hlen : 2 ≤ v.length)
    (hfirst : v[0]? = some first) (hlast : v[v.length - 1]? = some last)
    (hlo : first ≤ x) (hhi : x < last) :
    ∃ i : Nat, GetPixelIndex x v = (i : Int)
      ∧ (∃ a b, v[i]? = some a ∧ v[i + 1]? = some b ∧ a ≤ x ∧ x < b)
      ∧ (∀ (j : Nat) (a b : Int), v[j]? = some a → v[j + 1]? = some b → a ≤ x → x < b →
          j = i) := by
  have hpos : 1 ≤ upper_bound v x := by
    by_contra h
    have h0 : upper_bound v x = 0 := by omega
    have := upper_bound_at v x first (by rw [h0]; exact hfirst)
    omega
  have hle := upper_bound_le_length v x
  have hne : upper_bound v x ≠ v.length := by
    intro h
    have := upper_bound_before v x (v.length - 1) last (by omega) hlast
    omega
  have hlt : upper_bound v x < v.length := by omega
  obtain ⟨m, hm⟩ : ∃ m, upper_bound v x = m + 1 := ⟨upper_bound v x - 1, by omega⟩
  have hm0 : m < v.length := by omega
  have ha : v[m]? = some v[m] := List.getElem?_eq_getElem hm0
  have hb : v[m + 1]? = some v[m + 1] := List.getElem?_eq_getElem (by omega)
  have hax : v[m] ≤ x := upper_bound_before v x m _ (by omega) ha
  have hxb : x < v[m + 1] :=
    upper_bound_at v x _ ((congrArg (fun k => v[k]?) hm).trans hb)
  refine ⟨m, GetPixelIndex_of_segment hsorted ha hb hax hxb, ⟨_, _, ha, hb, hax, hxb⟩, ?_⟩
  intro j a b hja hjb h1 h2
  have e1 := GetPixelIndex_of_segment hsorted hja hjb h1 h2
  have e2 := GetPixelIndex_of_segment hsorted ha hb hax hxb
  rw [e1] at e2
  exact_mod_cast e2

/-- Witness of C23: on the vector `[0, 10, 25]` the query 12 falls in the segment
`[10, 25)` of index 1. -/
theorem GetPixelIndex_segment_witness :
    ∃ i : Nat, GetPixelIndex 12 [0, 10, 25] = (i : Int)
      ∧ (∃ a b : Int, [0, 10, 25][i]? = some a ∧ [0, 10, 25][i + 1]? = some b
          ∧ a ≤ 12 ∧ 12 < b)
      ∧ (∀ (j : Nat) (a b : Int), [0, 10, 25][j]? = some a → [0, 10, 25][j + 1]? = some b →
          a ≤ 12 → 12 < b → j = i) :=
  GetPixelIndex_segment [0, 10, 25] 12 0 25 (by decide) (by decide) rfl rfl (by decide)
    (by decide)

/-- C24: on a sorted vector `GetPixelIndex` is monotonic: `x1 < x2` gives
`GetPixelIndex(x1, v) ≤ GetPixelIndex(x2, v)`. The sortedness is what
`std::upper_bound` requires; the inequality itself does not use it. -/
theorem GetPixelIndex_monotonic (v : List Int) (x1 x2 : Int)
    (_hsorted : v.Pairwise (fun a b => a ≤ b)) (hx : x1 < x2) :
    GetPixelIndex x1 v ≤ GetPixelIndex x2 v := by
  have hmono := upper_bound_mono v (le_of_lt hx)
  have h1 := upper_bound_le_length v x1
  have h2 := upper_bound_le_length v x2
  unfold GetPixelIndex
  by_cases e2 : upper_bound v x2 = v.length
  · by_cases e1 : upper_bound v x1 = v.length
    · simp only [e1, e2, if_true, le_refl]
    · simp only [e1, e2, if_true, if_false]
      omega
  · have e1 : upper_bound v x1 ≠ v.length := by omega
    simp only [e1, e2, if_false]
    omega

/-- Witness of C24: on the vector `[0, 10, 25]`, `GetPixelIndex(5) ≤ GetPixelIndex(12)`. -/
theorem GetPixelIndex_monotonic_witness :
    GetPixelIndex 5 [0, 10, 25] ≤ GetPixelIndex 12 [0, 10, 25] :=
  GetPixelIndex_monotonic [0, 10, 25] 5 12 (by decide) (by decide)

/-! ## The two scans: complete description of the result -/

/-- The range scan over `trips` positions from `i`, all inside the list, either finds
no line at or above `y` and returns `-1`, or returns `t - 1` for the first position `t`
whose line is at or above `y`. -/
lemma range_scan_total (l : List Sentinel1CalibrationStruct) (y : Int) :
    ∀ (trips i : Nat), i + trips ≤ l.length →
      (GetRangeVectorIndex.scan l y trips i = some (-1)
          ∧ ∀ m w, i ≤ m → m < i + trips → l[m]? = some w → w.line < y)
        ∨ (∃ (t : Nat) (v : Sentinel1CalibrationStruct),
            GetRangeVectorIndex.scan l y trips i = some ((t : Int) - 1)
            ∧ i ≤ t ∧ t < i + trips ∧ l[t]? = some v ∧ y ≤ v.line
            ∧ ∀ m w, i ≤ m → m < t → l[m]? = some w → w.line < y)
  | 0, i, _ => by
    left
    exact ⟨rfl, fun m w h1 h2 _ => by omega⟩
  | trips + 1, i, hlen => by
    have hi : i < l.length := by omega
    rw [GetRangeVectorIndex.scan, List.getElem?_eq_getElem hi]
    by_cases hy : y ≤ (l[i]).line
    · right
      refine ⟨i, l[i], by simp [hy], le_refl _, by omega, List.getElem?_eq_getElem hi, hy,
        fun m w h1 h2 _ => by omega⟩
    · simp only [hy, if_false]
      have hcur : ∀ m w, i ≤ m → m < i + 1 → l[m]? = some w → w.line < y := by
        intro m w h1 h2 hw
        have : m = i := by omega
        subst this
        rw [List.getElem?_eq_getElem hi] at hw
        cases hw
        omega
      rcases range_scan_total l y trips (i + 1) (by omega) with ⟨h1, h2⟩ | ⟨t, v, h1, h2, h3, h4, h5, h6⟩
      · left
        refine ⟨h1, fun m w hm1 hm2 hw => ?_⟩
        by_cases hmi : m < i + 1
        · exact hcur m w hm1 hmi hw
        · exact h2 m w (by omega) (by omega) hw
      · right
        refine ⟨t, v, h1, by omega, by omega, h4, h5, fun m w hm1 hm2 hw => ?_⟩
        by_cases hmi : m < i + 1
        · exact hcur m w hm1 hmi hw
        · exact h6 m w (by omega) hm2 hw

/-- The azimuth scan over `trips` positions from `i`, all inside the list, either finds
no block containing the point and returns `-1`, or returns the first position whose
block contains it. -/
lemma azimuth_scan_total (l : List Sentinel1AzimuthNoiseStruct) (x y : Int) :
    ∀ (trips i : Nat), i + trips ≤ l.length →
      (GetAzimuthVectorIndex.scan l x y trips i = some (-1)
          ∧ ∀ m w, i ≤ m → m < i + trips → l[m]? = some w → ¬ w.contains x y)
        ∨ (∃ (k : Nat) (v : Sentinel1AzimuthNoiseStruct),
            GetAzimuthVectorIndex.scan l x y trips i = some (k : Int)
            ∧ i ≤ k ∧ k < i + trips ∧ l[k]? = some v ∧ v.contains x y
            ∧ ∀ m w, i ≤ m → m < k → l[m]? = some w → ¬ w.contains x y)
  | 0, i, _ => by
    left
    exact ⟨rfl, fun m w h1 h2 _ => by omega⟩
  | trips + 1, i, hlen => by
    have hi : i < l.length := by omega
    rw [GetAzimuthVectorIndex.scan, List.getElem?_eq_getElem hi]
    by_cases hin : (l[i]).contains x y
    · right
      refine ⟨i, l[i], by simp [hin], le_refl _, by omega, List.getElem?_eq_getElem hi, hin,
        fun m w h1 h2 _ => by omega⟩
    · simp only [hin, if_false]
      have hcur : ∀ m w, i ≤ m → m < i + 1 → l[m]? = some w → ¬ w.contains x y := by
        intro m w h1 h2 hw
        have : m = i := by omega
        subst this
        rw [List.getElem?_eq_getElem hi] at hw
        cases hw
        exact hin
      rcases azimuth_scan_total l x y trips (i + 1) (by omega) with ⟨h1, h2⟩ | ⟨k, v, h1, h2, h3, h4, h5, h6⟩
      · left
        refine ⟨h1, fun m w hm1 hm2 hw => ?_⟩
        by_cases hmi : m < i + 1
        · exact hcur m w hm1 hmi hw
        · exact h2 m w (by omega) (by omega) hw
      · right
        refine ⟨k, v, h1, by omega, by omega, h4, h5, fun m w hm1 hm2 hw => ?_⟩
        by_cases hmi : m < i + 1
        · exact hcur m w hm1 hmi hw
        · exact h6 m w (by omega) hm2 hw

/-- C25: in a lookup whose azimuth count is the length of its azimuth list,
`GetAzimuthVectorIndex(x, y)` returns the smallest index of a block whose inclusive box
contains `(x, y)` when there is such a block, and it returns `-1` if and only if no
block contains the point. -/
theorem GetAzimuthVectorIndex_first_match (s : Sentinel1ThermalNoiseLookupData) (x y : Int)
    (hcount : s.m_AzimuthCount = (s.m_AzimuthNoiseVectorList.length : Int)) :
    ((∃ v ∈ s.m_AzimuthNoiseVectorList, v.contains x y) →
        ∃ (k : Nat) (v : Sentinel1AzimuthNoiseStruct),
          GetAzimuthVectorIndex s x y = some (k : Int)
            ∧ s.m_AzimuthNoiseVectorList[k]? = some v ∧ v.contains x y
            ∧ ∀ m w, m < k → s.m_AzimuthNoiseVectorList[m]? = some w → ¬ w.contains x y)
      ∧ (GetAzimuthVectorIndex s x y = some (-1)
          ↔ ∀ v ∈ s.m_AzimuthNoiseVectorList, ¬ v.contains x y) := by
  have htot := azimuth_scan_total s.m_AzimuthNoiseVectorList x y s.m_AzimuthCount.toNat 0
    (by omega)
  have hall : (∀ m w, 0 ≤ m → m < 0 + s.m_AzimuthCount.toNat →
      s.m_AzimuthNoiseVectorList[m]? = some w → ¬ w.contains x y)
      → ∀ v ∈ s.m_AzimuthNoiseVectorList, ¬ v.contains x y := by
    intro h v hv
    obtain ⟨i, hi, rfl⟩ := List.getElem_of_mem hv
    exact h i _ (Nat.zero_le _) (by omega) (List.getElem?_eq_getElem hi)
  unfold GetAzimuthVectorIndex
  rcases htot with ⟨h1, h2⟩ | ⟨k, v, h1, _, h3, h4, h5, h6⟩
  · refine ⟨fun ⟨v, hv, hin⟩ => absurd hin (hall h2 v hv), ?_⟩
    exact ⟨fun _ => hall h2, fun _ => h1⟩
  · refine ⟨fun _ => ⟨k, v, h1, h4, h5, fun m w hm hw => h6 m w (Nat.zero_le _) hm hw⟩, ?_⟩
    constructor
    · intro hneg
      rw [h1] at hneg
      simp only [Option.some.injEq] at hneg
      omega
    · intro hno
      obtain ⟨hk, rfl⟩ := List.getElem?_eq_some.mp h4
      exact absurd h5 (hno _ (List.getElem_mem hk))

/-- Witness of C25: in the lookup with the single block of the spec, the point `(2, 5)`
is in the box of block 0, which is returned. -/
theorem GetAzimuthVectorIndex_first_match_witness :
    ∃ (k : Nat) (v : Sentinel1AzimuthNoiseStruct),
      GetAzimuthVectorIndex (specAzimuthLookup .machine) 2 5 = some (k : Int)
        ∧ (specAzimuthLookup .machine).m_AzimuthNoiseVectorList[k]? = some v ∧ v.contains 2 5
        ∧ ∀ m w, m < k → (specAzimuthLookup .machine).m_AzimuthNoiseVectorList[m]? = some w →
            ¬ w.contains 2 5 :=
  (GetAzimuthVectorIndex_first_match (specAzimuthLookup .machine) 2 5 rfl).1
    ⟨specAzimuthBlock, List.Mem.head _, by decide⟩

/-- C21, as amended: in a lookup whose range count is the length of its range list,
`GetRangeVectorIndex(y)` returns `-1` for every `y` above the first vector's line for
which no bracket exists (in particular above the last vector's line); it returns `-1`
exactly when every line from the second vector on is below `y`; and for `y` at or below
the first vector's line, with at least two vectors and increasing lines, it returns 0. -/
theorem GetRangeVectorIndex_no_bracket (s : Sentinel1ThermalNoiseLookupData) (y : Int)
    (hcount : s.m_RangeCount = (s.m_RangeNoiseVectorList.length : Int)) :
    ((∀ v, s.m_RangeNoiseVectorList[0]? = some v → v.line < y) →
        (∀ (i : Nat) (v0 v1 : Sentinel1CalibrationStruct),
          s.m_RangeNoiseVectorList[i]? = some v0 → s.m_RangeNoiseVectorList[i + 1]? = some v1 →
          ¬ (v0.line < y ∧ y ≤ v1.line)) →
        GetRangeVectorIndex s y = some (-1))
      ∧ (GetRangeVectorIndex s y = some (-1)
          ↔ ∀ (m : Nat) (w : Sentinel1CalibrationStruct), 1 ≤ m →
              s.m_RangeNoiseVectorList[m]? = some w → w.line < y)
      ∧ (∀ vfirst, 2 ≤ s.m_RangeNoiseVectorList.length →
          s.m_RangeNoiseVectorList.Pairwise (fun a b => a.line ≤ b.line) →
          s.m_RangeNoiseVectorList[0]? = some vfirst → y ≤ vfirst.line →
          GetRangeVectorIndex s y = some 0) := by
  have hiff : GetRangeVectorIndex s y = some (-1)
      ↔ ∀ (m : Nat) (w : Sentinel1CalibrationStruct), 1 ≤ m →
          s.m_RangeNoiseVectorList[m]? = some w → w.line < y := by
    unfold GetRangeVectorIndex
    by_cases hempty : s.m_RangeNoiseVectorList.length = 0
    · have htrips : (s.m_RangeCount - 1).toNat = 0 := by omega
      rw [htrips]
      refine ⟨fun _ m w _ hw => ?_, fun _ => rfl⟩
      have := (List.getElem?_eq_some.mp hw).1
      omega
    rcases range_scan_total s.m_RangeNoiseVectorList y (s.m_RangeCount - 1).toNat 1 (by omega)
      with ⟨h1, h2⟩ | ⟨t, v, h1, h2, _, h4, h5, _⟩
    · refine ⟨fun _ m w hm hw => ?_, fun _ => h1⟩
      have hmlen : m < s.m_RangeNoiseVectorList.length := (List.getElem?_eq_some.mp hw).1
      exact h2 m w hm (by omega) hw
    · constructor
      · intro hneg
        rw [h1] at hneg
        simp only [Option.some.injEq] at hneg
        omega
      · intro hall
        have := hall t v h2 h4
        omega
  refine ⟨?_, hiff, ?_⟩
  · intro hfirst hno
    rw [hiff]
    intro m
    induction m with
    | zero => intro w h; omega
    | succ m ih =>
      intro w _ hw
      have hmlen : m + 1 < s.m_RangeNoiseVectorList.length := (List.getElem?_eq_some.mp hw).1
      have hm : m < s.m_RangeNoiseVectorList.length := by omega
      have hprev : (s.m_RangeNoiseVectorList[m]).line < y := by
        cases m with
        | zero => exact hfirst _ (List.getElem?_eq_getElem hm)
        | succ k => exact ih _ (by omega) (List.getElem?_eq_getElem hm)
      have := hno m _ w (List.getElem?_eq_getElem hm) hw
      omega
  · intro vfirst hlen hsorted hfirst hy
    have h1 : 1 < s.m_RangeNoiseVectorList.length := by omega
    have hle : vfirst.line ≤ (s.m_RangeNoiseVectorList[1]).line :=
      pairwise_getElem? hsorted Nat.zero_lt_one hfirst (List.getElem?_eq_getElem h1)
    unfold GetRangeVectorIndex
    rw [range_scan_first_match _ y 1 _ (List.getElem?_eq_getElem h1) (by omega) _ 1 (le_refl _)
      (by omega) (fun m w hm hm1 _ => by omega)]
    rfl

/-- Witness of C21 (amended): on the spec's table (lines 0 and 100),
`GetRangeVectorIndex(150)` is `-1` and `GetRangeVectorIndex(-5)` is 0. -/
theorem GetRangeVectorIndex_no_bracket_witness :
    GetRangeVectorIndex (specLookup .machine) 150 = some (-1)
      ∧ GetRangeVectorIndex (specLookup .machine) (-5) = some 0 := by
  refine ⟨(GetRangeVectorIndex_no_bracket (specLookup .machine) 150 specLookup_counts).1 ?_ ?_,
    (GetRangeVectorIndex_no_bracket (specLookup .machine) (-5) specLookup_counts).2.2 specVector0
      (by decide) ?_ rfl (by decide)⟩
  · intro v hv
    cases hv
    decide
  · intro i v0 v1 h0 h1
    rcases i with _ | _ | i
    · cases h0
      cases h1
      decide
    · cases h1
    · cases h1
  · simp [specLookup, InitParameters, specTable, specVector0, specVector1]

/-- Counterexample to C21 as stated: on the spec's table (lines 0 and 100, increasing)
there is no index `i` with `line_i < 0 ≤ line_{i+1}`, since 0 is the first vector's
line, and `GetRangeVectorIndex(0)` is 0, not `-1`. -/
theorem GetRangeVectorIndex_at_first_line :
    (specLookup .machine).m_RangeNoiseVectorList.Pairwise (fun a b => a.line < b.line)
      ∧ (∀ (i : Nat) (v0 v1 : Sentinel1CalibrationStruct),
          (specLookup .machine).m_RangeNoiseVectorList[i]? = some v0 →
          (specLookup .machine).m_RangeNoiseVectorList[i + 1]? = some v1 →
          ¬ (v0.line < 0 ∧ 0 ≤ v1.line))
      ∧ GetRangeVectorIndex (specLookup .machine) 0 = some 0
      ∧ GetRangeVectorIndex (specLookup .machine) 0 ≠ some (-1) := by
  refine ⟨?_, ?_, by decide, by decide⟩
  · simp [specLookup, InitParameters, specTable, specVector0, specVector1]
  · intro i v0 v1 h0 h1
    rcases i with _ | _ | i
    · cases h0
      cases h1
      decide
    · cases h1
    · cases h1

/-! ## Element accesses of `GetRangeNoise` -/

/-- At or above the first element of a strictly increasing vector of length at least
2, `GetPixelIndex` returns a position that has a successor in the vector. -/
lemma GetPixelIndex_has_successor (v : List Int) (x first : Int) (hlen : 2 ≤ v.length)
    (hfirst : v[0]? = some first) (hx : first ≤ x) :
    ∃ j : Nat, GetPixelIndex x v = (j : Int) ∧ j + 1 < v.length := by
  have hpos : 1 ≤ upper_bound v x := by
    by_contra h
    have h0 : upper_bound v x = 0 := by omega
    have := upper_bound_at v x first (by rw [h0]; exact hfirst)
    omega
  have hle := upper_bound_le_length v x
  unfold GetPixelIndex
  by_cases h : upper_bound v x = v.length
  · refine ⟨v.length - 2, ?_, by omega⟩
    simp only [h, if_true]
    omega
  · refine ⟨upper_bound v x - 1, ?_, by omega⟩
    simp only [h, if_false]
    omega

/-- C26, as amended: in a lookup built by `InitParameters` with at least two range
vectors, each with the vector invariant, for every query `(x, y)` that the conversion
to `int` keeps (in the arithmetic of the code: `x` and `y` are values of `int`) and
every `y` at or below the last vector's line, the assertion
`vecIdx >= 0 && vecIdx < rangeCount - 1` of `GetRangeNoise` holds and both bracketing
vectors exist; if moreover `x` is at or above the first pixel of the lower bracketing
vector and the upper bracketing vector has at least as many samples as the lower one,
every element access made by `GetRangeNoise` is within the bounds of its vector, and
`GetRangeNoise(x, y)` is the arithmetic of the code on the six elements read. -/
theorem GetRangeNoise_in_bounds (A : Arithmetic) (E : ElementTypes)
    (s0 : Sentinel1ThermalNoiseLookupData)
    (firstLineTime lastLineTime : ℚ) (numOfLines : Int)
    (rl : List Sentinel1CalibrationStruct) (x y : Int) (vlast : Sentinel1CalibrationStruct)
    (hlen : 2 ≤ rl.length) (hinv : ∀ v ∈ rl, RangeVectorInvariant v)
    (hlast : rl[rl.length - 1]? = some vlast) (hy : y ≤ vlast.line)
    (hxA : A.toInt x = x) (hyA : A.toInt y = y) :
    ∃ (k : Nat) (vec0 vec1 : Sentinel1CalibrationStruct),
      GetRangeVectorIndex (InitParameters A s0 firstLineTime lastLineTime numOfLines rl [])
            (A.toInt y)
          = some (k : Int)
        ∧ (k : Int) ≥ 0
        ∧ (k : Int)
            < (InitParameters A s0 firstLineTime lastLineTime numOfLines rl []).m_RangeCount - 1
        ∧ rl[k]? = some vec0 ∧ rl[k + 1]? = some vec1
        ∧ ∀ p0 : Int, vec0.pixels[0]? = some p0 → p0 ≤ x →
            vec0.pixels.length ≤ vec1.vect.length →
            ∃ (j : Nat) (p : Int) (dp a0 a1 b0 b1 : ℚ),
              GetPixelIndex (A.toInt x) vec0.pixels = (j : Int)
              ∧ elemAt vec0.pixels (j : Int) = some p
              ∧ elemAt vec0.deltaPixels ((j : Int) + 1) = some dp
              ∧ elemAt vec0.vect (j : Int) = some a0
              ∧ elemAt vec0.vect ((j : Int) + 1) = some a1
              ∧ elemAt vec1.vect (j : Int) = some b0
              ∧ elemAt vec1.vect ((j : Int) + 1) = some b1
              ∧ GetRangeNoise A E
                    (InitParameters A s0 firstLineTime lastLineTime numOfLines rl []) x y
                  = (GetRangeNoise.muY A firstLineTime
                      (computeLineTimeInterval A firstLineTime lastLineTime numOfLines)
                      y vec0 vec1).bind
                      (fun muY =>
                        (fdiv A E.deltaPixels
                            (A.ofInt E.deltaPixels (A.toIndexValueType (x - p))) dp).bind
                          (fun muX => GetRangeNoise.lutVal A muX muY a0 a1 b0 b1)) := by
  generalize hs : InitParameters A s0 firstLineTime lastLineTime numOfLines rl [] = s
  have hcnt : s.m_RangeCount = (rl.length : Int) := by rw [← hs]; rfl
  have hrl : s.m_RangeNoiseVectorList = rl := by rw [← hs]; rfl
  have hft : s.m_FirstLineTime = firstLineTime := by rw [← hs]; rfl
  have hlti : s.m_LineTimeInterval
      = computeLineTimeInterval A firstLineTime lastLineTime numOfLines := by rw [← hs]; rfl
  have hscan : ∀ k : Int, GetRangeVectorIndex s (A.toInt y) = some k ↔
      GetRangeVectorIndex.scan rl y ((rl.length : Int) - 1).toNat 1 = some k := by
    intro k
    unfold GetRangeVectorIndex
    rw [hcnt, hrl, hyA]
  rcases range_scan_total rl y ((rl.length : Int) - 1).toNat 1 (by omega)
    with ⟨_, h2⟩ | ⟨t, v, h1, h2, h3, h4, _, _⟩
  · have := h2 (rl.length - 1) vlast (by omega) (by omega) hlast
    omega
  · obtain ⟨k, rfl⟩ : ∃ k, t = k + 1 := ⟨t - 1, by omega⟩
    have hk : k < rl.length := by omega
    have hidx : GetRangeVectorIndex s (A.toInt y) = some (k : Int) := by
      rw [hscan, h1]
      congr 1
      push_cast
      ring
    refine ⟨k, rl[k], v, hidx, by omega, by omega, List.getElem?_eq_getElem hk, h4, ?_⟩
    intro p0 hp0 hx hsame
    obtain ⟨hld, hlv, hl2, _⟩ := hinv _ (List.getElem_mem hk)
    obtain ⟨j, hj, hjlt⟩ := GetPixelIndex_has_successor _ x p0 hl2 hp0 hx
    have hjA : GetPixelIndex (A.toInt x) (rl[k]).pixels = (j : Int) := by rw [hxA]; exact hj
    obtain ⟨p, e1⟩ : ∃ p, (rl[k]).pixels[j]? = some p :=
      ⟨_, List.getElem?_eq_getElem (by omega)⟩
    obtain ⟨dp, e2⟩ : ∃ dp, (rl[k]).deltaPixels[j + 1]? = some dp :=
      ⟨_, List.getElem?_eq_getElem (by omega)⟩
    obtain ⟨a0, e3⟩ : ∃ a0, (rl[k]).vect[j]? = some a0 :=
      ⟨_, List.getElem?_eq_getElem (by omega)⟩
    obtain ⟨a1, e4⟩ : ∃ a1, (rl[k]).vect[j + 1]? = some a1 :=
      ⟨_, List.getElem?_eq_getElem (by omega)⟩
    obtain ⟨b0, e5⟩ : ∃ b0, v.vect[j]? = some b0 := ⟨_, List.getElem?_eq_getElem (by omega)⟩
    obtain ⟨b1, e6⟩ : ∃ b1, v.vect[j + 1]? = some b1 :=
      ⟨_, List.getElem?_eq_getElem (by omega)⟩
    refine ⟨j, p, dp, a0, a1, b0, b1, hjA, ?_, ?_, ?_, ?_, ?_, ?_, ?_⟩
    · rw [elemAt_natCast, e1]
    · rw [elemAt_natCast_succ, e2]
    · rw [elemAt_natCast, e3]
    · rw [elemAt_natCast_succ, e4]
    · rw [elemAt_natCast, e5]
    · rw [elemAt_natCast_succ, e6]
    · rw [GetRangeNoise_of_bracket A E s x y k j (rl[k]) v a0 a1 b0 b1 hidx
        (by rw [hrl]; exact List.getElem?_eq_getElem hk) (by rw [hrl]; exact h4) hjA e3 e4 e5 e6,
        GetRangeNoise_muX_of_bracket A E x j (rl[k]) p dp hjA e1 e2, hft, hlti]

/-- Witness of C26 (amended): on the spec's table, in the arithmetic of the code, the
query `(20, 50)` has the bracket `(0, 1)`, all its element accesses are within bounds
and `GetRangeNoise(20, 50)` is 4. -/
theorem GetRangeNoise_in_bounds_witness :
    (∃ (k : Nat) (vec0 vec1 : Sentinel1CalibrationStruct),
      GetRangeVectorIndex (specLookup .machine) (Arithmetic.machine.toInt 50) = some (k : Int)
        ∧ (k : Int) ≥ 0 ∧ (k : Int) < (specLookup .machine).m_RangeCount - 1
        ∧ specTable[k]? = some vec0 ∧ specTable[k + 1]? = some vec1
        ∧ ∀ p0 : Int, vec0.pixels[0]? = some p0 → p0 ≤ 20 →
            vec0.pixels.length ≤ vec1.vect.length →
            ∃ (j : Nat) (p : Int) (dp a0 a1 b0 b1 : ℚ),
              GetPixelIndex (Arithmetic.machine.toInt 20) vec0.pixels = (j : Int)
              ∧ elemAt vec0.pixels (j : Int) = some p
              ∧ elemAt vec0.deltaPixels ((j : Int) + 1) = some dp
              ∧ elemAt vec0.vect (j : Int) = some a0
              ∧ elemAt vec0.vect ((j : Int) + 1) = some a1
              ∧ elemAt vec1.vect (j : Int) = some b0
              ∧ elemAt vec1.vect ((j : Int) + 1) = some b1
              ∧ GetRangeNoise .machine floatElements (specLookup .machine) 20 50
                  = (GetRangeNoise.muY .machine 0 (computeLineTimeInterval .machine 0 1 101)
                      50 vec0 vec1).bind
                      (fun muY =>
                        (fdiv .machine floatElements.deltaPixels
                            (Arithmetic.machine.ofInt floatElements.deltaPixels
                              (Arithmetic.machine.toIndexValueType (20 - p))) dp).bind
                          (fun muX => GetRangeNoise.lutVal .machine muX muY a0 a1 b0 b1)))
      ∧ GetRangeNoise .machine floatElements (specLookup .machine) 20 50 = some 4 :=
  ⟨GetRangeNoise_in_bounds .machine floatElements Sentinel1ThermalNoiseLookupData.fresh 0 1 101
    specTable 20 50 specVector1 (by decide) specTable_premises.2.1 rfl (by decide)
    (by decide) (by decide), by decide!⟩

/-- Counterexample to C26 as stated: `unevenTable` has two vectors with the vector
invariant and increasing lines; the query `(20, 50)` has `y` below the last line and
`x` above the first pixel of the lower bracketing vector (vector 0, three samples);
`GetPixelIndex` is 1, and the access `vec1.vect[pixelIdx + 1]` is outside the upper
vector, which has two samples. On the spec's table, whose vectors have equal sample
counts, the query `(4294967295, 50)` satisfies the premises, but `GetPixelIndex` is
called with `(int)x = -1` and the access `vec0.pixels[-1]` is outside the vector; at
`y = -4294967146` `GetRangeVectorIndex` is called with `(int)y = 150`, beyond the last
line, and the assertion fails. -/
theorem GetRangeNoise_reads_past_upper_vector :
    (∀ v ∈ unevenTable, RangeVectorInvariant v)
      ∧ unevenTable.Pairwise (fun a b => a.line < b.line)
      ∧ GetRangeVectorIndex (unevenLookup .machine) 50 = some 0
      ∧ (unevenLookup .machine).m_RangeNoiseVectorList[0]? = some unevenVector0
      ∧ (unevenLookup .machine).m_RangeNoiseVectorList[1]? = some unevenVector1
      ∧ GetPixelIndex 20 unevenVector0.pixels = 1
      ∧ elemAt unevenVector1.vect (1 + 1) = none
      ∧ GetRangeNoise .machine floatElements (unevenLookup .machine) 20 50 = none
      ∧ (∀ v ∈ specTable, RangeVectorInvariant v)
      ∧ specTable.Pairwise (fun a b => a.line < b.line)
      ∧ specVector0.pixels[0]? = some 0 ∧ specVector1.line = 100
      ∧ Arithmetic.machine.toInt 4294967295 = -1
      ∧ GetPixelIndex (-1) specVector0.pixels = -1
      ∧ elemAt specVector0.pixels (-1) = none
      ∧ GetRangeNoise .machine floatElements (specLookup .machine) 4294967295 50 = none
      ∧ Arithmetic.machine.toInt (-4294967146) = 150
      ∧ GetRangeVectorIndex (specLookup .machine) 150 = some (-1)
      ∧ GetRangeNoise .machine floatElements (specLookup .machine) 5 (-4294967146) = none := by
  refine ⟨?_, ?_, by decide, rfl, rfl, by decide, by decide, by decide!,
    specTable_premises.2.1, specTable_premises.2.2.1, rfl, rfl, by decide, by decide,
    by decide, by decide!, by decide, by decide, by decide!⟩
  · simp [unevenTable, unevenVector0, unevenVector1, RangeVectorInvariant]
  · simp [unevenTable, unevenVector0, unevenVector1]

/-! ## The blend inside a bracket -/

/-- C28, the code at the failing input: starting from a fresh lookup, the sample
metadata with one azimuth-noise entry is ingested twice, both times with success.
After the first call the azimuth count is 1 and the list has one block; after the
second call the count is 1 and the list has two blocks, the block of the first call
and the block of the second. The range members agree after both calls. -/
theorem azimuth_list_accumulates :
    ∃ s1 s2, SetImageKeywordlist .machine floatElements sampleConversions
        Sentinel1ThermalNoiseLookupData.fresh azimuthMetadata = .ok s1
      ∧ SetImageKeywordlist .machine floatElements sampleConversions s1 azimuthMetadata
          = .ok s2
      ∧ s1.m_AzimuthCount = 1 ∧ s1.m_AzimuthNoiseVectorList.length = 1
      ∧ s2.m_AzimuthCount = 1 ∧ s2.m_AzimuthNoiseVectorList.length = 2
      ∧ s2.m_AzimuthNoiseVectorList
          = s1.m_AzimuthNoiseVectorList ++ s1.m_AzimuthNoiseVectorList
      ∧ s2.m_RangeCount = 0 ∧ s2.m_RangeNoiseVectorList = [] :=
  ⟨_, _, rfl, rfl, rfl, rfl, rfl, rfl, rfl, rfl, rfl⟩

end otb

namespace mvd

/-! ## Channel bounds -/

lemma toUnsignedInt_small : ∀ z : Int, 0 ≤ z → z ≤ 4 → toUnsignedInt z = z := by
  intro z h0 h4
  unfold toUnsignedInt
  omega

/-- C16: for every conversion to `CountType` that keeps the values 0 to 4, `RgbwBounds`
returns true and sets an empty range for `NONE` (`begin = end`), the range
`[channel, channel + 1)` for `RED`, `GREEN`, `BLUE` and `WHITE`, the range `[0, 3)` for
`RGB` and the range `[0, 4)` for `ALL`. -/
theorem RgbwBounds_ranges (toCountType : Int → Int) (begin end' : Int)
    (hsmall : ∀ z : Int, 0 ≤ z → z ≤ 4 → toCountType z = z) :
    (∃ r, RgbwBounds toCountType begin end' .RGBW_CHANNEL_NONE = some r
        ∧ r.result = true ∧ r.begin = r.end')
      ∧ (∀ ch : RgbwChannel,
          ch = .RGBW_CHANNEL_RED ∨ ch = .RGBW_CHANNEL_GREEN ∨ ch = .RGBW_CHANNEL_BLUE
            ∨ ch = .RGBW_CHANNEL_WHITE →
          RgbwBounds toCountType begin end' ch
            = some { result := true, begin := ch.toInt, end' := ch.toInt + 1 })
      ∧ RgbwBounds toCountType begin end' .RGBW_CHANNEL_RGB
          = some { result := true, begin := 0, end' := 3 }
      ∧ RgbwBounds toCountType begin end' .RGBW_CHANNEL_ALL
          = some { result := true, begin := 0, end' := 4 } := by
  have h0 := hsmall 0 (by decide) (by decide)
  have h1 := hsmall 1 (by decide) (by decide)
  have h2 := hsmall 2 (by decide) (by decide)
  have h3 := hsmall 3 (by decide) (by decide)
  have h4 := hsmall 4 (by decide) (by decide)
  refine ⟨⟨_, rfl, rfl, rfl⟩, ?_, ?_, ?_⟩
  · intro ch hch
    rcases hch with rfl | rfl | rfl | rfl <;>
      simp [RgbwBounds, RgbwChannel.toInt, h0, h1, h2, h3, h4]
  · simp [RgbwBounds, RgbwChannel.toInt, h0, h3]
  · simp [RgbwBounds, RgbwChannel.toInt, h0, h4]

/-- Witness of C16: with `CountType` an unsigned 32-bit integer, `WHITE` gives `[3, 4)`
and `ALL` gives `[0, 4)`. -/
theorem RgbwBounds_ranges_witness :
    RgbwBounds toUnsignedInt 0 0 .RGBW_CHANNEL_WHITE
        = some { result := true, begin := 3, end' := 4 }
      ∧ RgbwBounds toUnsignedInt 0 0 .RGBW_CHANNEL_ALL
        = some { result := true, begin := 0, end' := 4 } :=
  ⟨(RgbwBounds_ranges toUnsignedInt 0 0 toUnsignedInt_small).2.1 .RGBW_CHANNEL_WHITE
      (Or.inr (Or.inr (Or.inr rfl))),
    (RgbwBounds_ranges toUnsignedInt 0 0 toUnsignedInt_small).2.2.2⟩

/-- C17: for every conversion to `CountType` that keeps the values 0 to 4, `RgbBounds`
returns true and sets the same empty range for `NONE` and `WHITE` (`begin = end`), the
range `[channel, channel + 1)` for `RED`, `GREEN` and `BLUE`, and the range `[0, 3)`,
without the white channel 3, for both `RGB` and `ALL`. -/
theorem RgbBounds_ranges (toCountType : Int → Int) (begin end' : Int)
    (hsmall : ∀ z : Int, 0 ≤ z → z ≤ 4 → toCountType z = z) :
    (∃ r, RgbBounds toCountType begin end' .RGBW_CHANNEL_NONE = some r
        ∧ RgbBounds toCountType begin end' .RGBW_CHANNEL_WHITE = some r
        ∧ r.result = true ∧ r.begin = r.end')
      ∧ (∀ ch : RgbwChannel,
          ch = .RGBW_CHANNEL_RED ∨ ch = .RGBW_CHANNEL_GREEN ∨ ch = .RGBW_CHANNEL_BLUE →
          RgbBounds toCountType begin end' ch
            = some { result := true, begin := ch.toInt, end' := ch.toInt + 1 })
      ∧ RgbBounds toCountType begin end' .RGBW_CHANNEL_RGB
          = some { result := true, begin := 0, end' := 3 }
      ∧ RgbBounds toCountType begin end' .RGBW_CHANNEL_ALL
          = some { result := true, begin := 0, end' := 3 } := by
  have h0 := hsmall 0 (by decide) (by decide)
  have h1 := hsmall 1 (by decide) (by decide)
  have h2 := hsmall 2 (by decide) (by decide)
  have h3 := hsmall 3 (by decide) (by decide)
  refine ⟨⟨_, rfl, rfl, rfl, rfl⟩, ?_, ?_, ?_⟩
  · intro ch hch
    rcases hch with rfl | rfl | rfl <;>
      simp [RgbBounds, RgbwChannel.toInt, h0, h1, h2, h3]
  · simp [RgbBounds, RgbwChannel.toInt, h0, h3]
  · simp [RgbBounds, RgbwChannel.toInt, h0, h3]

/-- Witness of C17: with `CountType` an unsigned 32-bit integer, `BLUE` gives `[2, 3)`
and `ALL` gives `[0, 3)`. -/
theorem RgbBounds_ranges_witness :
    RgbBounds toUnsignedInt 0 0 .RGBW_CHANNEL_BLUE
        = some { result := true, begin := 2, end' := 3 }
      ∧ RgbBounds toUnsignedInt 0 0 .RGBW_CHANNEL_ALL
        = some { result := true, begin := 0, end' := 3 } :=
  ⟨(RgbBounds_ranges toUnsignedInt 0 0 toUnsignedInt_small).2.1 .RGBW_CHANNEL_BLUE
      (Or.inr (Or.inr rfl)),
    (RgbBounds_ranges toUnsignedInt 0 0 toUnsignedInt_small).2.2.2⟩

/-- C18, the code at the failing input: `ColorDynamicsController::RgbwBounds` called
with `WHITE` sets the range `[3, 4)`, called with `RGB` it sets `[0, 3)`; the two calls
do not agree. -/
theorem ColorDynamicsController_white_is_not_rgb :
    ColorDynamicsController.RgbwBounds toUnsignedInt 0 0 .RGBW_CHANNEL_WHITE
        = some { result := true, begin := 3, end' := 4 }
      ∧ ColorDynamicsController.RgbwBounds toUnsignedInt 0 0 .RGBW_CHANNEL_RGB
        = some { result := true, begin := 0, end' := 3 }
      ∧ ColorDynamicsController.RgbwBounds toUnsignedInt 0 0 .RGBW_CHANNEL_WHITE
        ≠ ColorDynamicsController.RgbwBounds toUnsignedInt 0 0 .RGBW_CHANNEL_RGB := by
  decide

/-! ## Version strings -/

/-- C14, the code at the failing input: the versions `2.1.0` and `1.1.5` have the
triples `(2, 1, 0)` and `(1, 1, 5)`, the first is not below the second in the
lexicographic order, and `IsVersionLess` returns true: its third clause compares the
patch numbers as soon as the minor numbers are equal, whatever the major numbers. -/
theorem IsVersionLess_ignores_major :
    versionTriple "2.1.0" = some (2, 1, 0) ∧ versionTriple "1.1.5" = some (1, 1, 5)
      ∧ ¬ versionLexLess (2, 1, 0) (1, 1, 5)
      ∧ IsVersionLess dotSplit decimalToInt "2.1.0" "1.1.5" = some true := by
  decide

/-- C15, the code at the failing input: the versions `1.1.5` and `2.1.0` have the
triples `(1, 1, 5)` and `(2, 1, 0)`, the first is below the second in the lexicographic
order, hence not greater or equal, and `IsVersionGreaterEqual` returns true: its third
clause compares the patch numbers as soon as the minor numbers are equal, whatever the
major numbers. -/
theorem IsVersionGreaterEqual_ignores_major :
    versionTriple "1.1.5" = some (1, 1, 5) ∧ versionTriple "2.1.0" = some (2, 1, 0)
      ∧ versionLexLess (1, 1, 5) (2, 1, 0)
      ∧ IsVersionGreaterEqual dotSplit decimalToInt "1.1.5" "2.1.0" = some true := by
  decide

end mvd

namespace itk

/-- C19: the functor returns zero when the mask pixel `B` is not zero, and the input
pixel `A` cast to the output type when `B` is zero. -/
theorem MaskNegatedInput_masks {TInput TMask TOutput : Type} [Zero TMask] [DecidableEq TMask]
    [Zero TOutput] (cast : TInput → TOutput) (A : TInput) (B : TMask) :
    (B ≠ 0 → Functor.MaskNegatedInput.operator cast A B = 0)
      ∧ (B = 0 → Functor.MaskNegatedInput.operator cast A B = cast A) := by
  constructor
  · intro h
    simp [Functor.MaskNegatedInput.operator, h]
  · intro h
    simp [Functor.MaskNegatedInput.operator, h]

/-- Witness of C19: on integer pixels, the input 7 under the mask 1 gives 0, under the
mask 0 it gives 7. -/
theorem MaskNegatedInput_masks_witness :
    Functor.MaskNegatedInput.operator (fun a : Int => a) 7 (1 : Int) = 0
      ∧ Functor.MaskNegatedInput.operator (fun a : Int => a) 7 (0 : Int) = 7 :=
  ⟨(MaskNegatedInput_masks (fun a : Int => a) 7 (1 : Int)).1 (by decide),
    (MaskNegatedInput_masks (fun a : Int => a) 7 (0 : Int)).2 rfl⟩

end itk
